import Mathlib

/-!
Zinc: shard manager, fan-out search executor, query translator, analysis registry,
mappings and document builder.

A shallow embedding of `pkg/core/index_shards.go` (shard rolling, writer lookup,
reader selection by time range), of `pkg/bluge/search/search.go` (the merge of the
matches of several shard readers), of `pkg/uquery/v2/query/query.go` (the dispatch of
a query object to the parser of its kind), of `pkg/uquery/v2/analysis` (the
construction and lookup of analyzers), of `pkg/core/index.go` (the mappings of an index
and the construction of a document from JSON) and of the handlers `SetMapping`,
`SearchIndex` (v2) and `UpdateDocument`, with the properties proved about them.

Conventions of the embedding.

* `int64` values are `Int`, `uint64` values are `Nat`.  The only arithmetic on them is
  `ShardNum ± 1`; a shard list cannot hold `2^63` entries, so no wrap-around is modelled.
* A Go runtime panic (slice index out of range, failed type assertion, assignment to an
  entry of a nil map, method call on a nil pointer) is the outer `Option` being `none`.
* Go's `(value, error)` results are `Except Err value`.
* Goroutines that touch disjoint shards are run in the order in which they were
  scheduled; channel arrival order is an explicit parameter where it can matter.
-/

namespace Zinc

/-! ## Data model -/

/-- The error kinds the shard manager and the executor can surface.  `runtimeException`
is `errors.New(errors.ErrorTypeRuntimeException, msg)`; `other` stands for an error
produced by an external collaborator (index library, metadata store, query parser). -/
inductive Err where
  | runtimeException (msg : String)
  | other (tag : Nat)
deriving DecidableEq, Repr

/-- A `*bluge.Reader`, identified by the shard whose writer produced it. -/
structure Reader where
  shard : Int
deriving DecidableEq, Repr

/-- A `*bluge.Writer` as far as the shard manager observes it: the two numbers reported by
`DirectoryStats()` and the outcome of `Reader()`. -/
structure Writer where
  shard : Int
  files : Nat
  size : Nat
  readerErr : Option Err
deriving DecidableEq, Repr

/-- The call `w.DirectoryStats()`. -/
def Writer.DirectoryStats (w : Writer) : Nat × Nat := (w.files, w.size)

/-- The call `w.Reader()`. -/
def Writer.Reader (w : Writer) : Except Err Reader :=
  match w.readerErr with
  | some e => .error e
  | none => .ok ⟨w.shard⟩

/-- The record `meta.IndexShard`: identifier, frozen time bounds (zero means unset),
statistics and the lazily opened writer. -/
structure IndexShard where
  ID : Int
  DocTimeMin : Int := 0
  DocTimeMax : Int := 0
  StorageSize : Nat := 0
  Writer : Option Writer := none
deriving DecidableEq, Repr

/-- The part of `core.Index` the shard manager works on: the shard counter, the shard list
and the index-level running time bounds. -/
structure Index where
  ShardNum : Int
  Shards : List IndexShard
  DocTimeMin : Int := 0
  DocTimeMax : Int := 0
deriving DecidableEq, Repr

/-- The outside world of the shard manager: what `OpenIndexWriter` answers for a shard id,
what `metadata.Index.Set` answers, and the configured `config.Global.Shard.MaxSize`. -/
structure Env where
  openIndexWriter : Int → Except Err Writer
  metadataSet : Option Err
  maxSize : Nat

/-- The persisted descriptor of a shard: `(id, doc_time_min, doc_time_max)`. -/
def IndexShard.descriptor (s : IndexShard) : Int × Int × Int :=
  (s.ID, s.DocTimeMin, s.DocTimeMax)

/-- Go slice indexing `index.Shards[i]` with an `int64` index; `none` is the panic. -/
def Index.shardAt (index : Index) (i : Int) : Option IndexShard :=
  if i < 0 then none else index.Shards[i.toNat]?

/-- In-place update through the pointer `index.Shards[i]`. -/
def Index.setShard (index : Index) (i : Int) (s : IndexShard) : Index :=
  { index with Shards := index.Shards.set i.toNat s }

/-! ## `index_shards.go` -/

/-- `Index.GetLatestShardID`. -/
def Index.GetLatestShardID (index : Index) : Int := index.ShardNum - 1

/-- `Index.openWriter`: a no-op when the shard already has a writer, otherwise the
outcome of `OpenIndexWriter` is stored in the shard.  The result carries the error (if
any), the index afterwards and whether `OpenIndexWriter` was called. -/
def Index.openWriter (env : Env) (index : Index) (shard : Int) :
    Option (Option Err × Index × Bool) :=
  match index.shardAt shard with
  | none => none
  | some s =>
    match s.Writer with
    | some _ => some (none, index, false)
    | none =>
      match env.openIndexWriter shard with
      | .ok w => some (none, index.setShard shard { s with Writer := some w }, true)
      | .error e => some (some e, index, true)

/-- Outcome of `Index.GetWriter`: the `(writer, error)` pair (`.ok none` is Go's
`(nil, nil)`), the index afterwards and the shard ids for which `OpenIndexWriter` was
called. -/
structure WriterResult where
  result : Except Err (Option Writer)
  index : Index
  opened : List Int

/-- `Index.GetWriter(shards ...int64)`: the requested shard when exactly one id is passed,
the latest shard otherwise. -/
def Index.GetWriter (env : Env) (index : Index) (shards : List Int) : Option WriterResult :=
  let shard : Int :=
    match shards with
    | [s] => s
    | _ => index.GetLatestShardID
  if shard ≥ index.ShardNum ∨ shard < 0 then
    some ⟨.error (.runtimeException "shard not found"), index, []⟩
  else
    match index.shardAt shard with
    | none => none
    | some s =>
      match s.Writer with
      | some w => some ⟨.ok (some w), index, []⟩
      | none =>
        match index.openWriter env shard with
        | none => none
        | some (some e, index1, called) =>
          some ⟨.error e, index1, if called then [shard] else []⟩
        | some (none, index1, called) =>
          match index1.shardAt shard with
          | none => none
          | some s1 => some ⟨.ok s1.Writer, index1, if called then [shard] else []⟩

/-- Modelled from the spec: `Index.UpdateMetadataByShard` is called by `NewShard` but is
not among the sources.  The spec's rolling step names every change made to the shard
count, the shard list and the time bounds (freeze, zero, allocate, persist) and gives the
metadata refresh none of them; it is modelled as refreshing the storage statistics of
shard `n` from its writer when one is open, and as doing nothing otherwise. -/
def Index.UpdateMetadataByShard (index : Index) (n : Int) : Index :=
  match index.shardAt n with
  | none => index
  | some s =>
    match s.Writer with
    | none => index
    | some w => index.setShard n { s with StorageSize := w.DirectoryStats.2 }

/-- `Index.NewShard`: returns the error (if any) and the index afterwards. -/
def Index.NewShard (env : Env) (index : Index) : Option (Option Err × Index) :=
  let index0 := index.UpdateMetadataByShard index.GetLatestShardID
  match index0.shardAt (index0.ShardNum - 1) with
  | none => none
  | some shard =>
    let index1 := index0.setShard (index0.ShardNum - 1)
      { shard with DocTimeMin := index0.DocTimeMin, DocTimeMax := index0.DocTimeMax }
    let index2 : Index := { index1 with DocTimeMin := 0, DocTimeMax := 0 }
    let index3 : Index := { index2 with ShardNum := index2.ShardNum + 1 }
    let index4 : Index :=
      { index3 with Shards := index3.Shards ++ [{ ID := index3.GetLatestShardID }] }
    match env.metadataSet with
    | some e => some (some e, index4)
    | none =>
      match index4.openWriter env index4.GetLatestShardID with
      | none => none
      | some (err, index5, _) => some (err, index5)

/-- `Index.CheckShards`: returns the error (if any) and the index afterwards. -/
def Index.CheckShards (env : Env) (index : Index) : Option (Option Err × Index) :=
  match index.GetWriter env [] with
  | none => none
  | some r =>
    match r.result with
    | .error e => some (some e, r.index)
    | .ok none => none
    | .ok (some w) =>
      if w.DirectoryStats.2 > env.maxSize then r.index.NewShard env
      else some (none, r.index)

/-- One iteration of the loop of `GetReaders`: the loop variable and whether a goroutine
opening a reader was scheduled for it (`false`: the `continue` branch was taken). -/
structure Visit where
  shard : Nat
  scheduled : Bool
deriving DecidableEq, Repr

/-- The loop `for i := index.GetLatestShardID(); i >= 0; i--` of `GetReaders`, with
`n = i + 1` iterations left to run at most. -/
def Index.visitShards (index : Index) (timeMin timeMax : Int) : Nat → Option (List Visit)
  | 0 => some []
  | i + 1 =>
    match index.shardAt i with
    | none => none
    | some s =>
      let sMin := s.DocTimeMin
      let sMax := s.DocTimeMax
      if (timeMin > 0 ∧ sMax > 0 ∧ sMax < timeMin) ∨
          (timeMax > 0 ∧ sMin > 0 ∧ sMin > timeMax) then
        (index.visitShards timeMin timeMax i).map (fun vs => ⟨i, false⟩ :: vs)
      else if sMin > 0 ∧ sMin < timeMin then
        some [⟨i, true⟩]
      else
        (index.visitShards timeMin timeMax i).map (fun vs => ⟨i, true⟩ :: vs)

/-- What the scheduled goroutines of `GetReaders` leave behind: per goroutine the reader or
the error, the index afterwards, and the shard ids passed to `GetWriter`. -/
structure OpenTrace where
  outcomes : List (Except Err Reader)
  index : Index
  writerCalls : List Int

/-- The goroutines `eg.Go(func() ...)` of `GetReaders`, one per scheduled shard id.  Each one
touches only its own shard; they are run in scheduling order. -/
def Index.openReaders (env : Env) (index : Index) : List Nat → Option OpenTrace
  | [] => some ⟨[], index, []⟩
  | i :: rest =>
    match index.GetWriter env [(i : Int)] with
    | none => none
    | some r =>
      let outcome : Option (Except Err Reader) :=
        match r.result with
        | .error e => some (.error e)
        | .ok none => none
        | .ok (some w) => some w.Reader
      match outcome with
      | none => none
      | some o =>
        match r.index.openReaders env rest with
        | none => none
        | some t => some ⟨o :: t.outcomes, t.index, (i : Int) :: t.writerCalls⟩

/-- The result of `eg.Wait()` followed by draining the channel: the first error, or all
the readers. -/
def collectReaders : List (Except Err Reader) → Except Err (List Reader)
  | [] => .ok []
  | .error e :: _ => .error e
  | .ok r :: rest =>
    match collectReaders rest with
    | .error e => .error e
    | .ok rs => .ok (r :: rs)

/-- Outcome of `Index.GetReaders`: the returned `(readers, error)`, the index afterwards,
the iterations the loop ran and the shard ids passed to `GetWriter`. -/
structure ReadersResult where
  result : Except Err (List Reader)
  index : Index
  visited : List Visit
  writerCalls : List Int

/-- `Index.GetReaders(timeMin, timeMax)`. -/
def Index.GetReaders (env : Env) (index : Index) (timeMin timeMax : Int) :
    Option ReadersResult :=
  match index.visitShards timeMin timeMax (index.GetLatestShardID + 1).toNat with
  | none => none
  | some visited =>
    match index.openReaders env ((visited.filter (·.scheduled)).map (·.shard)) with
    | none => none
    | some t => some ⟨collectReaders t.outcomes, t.index, visited, t.writerCalls⟩

/-! ## `search.go`: data model -/

/-- A `*search.DocumentMatch` as far as the merge observes it: the document identifier and
the values of the sort keys. -/
structure DocumentMatch where
  id : Nat
  sortValue : List Nat
deriving DecidableEq, Repr

/-- A `search.SortOrder`: whether the Go value is `nil`, and its method
`Compare(i, j)` (negative: `i` ranks before `j`). -/
structure SortOrder where
  isNil : Bool
  Compare : DocumentMatch → DocumentMatch → Int

/-- The comparator is a total preorder: swapping the arguments swaps the sign, and
"ranks no later than" is transitive. -/
structure SortOrder.IsTotalPreorder (sort : SortOrder) : Prop where
  swap : ∀ a b, sort.Compare a b < 0 ↔ 0 < sort.Compare b a
  trans : ∀ a b c, sort.Compare a b ≤ 0 → sort.Compare b c ≤ 0 → sort.Compare a c ≤ 0

/-- A `*search.Bucket` as far as the executor observes it: the matches passed to
`Consume` and whether `Finish` was called. -/
structure Bucket where
  consumed : List DocumentMatch
  finished : Bool
deriving DecidableEq, Repr

/-- The call `search.NewBucket("", aggs)`. -/
def NewBucket : Bucket := ⟨[], false⟩

/-- The call `bucket.Consume(doc)`. -/
def Bucket.Consume (b : Bucket) (doc : DocumentMatch) : Bucket :=
  { b with consumed := b.consumed ++ [doc] }

/-- The call `bucket.Finish()`. -/
def Bucket.Finish (b : Bucket) : Bucket := { b with finished := true }

/-- The struct `DocumentList`; a `nil` bucket is `none`. -/
structure DocumentList where
  docs : List DocumentMatch := []
  bucket : Option Bucket := none
  size : Int := 0
  next : Int := 0
deriving DecidableEq, Repr

/-! ## The collector store -/

/-- Modelled from the spec: the collector store (`collector.NewCollectorStore`) belongs to
the index library and is not among the sources.  The spec describes it as the top-K store
of the merge, ordered by the global sort comparator.  It is modelled as the list of the
matches held, best first; `add` puts a match behind every held match that does not rank
after it. -/
def CollectorStore.add (sort : SortOrder) (doc : DocumentMatch) :
    List DocumentMatch → List DocumentMatch
  | [] => [doc]
  | e :: rest =>
    if sort.Compare doc e < 0 then doc :: e :: rest
    else e :: CollectorStore.add sort doc rest

/-- Modelled from the spec: `store.AddNotExceedingSize(doc, size)` adds the match and, when
the store then holds more than `size` matches, removes the lowest-ranked one and returns
it. -/
def CollectorStore.AddNotExceedingSize (sort : SortOrder) (store : List DocumentMatch)
    (doc : DocumentMatch) (size : Nat) : List DocumentMatch × Option DocumentMatch :=
  let added := CollectorStore.add sort doc store
  if added.length > size then (added.dropLast, added.getLast?) else (added, none)

/-- Modelled from the spec: `store.Final(skip, fixup)` materialises the store in rank order
without its first `skip` matches ("apply `skip`"); the `fixup` passed by `Done` never
fails. -/
def CollectorStore.Final (store : List DocumentMatch) (skip : Nat) : List DocumentMatch :=
  store.drop skip

/-- The full ranking of a list of matches: every match added to a store that never removes
anything. -/
def rankAll (sort : SortOrder) (docs : List DocumentMatch) : List DocumentMatch :=
  docs.foldl (fun store d => CollectorStore.add sort d store) []

/-! ## `DocumentList` -/

/-- `DocumentList.addDocument`. -/
def DocumentList.addDocument (d : DocumentList) (doc : DocumentMatch) : DocumentList :=
  { d with docs := d.docs ++ [doc] }

/-- The two local variables the loop of `Done` carries besides the store. -/
structure DoneState where
  store : List DocumentMatch
  lowestMatchOutsideResults : Option DocumentMatch
deriving DecidableEq, Repr

/-- One iteration of `for _, d := range d.docs` in `Done`. -/
def DocumentList.doneStep (sort : SortOrder) (backingSize : Nat) (st : DoneState)
    (d : DocumentMatch) : DoneState :=
  let skipped : Bool :=
    match st.lowestMatchOutsideResults with
    | some lowest => decide (sort.Compare d lowest ≥ 0)
    | none => false
  if skipped then st
  else
    let (store, removed) := CollectorStore.AddNotExceedingSize sort st.store d backingSize
    match removed with
    | none => ⟨store, st.lowestMatchOutsideResults⟩
    | some r =>
      match st.lowestMatchOutsideResults with
      | none => ⟨store, some r⟩
      | some lowest =>
        if sort.Compare r lowest < 0 then ⟨store, some r⟩ else ⟨store, some lowest⟩

/-- `DocumentList.Done(size, skip, numSearchers, reversed, sort)`; `size` and `skip` are
the non-negative numbers of the request.  `none` is the panic of `Finish` on a `nil`
bucket; the error result is never produced because the fixup passed to `Final` returns
`nil`. -/
def DocumentList.Done (d : DocumentList) (size skip numSearchers : Nat) (reversed : Bool)
    (sort : SortOrder) : Option (Except Err DocumentList) :=
  match d.bucket with
  | none => none
  | some bucket =>
    let backingSize := (size + skip + 1) * numSearchers
    let st := d.docs.foldl (DocumentList.doneStep sort backingSize) ⟨[], none⟩
    let results := CollectorStore.Final st.store skip
    let results := if reversed then results.reverse else results
    some (.ok { d with bucket := some bucket.Finish, docs := results })

/-- `DocumentList.Next`: the returned `(match, error)` pair (`.ok none` is `(nil, nil)`) and
the list afterwards; `none` is an out-of-range access to `docs`. -/
def DocumentList.Next (d : DocumentList) :
    Option (Except Err (Option DocumentMatch) × DocumentList) :=
  if d.next ≥ d.size ∨ d.next ≥ (d.docs.length : Int) then some (.ok none, d)
  else if d.next < 0 then none
  else
    match d.docs[d.next.toNat]? with
    | none => none
    | some doc => some (.ok (some doc), { d with next := d.next + 1 })

/-- `DocumentList.Aggregations`. -/
def DocumentList.Aggregations (d : DocumentList) : Option Bucket := d.bucket

/-- The matches a caller obtains by calling `Next` until it answers `(nil, nil)`, at most
`fuel` times. -/
def DocumentList.drain : Nat → DocumentList → Option (List DocumentMatch)
  | 0, _ => some []
  | fuel + 1, d =>
    match d.Next with
    | none => none
    | some (.error _, _) => some []
    | some (.ok none, _) => some []
    | some (.ok (some doc), d1) => (DocumentList.drain fuel d1).map (fun l => doc :: l)

/-! ## `MultiSearch` -/

/-- What `uquery.ParseQueryDSL` hands to the executor: the request's sort order and
`SizeSkipAndReversed()`. -/
structure SearchRequest where
  sort : SortOrder
  size : Nat
  skip : Nat
  reversed : Bool

/-- A shard reader as far as the executor observes it: the error of `r.Search` (if any),
the matches its iterator yields, and the error that ends the iteration (if any). -/
structure ReaderRun where
  searchErr : Option Err := none
  emitted : List DocumentMatch := []
  nextErr : Option Err := none
deriving DecidableEq, Repr

/-- The error a worker goroutine returns. -/
def ReaderRun.err (r : ReaderRun) : Option Err :=
  match r.searchErr with
  | some e => some e
  | none => r.nextErr

/-- The matches a worker sends into the channel `docs`. -/
def ReaderRun.sent (r : ReaderRun) : List DocumentMatch :=
  match r.searchErr with
  | some _ => []
  | none => r.emitted

/-- The variables `sort`, `size`, `skip`, `reversed` of `MultiSearch`. -/
structure SearchVars where
  sort : SortOrder
  size : Nat
  skip : Nat
  reversed : Bool

/-- The request-parsing part of the loop `for _, r := range readers`: the `k`-th call of
`ParseQueryDSL` answers `parse k`; the variables are (re)initialised while `sort` is still
`nil` (`none`: not yet assigned). -/
def parseRequests (parse : Nat → Except Err SearchRequest) :
    Nat → List ReaderRun → Option SearchVars → Except Err (Option SearchVars)
  | _, [], vars => .ok vars
  | k, _ :: rest, vars =>
    match parse k with
    | .error e => .error e
    | .ok req =>
      let sortIsNil : Bool :=
        match vars with
        | none => true
        | some v => v.sort.isNil
      let vars1 : Option SearchVars :=
        if sortIsNil then some ⟨req.sort, req.size, req.skip, req.reversed⟩ else vars
      parseRequests parse (k + 1) rest vars1

/-- The result of `eg.Wait()`: the error of a failed worker.  Which failed worker is first
depends on timing; the model reports the first in reader order. -/
def firstWorkerError : List ReaderRun → Option Err
  | [] => none
  | r :: rest =>
    match r.err with
    | some e => some e
    | none => firstWorkerError rest

/-- The value of `docList.size` once the workers are done: the largest number of matches a
single worker counted. -/
def maxEmitted : List ReaderRun → Int
  | [] => 0
  | r :: rest => max (r.sent.length : Int) (maxEmitted rest)

/-- What `MultiSearch` returns: its own `DocumentList`, or the iterator of the single
reader. -/
inductive MatchIterator where
  | merged (d : DocumentList)
  | single (r : ReaderRun)
deriving DecidableEq, Repr

/-- `MultiSearch(ctx, query, mappings, analyzers, readers...)`.  `arrival` is the order in
which the channel `docs` delivers the matches the workers send, as a function of what each
worker sends. -/
def MultiSearch (parse : Nat → Except Err SearchRequest)
    (arrival : List (List DocumentMatch) → List DocumentMatch) (readers : List ReaderRun) :
    Option (Except Err MatchIterator) :=
  match readers with
  | [] => some (.ok (.merged { bucket := some NewBucket }))
  | [r] =>
    match parse 0 with
    | .error e => some (.error e)
    | .ok _ =>
      match r.searchErr with
      | some e => some (.error e)
      | none => some (.ok (.single r))
  | _ =>
    match parseRequests parse 0 readers none with
    | .error e => some (.error e)
    | .ok none => none
    | .ok (some v) =>
      match firstWorkerError readers with
      | some e => some (.error e)
      | none =>
        let received := arrival (readers.map ReaderRun.sent)
        let docList : DocumentList :=
          received.foldl (fun d doc => { d.addDocument doc with
              bucket := d.bucket.map (fun b => b.Consume doc) })
            { bucket := some NewBucket, size := maxEmitted readers }
        match docList.Done v.size v.skip readers.length v.reversed v.sort with
        | none => none
        | some (.error e) => some (.error e)
        | some (.ok d) => some (.ok (.merged d))

/-- `n` successive calls of `Next`: the pairs returned, in call order, and the list
afterwards. -/
def DocumentList.nextTimes :
    Nat → DocumentList → Option (List (Except Err (Option DocumentMatch)) × DocumentList)
  | 0, d => some ([], d)
  | n + 1, d =>
    match d.Next with
    | none => none
    | some (r, d1) =>
      match DocumentList.nextTimes n d1 with
      | none => none
      | some (rs, d2) => some (r :: rs, d2)

/-! ## Errors and mappings of the query and analysis packages -/

/-- The error kinds `ErrorType...` used by the query translator and the analysis
registry. -/
inductive ErrorType where
  | ParsingException
  | XContentParseException
  | MappingException
  | NotFoundException
  | RuntimeException
  | StorageException
deriving DecidableEq, Repr

/-- The error value built by `NewError(type, reason)` / `errors.New(type, reason)`, with the
optional `.Cause(err)`. -/
structure Error where
  typ : ErrorType
  reason : String
  cause : Option Err := none
deriving DecidableEq, Repr

/-- The record `meta.Property`; `Type_` is the Go field `Type`. -/
structure Property where
  Type_ : String
  Analyzer : String := ""
  SearchAnalyzer : String := ""
  Format : String := ""
  Index : Bool := true
  Store : Bool := false
  Sortable : Bool := false
  Aggregatable : Bool := false
  Highlightable : Bool := false
deriving DecidableEq, Repr

/-- The record `meta.Mappings`: the Go map `Properties` as the list of its entries.
`nilMap` tells that the map is `nil`: a nil map has no entries, reads like an empty map and
panics on assignment. -/
structure Mappings where
  Properties : List (String × Property)
  nilMap : Bool := false
deriving DecidableEq, Repr

/-! ## `query.go` -/

/-- The content of a JSON object (`map[string]interface{}`) that is handed on unread. -/
structure RawObject where
  tag : Nat
deriving DecidableEq, Repr

/-- A value of the query map as `Query` observes it: a JSON object, or anything else, of
which only the Go type name printed by `%T` is used. -/
inductive QueryValue where
  | object (v : RawObject)
  | other (goType : String)
deriving DecidableEq, Repr

/-- A non-nil `bluge.Query` built by a sub-parser. -/
structure BlugeQuery where
  tag : Nat
deriving DecidableEq, Repr

/-- Modelled from the spec: the sub-parsers called by `Query` (`BoolQuery`, `MatchQuery`,
...) are not among the sources.  Each is taken as a parameter that, for the object it is
given, either fails with an error or returns a (non-nil) query; `BoolQuery` and
`RangeQuery` also receive the mappings. -/
structure SubParsers where
  BoolQuery : RawObject → Option Mappings → Except Err BlugeQuery
  BoostingQuery : RawObject → Except Err BlugeQuery
  MatchQuery : RawObject → Except Err BlugeQuery
  MatchBoolPrefixQuery : RawObject → Except Err BlugeQuery
  MatchPhraseQuery : RawObject → Except Err BlugeQuery
  MatchPhrasePrefixQuery : RawObject → Except Err BlugeQuery
  MultiMatchQuery : RawObject → Except Err BlugeQuery
  MatchAllQuery : RawObject → Except Err BlugeQuery
  MatchNoneQuery : RawObject → Except Err BlugeQuery
  CombinedFieldsQuery : RawObject → Except Err BlugeQuery
  QueryStringQuery : RawObject → Except Err BlugeQuery
  SimpleQueryStringQuery : RawObject → Except Err BlugeQuery
  ExistsQuery : RawObject → Except Err BlugeQuery
  IdsQuery : RawObject → Except Err BlugeQuery
  RangeQuery : RawObject → Option Mappings → Except Err BlugeQuery
  RegexpQuery : RawObject → Except Err BlugeQuery
  PrefixQuery : RawObject → Except Err BlugeQuery
  FuzzyQuery : RawObject → Except Err BlugeQuery
  WildcardQuery : RawObject → Except Err BlugeQuery
  TermQuery : RawObject → Except Err BlugeQuery
  TermsQuery : RawObject → Except Err BlugeQuery
  TermsSetQuery : RawObject → Except Err BlugeQuery
  GeoBoundingBoxQuery : RawObject → Except Err BlugeQuery
  GeoDistanceQuery : RawObject → Except Err BlugeQuery
  GeoPolygonQuery : RawObject → Except Err BlugeQuery
  GeoShapeQuery : RawObject → Except Err BlugeQuery

/-- The branch `if subq, err = XQuery(v); err != nil { return nil, NewError(
ErrorTypeXContentParseException, "[x] failed to parse field").Cause(err) }` of one case. -/
def parseField (kind : String) (r : Except Err BlugeQuery) : Except Error BlugeQuery :=
  match r with
  | .error err =>
    .error ⟨.XContentParseException, "[" ++ kind ++ "] failed to parse field", some err⟩
  | .ok subq => .ok subq

/-- The `switch k` of `Query`. -/
def querySwitch (sub : SubParsers) (k : String) (v : RawObject) (mappings : Option Mappings) :
    Except Error BlugeQuery :=
  if k = "bool" then parseField "bool" (sub.BoolQuery v mappings)
  else if k = "boosting" then parseField "boosting" (sub.BoostingQuery v)
  else if k = "match" then parseField "match" (sub.MatchQuery v)
  else if k = "match_bool_prefix" then
    parseField "match_bool_prefix" (sub.MatchBoolPrefixQuery v)
  else if k = "match_phrase" then parseField "match_phrase" (sub.MatchPhraseQuery v)
  else if k = "match_phrase_prefix" then
    parseField "match_phrase_prefix" (sub.MatchPhrasePrefixQuery v)
  else if k = "multi_match" then parseField "multi_match" (sub.MultiMatchQuery v)
  else if k = "match_all" then parseField "match_all" (sub.MatchAllQuery v)
  else if k = "match_none" then parseField "match_none" (sub.MatchNoneQuery v)
  else if k = "combined_fields" then parseField "combined_fields" (sub.CombinedFieldsQuery v)
  else if k = "query_string" then parseField "query_string" (sub.QueryStringQuery v)
  else if k = "simple_query_string" then
    parseField "simple_query_string" (sub.SimpleQueryStringQuery v)
  else if k = "exists" then parseField "exists" (sub.ExistsQuery v)
  else if k = "ids" then parseField "ids" (sub.IdsQuery v)
  else if k = "range" then parseField "range" (sub.RangeQuery v mappings)
  else if k = "regexp" then parseField "regexp" (sub.RegexpQuery v)
  else if k = "prefix" then parseField "prefix" (sub.PrefixQuery v)
  else if k = "fuzzy" then parseField "fuzzy" (sub.FuzzyQuery v)
  else if k = "wildcard" then parseField "wildcard" (sub.WildcardQuery v)
  else if k = "term" then parseField "term" (sub.TermQuery v)
  else if k = "terms" then parseField "terms" (sub.TermsQuery v)
  else if k = "terms_set" then parseField "terms_set" (sub.TermsSetQuery v)
  else if k = "geo_bounding_box" then
    parseField "geo_bounding_box" (sub.GeoBoundingBoxQuery v)
  else if k = "geo_distance" then parseField "geo_distance" (sub.GeoDistanceQuery v)
  else if k = "geo_polygon" then parseField "geo_polygon" (sub.GeoPolygonQuery v)
  else if k = "geo_shape" then parseField "geo_shape" (sub.GeoShapeQuery v)
  else .error ⟨.ParsingException, "[" ++ k ++ "] query doesn't support", none⟩

/-- The loop `for k, t := range query` of `Query`, over the entries of the map in the order
in which the iteration visits them, with the variables `subq` (`none`: nil) and `cmd`.
`ToLower` is `strings.ToLower`. -/
def queryLoop (ToLower : String → String) (sub : SubParsers) (mappings : Option Mappings) :
    List (String × QueryValue) → Option BlugeQuery → String → Except Error (Option BlugeQuery)
  | [], subq, _ => .ok subq
  | (k0, t) :: rest, subq, cmd =>
    if subq.isSome ∧ cmd ≠ "" then
      .error ⟨.ParsingException,
        "[" ++ cmd ++ "] malformed query, excepted [END_OBJECT] but found [FIELD_NAME] " ++ k0,
        none⟩
    else
      let k := ToLower k0
      match t with
      | .other goType =>
        .error ⟨.ParsingException,
          "[" ++ k ++ "] query doesn't support value type " ++ goType, none⟩
      | .object v =>
        match querySwitch sub k v mappings with
        | .error e => .error e
        | .ok q => queryLoop ToLower sub mappings rest (some q) k

/-- `Query(query, mappings)`: the query (`none`: nil) or the error. -/
def Query (ToLower : String → String) (sub : SubParsers)
    (query : List (String × QueryValue)) (mappings : Option Mappings) :
    Except Error (Option BlugeQuery) :=
  queryLoop ToLower sub mappings query none ""

/-- The 26 query kinds the spec lists as supported. -/
def supportedKinds : List String :=
  ["bool", "boosting", "match", "match_bool_prefix", "match_phrase", "match_phrase_prefix",
   "multi_match", "match_all", "match_none", "combined_fields", "query_string",
   "simple_query_string", "exists", "ids", "range", "regexp", "prefix", "fuzzy", "wildcard",
   "term", "terms", "terms_set", "geo_bounding_box", "geo_distance", "geo_polygon",
   "geo_shape"]

/-- The sub-parser that belongs to each supported kind, by name. -/
def SubParsers.forKind (sub : SubParsers) (kind : String) :
    Option (RawObject → Option Mappings → Except Err BlugeQuery) :=
  [("bool", sub.BoolQuery),
   ("boosting", fun v _ => sub.BoostingQuery v),
   ("match", fun v _ => sub.MatchQuery v),
   ("match_bool_prefix", fun v _ => sub.MatchBoolPrefixQuery v),
   ("match_phrase", fun v _ => sub.MatchPhraseQuery v),
   ("match_phrase_prefix", fun v _ => sub.MatchPhrasePrefixQuery v),
   ("multi_match", fun v _ => sub.MultiMatchQuery v),
   ("match_all", fun v _ => sub.MatchAllQuery v),
   ("match_none", fun v _ => sub.MatchNoneQuery v),
   ("combined_fields", fun v _ => sub.CombinedFieldsQuery v),
   ("query_string", fun v _ => sub.QueryStringQuery v),
   ("simple_query_string", fun v _ => sub.SimpleQueryStringQuery v),
   ("exists", fun v _ => sub.ExistsQuery v),
   ("ids", fun v _ => sub.IdsQuery v),
   ("range", sub.RangeQuery),
   ("regexp", fun v _ => sub.RegexpQuery v),
   ("prefix", fun v _ => sub.PrefixQuery v),
   ("fuzzy", fun v _ => sub.FuzzyQuery v),
   ("wildcard", fun v _ => sub.WildcardQuery v),
   ("term", fun v _ => sub.TermQuery v),
   ("terms", fun v _ => sub.TermsQuery v),
   ("terms_set", fun v _ => sub.TermsSetQuery v),
   ("geo_bounding_box", fun v _ => sub.GeoBoundingBoxQuery v),
   ("geo_distance", fun v _ => sub.GeoDistanceQuery v),
   ("geo_polygon", fun v _ => sub.GeoPolygonQuery v),
   ("geo_shape", fun v _ => sub.GeoShapeQuery v)].lookup kind

/-! ## The analysis registry: data model -/

/-- An `analysis.Tokenizer`: the regexp tokenizer built from a pattern, or any other
tokenizer, identified by a name. -/
inductive Tokenizer where
  | regexp (pattern : String)
  | named (name : String)
deriving DecidableEq, Repr

/-- An `analysis.CharFilter`, identified by a name. -/
structure CharFilter where
  name : String
deriving DecidableEq, Repr

/-- An `analysis.TokenFilter`: the lower-case filter, the stop filter over a word list, or
any other filter, identified by a name. -/
inductive TokenFilter where
  | lowerCase
  | stop (stopwords : List String)
  | named (name : String)
deriving DecidableEq, Repr

/-- The record `analysis.Analyzer`; a nil tokenizer is `none`. -/
structure Analyzer where
  CharFilters : List CharFilter := []
  Tokenizer : Option Tokenizer := none
  TokenFilters : List TokenFilter := []
deriving DecidableEq, Repr

/-- Modelled from the spec: the `options` value of the built-in constructors as
`zutils.GetStringFromMap`, `GetBoolFromMap` and `GetStringSliceFromMap` (not among the
sources) read it.  The spec lets `pattern` and `lowercase` fall back to their defaults when
they are not supplied, so each getter is taken to fail when the key is absent or holds a
value of another type: that is a field being `none`. -/
structure AnalyzerOptions where
  pattern : Option String := none
  lowercase : Option Bool := none
  stopwords : Option (List String) := none
deriving DecidableEq, Repr

/-- Modelled from the spec: `zutils.GetStringFromMap(options, "pattern")`, the string and
whether an error is returned; `options` may be nil. -/
def GetStringFromMap (options : Option AnalyzerOptions) : String × Bool :=
  match options.bind (·.pattern) with
  | some s => (s, false)
  | none => ("", true)

/-- Modelled from the spec: `zutils.GetBoolFromMap(options, "lowercase")`, the boolean and
whether an error is returned. -/
def GetBoolFromMap (options : Option AnalyzerOptions) : Bool × Bool :=
  match options.bind (·.lowercase) with
  | some b => (b, false)
  | none => (false, true)

/-- Modelled from the spec: `zutils.GetStringSliceFromMap(options, "stopwords")`, the words
and whether an error is returned. -/
def GetStringSliceFromMap (options : Option AnalyzerOptions) : List String × Bool :=
  match options.bind (·.stopwords) with
  | some l => (l, false)
  | none => ([], true)

/-- The record `meta.Analyzer`, one declared analyzer.  `Type_` is the Go field `Type`;
a nil slice is `none`; `Lowercase` is the value stored under `"lowercase"` as
`GetBoolFromMap` reads it. -/
structure AnalyzerDecl where
  CharFilter : List String := []
  Tokenizer : String := ""
  TokenFilter : Option (List String) := none
  Filter : Option (List String) := none
  Type_ : String := ""
  Pattern : String := ""
  Lowercase : Option Bool := some false
  Stopwords : List String := []
deriving DecidableEq, Repr

/-- The record `meta.IndexAnalysis`: the declared analyzers (the Go map as the list of its
entries in iteration order, `none`: nil) and the raw declarations of user-defined
components. -/
structure IndexAnalysis where
  Analyzer : Option (List (String × AnalyzerDecl)) := none
  CharFilter : Option RawObject := none
  Tokenizer : Option RawObject := none
  TokenFilter : Option RawObject := none
  Filter : Option RawObject := none
deriving DecidableEq, Repr

/-- Modelled from the spec: the parts of the analysis registry that are not among the
sources, taken as parameters.  `RequestCharFilter`, `RequestTokenFilter` and
`RequestTokenizer` build the user-defined components from their raw declarations;
`Request...Single name` is `Request...Single(name, nil)` having answered a non-nil built-in
component and no error (`none` otherwise); the remaining fields are the built-in analyzer
constructors, `strings.ToLower`, and `regexp.Compile` as the error message for a pattern
that does not compile. -/
structure AnalysisEnv where
  ToLower : String → String
  regexpCompileError : String → Option String
  RequestCharFilter : Option RawObject → Except Error (List (String × CharFilter))
  RequestTokenFilter : Option RawObject → Except Error (List (String × TokenFilter))
  RequestTokenizer : Option RawObject → Except Error (List (String × Tokenizer))
  RequestCharFilterSingle : String → Option CharFilter
  RequestTokenFilterSingle : String → Option TokenFilter
  RequestTokenizerSingle : String → Option Tokenizer
  NewStandardAnalyzer : Option AnalyzerOptions → Except Error Analyzer
  NewStopAnalyzer : Option AnalyzerOptions → Except Error Analyzer
  NewWhitespaceAnalyzer : Except Error Analyzer
  NewKeywordAnalyzer : Analyzer
  NewSimpleAnalyzer : Analyzer
  NewWebAnalyzer : Analyzer

/-- Every error the parameters of the registry raise is a `ParsingException`, as the spec
has it for the registry. -/
structure AnalysisEnv.RaisesParsingExceptions (env : AnalysisEnv) : Prop where
  charFilter : ∀ raw e, env.RequestCharFilter raw = .error e → e.typ = .ParsingException
  tokenFilter : ∀ raw e, env.RequestTokenFilter raw = .error e → e.typ = .ParsingException
  tokenizer : ∀ raw e, env.RequestTokenizer raw = .error e → e.typ = .ParsingException
  standard : ∀ o e, env.NewStandardAnalyzer o = .error e → e.typ = .ParsingException
  stop : ∀ o e, env.NewStopAnalyzer o = .error e → e.typ = .ParsingException

/-- Every built-in analyzer constructor returns an analyzer that has a tokenizer. -/
structure AnalysisEnv.BuiltinsHaveTokenizer (env : AnalysisEnv) : Prop where
  standard : ∀ o a, env.NewStandardAnalyzer o = .ok a → a.Tokenizer ≠ none
  stop : ∀ o a, env.NewStopAnalyzer o = .ok a → a.Tokenizer ≠ none
  whitespace : ∀ a, env.NewWhitespaceAnalyzer = .ok a → a.Tokenizer ≠ none
  keyword : env.NewKeywordAnalyzer.Tokenizer ≠ none
  simple : env.NewSimpleAnalyzer.Tokenizer ≠ none
  web : env.NewWebAnalyzer.Tokenizer ≠ none

/-! ## `analyzer/regexp.go` and `tokenizer/regexp.go` -/

/-- `NewRegexpAnalyzer(options)`. -/
def NewRegexpAnalyzer (regexpCompileError : String → Option String)
    (options : Option AnalyzerOptions) : Except Error Analyzer :=
  let pattern := (GetStringFromMap options).1
  let pattern := if pattern = "" then "\\w+" else pattern
  let lowerCase := if (GetBoolFromMap options).2 then true else (GetBoolFromMap options).1
  let stopwords := (GetStringSliceFromMap options).1
  match regexpCompileError pattern with
  | some msg =>
    .error ⟨.ParsingException,
      "[analyzer] regexp option [pattern] compile error: " ++ msg, none⟩
  | none =>
    let ana : Analyzer := { Tokenizer := some (.regexp pattern) }
    let ana : Analyzer :=
      if lowerCase then { ana with TokenFilters := ana.TokenFilters ++ [.lowerCase] } else ana
    let ana : Analyzer :=
      if stopwords.length > 0 then
        { ana with TokenFilters := ana.TokenFilters ++ [.stop stopwords] }
      else ana
    .ok ana

/-- `NewRegexpTokenizer(options)`. -/
def NewRegexpTokenizer (regexpCompileError : String → Option String)
    (options : Option AnalyzerOptions) : Except Error Tokenizer :=
  let pattern := (GetStringFromMap options).1
  let pattern := if pattern.length = 0 then "\\w+" else pattern
  match regexpCompileError pattern with
  | some msg =>
    .error ⟨.ParsingException,
      "[tokenizer] regexp option [pattern] compile error: " ++ msg, none⟩
  | none => .ok (.regexp pattern)

/-! ## `analyzer.go` -/

/-- The analyzer types the `switch v.Type` of `RequestAnalyzer` knows. -/
def analyzerTypes : List String :=
  ["custom", "regexp", "pattern", "standard", "stop", "whitespace", "keyword", "simple", "web"]

/-- The `switch v.Type` of `RequestAnalyzer` with the `if err != nil` behind it, for a
non-empty `v.Type`: the built-in analyzer (`none`: `ana` stays nil) or the error. -/
def builtinAnalyzer (env : AnalysisEnv) (v : AnalyzerDecl) : Except Error (Option Analyzer) :=
  let typ := env.ToLower v.Type_
  if typ = "custom" then .ok none
  else if typ = "regexp" ∨ typ = "pattern" then
    match NewRegexpAnalyzer env.regexpCompileError
        (some { pattern := some v.Pattern, lowercase := v.Lowercase,
                stopwords := some v.Stopwords }) with
    | .error e => .error e
    | .ok a => .ok (some a)
  else if typ = "standard" then
    match env.NewStandardAnalyzer (some { stopwords := some v.Stopwords }) with
    | .error e => .error e
    | .ok a => .ok (some a)
  else if typ = "stop" then
    match env.NewStopAnalyzer (some { stopwords := some v.Stopwords }) with
    | .error e => .error e
    | .ok a => .ok (some a)
  else if typ = "whitespace" then
    match env.NewWhitespaceAnalyzer with
    | .error _ => .ok none
    | .ok a => .ok (some a)
  else if typ = "keyword" then .ok (some env.NewKeywordAnalyzer)
  else if typ = "simple" then .ok (some env.NewSimpleAnalyzer)
  else if typ = "web" then .ok (some env.NewWebAnalyzer)
  else
    .error ⟨.ParsingException,
      "[analyzer] build-in [" ++ typ ++ "] doesn't support custom", none⟩

/-- The loop `for _, filterName := range v.CharFilter`: the built-in of that name when
there is one, else the user-defined one, else the error. -/
def requestCharFilters (env : AnalysisEnv) (charFilters : List (String × CharFilter))
    (name : String) : List String → Except Error (List CharFilter)
  | [] => .ok []
  | filterName :: rest =>
    let found : Option CharFilter :=
      match env.RequestCharFilterSingle filterName with
      | some filter => some filter
      | none => charFilters.lookup filterName
    match found with
    | none =>
      .error ⟨.ParsingException,
        "[analyzer] [" ++ name ++ "] used undefined char_filter [" ++ filterName ++ "]", none⟩
    | some filter =>
      match requestCharFilters env charFilters name rest with
      | .error e => .error e
      | .ok chars => .ok (filter :: chars)

/-- The loop `for _, filterName := range v.TokenFilter`. -/
def requestTokenFilters (env : AnalysisEnv) (tokenFilters : List (String × TokenFilter))
    (name : String) : List String → Except Error (List TokenFilter)
  | [] => .ok []
  | filterName :: rest =>
    let found : Option TokenFilter :=
      match env.RequestTokenFilterSingle filterName with
      | some filter => some filter
      | none => tokenFilters.lookup filterName
    match found with
    | none =>
      .error ⟨.ParsingException,
        "[analyzer] [" ++ name ++ "] used undefined token_filter [" ++ filterName ++ "]", none⟩
    | some filter =>
      match requestTokenFilters env tokenFilters name rest with
      | .error e => .error e
      | .ok tokens => .ok (filter :: tokens)

/-- The token filter names the loop ranges over: `v.Filter` stands in for a nil
`v.TokenFilter`. -/
def AnalyzerDecl.tokenFilterNames (v : AnalyzerDecl) : List String :=
  match v.TokenFilter, v.Filter with
  | none, some names => names
  | none, none => []
  | some names, _ => names

/-- The block `if v.Type != "" { ... }` of the loop body: the built-in analyzer of the
declared type (`none`: `ana` stays nil) or the error returned. -/
def declaredBuiltin (env : AnalysisEnv) (v : AnalyzerDecl) : Except Error (Option Analyzer) :=
  if v.Type_ ≠ "" then builtinAnalyzer env v else .ok none

/-- The tokenizer lookup of the loop body: the built-in of that name when
`RequestTokenizerSingle` answers one, else the user-defined one, else nil. -/
def lookupTokenizer (env : AnalysisEnv) (tokenizers : List (String × Tokenizer))
    (name : String) : Option Tokenizer :=
  match env.RequestTokenizerSingle name with
  | some zer => some zer
  | none => tokenizers.lookup name

/-- The body of the loop `for name, v := range data.Analyzer` of `RequestAnalyzer`: the
analyzer stored under `name`, or the error returned. -/
def buildAnalyzer (env : AnalysisEnv) (charFilters : List (String × CharFilter))
    (tokenFilters : List (String × TokenFilter)) (tokenizers : List (String × Tokenizer))
    (name : String) (v : AnalyzerDecl) : Except Error Analyzer :=
  if v.Tokenizer = "" ∧ v.Type_ = "" then
    .error ⟨.ParsingException, "[analyzer] [" ++ name ++ "] is missing tokenizer", none⟩
  else
    match declaredBuiltin env v with
    | .error e => .error e
    | .ok ana =>
      let zer : Option Tokenizer := lookupTokenizer env tokenizers v.Tokenizer
      if zer.isNone ∧ ana.isNone then
        .error ⟨.ParsingException,
          "[analyzer] [" ++ name ++ "] used undifined tokenizer " ++ v.Tokenizer, none⟩
      else
        match requestCharFilters env charFilters name v.CharFilter with
        | .error e => .error e
        | .ok chars =>
          match requestTokenFilters env tokenFilters name v.tokenFilterNames with
          | .error e => .error e
          | .ok tokens =>
            let ana : Analyzer :=
              match ana with
              | none => { Tokenizer := zer }
              | some a => a
            let ana : Analyzer :=
              if chars.length > 0 then { ana with CharFilters := ana.CharFilters ++ chars }
              else ana
            let ana : Analyzer :=
              if tokens.length > 0 then { ana with TokenFilters := ana.TokenFilters ++ tokens }
              else ana
            .ok ana

/-- The loop `for name, v := range data.Analyzer` with the map `analyzers` built so far. -/
def buildAnalyzers (env : AnalysisEnv) (charFilters : List (String × CharFilter))
    (tokenFilters : List (String × TokenFilter)) (tokenizers : List (String × Tokenizer)) :
    List (String × AnalyzerDecl) → List (String × Analyzer) →
      Except Error (List (String × Analyzer))
  | [], analyzers => .ok analyzers
  | (name, v) :: rest, analyzers =>
    match buildAnalyzer env charFilters tokenFilters tokenizers name v with
    | .error e => .error e
    | .ok ana =>
      buildAnalyzers env charFilters tokenFilters tokenizers rest (analyzers ++ [(name, ana)])

/-- The raw token filter declarations `RequestAnalyzer` hands to `RequestTokenFilter`:
`data.Filter` stands in for a nil `data.TokenFilter`. -/
def IndexAnalysis.tokenFilterSource (data : IndexAnalysis) : Option RawObject :=
  match data.TokenFilter, data.Filter with
  | none, some raw => some raw
  | none, none => none
  | some raw, _ => some raw

/-- `RequestAnalyzer(data)`: the map of analyzers (`none`: the nil map) or the error. -/
def RequestAnalyzer (env : AnalysisEnv) (data : Option IndexAnalysis) :
    Except Error (Option (List (String × Analyzer))) :=
  match data with
  | none => .ok none
  | some data =>
    match data.Analyzer with
    | none => .ok none
    | some declared =>
      match env.RequestCharFilter data.CharFilter with
      | .error e => .error e
      | .ok charFilters =>
        match env.RequestTokenFilter data.tokenFilterSource with
        | .error e => .error e
        | .ok tokenFilters =>
          match env.RequestTokenizer data.Tokenizer with
          | .error e => .error e
          | .ok tokenizers =>
            match buildAnalyzers env charFilters tokenFilters tokenizers declared [] with
            | .error e => .error e
            | .ok analyzers => .ok (some analyzers)

/-- `QueryAnalyzer(data, name)`; a nil map is `none`. -/
def QueryAnalyzer (env : AnalysisEnv) (data : Option (List (String × Analyzer)))
    (name : String) : Except Error Analyzer :=
  let name := if name = "" then "default" else name
  match data.bind (fun m => m.lookup name) with
  | some v => .ok v
  | none =>
    if name = "standard" then env.NewStandardAnalyzer none
    else if name = "simple" then .ok env.NewSimpleAnalyzer
    else if name = "keyword" then .ok env.NewKeywordAnalyzer
    else if name = "web" then .ok env.NewWebAnalyzer
    else if name = "regexp" ∨ name = "pattern" then NewRegexpAnalyzer env.regexpCompileError none
    else if name = "stop" then env.NewStopAnalyzer none
    else if name = "whitespace" then env.NewWhitespaceAnalyzer
    else
      .error ⟨.ParsingException, "[analyzer] [" ++ name ++ "] doesn't exists", none⟩

/-- The assignment `analyzer, _ := QueryAnalyzer(data, name)`: the analyzer, nil on an
error. -/
def queryAnalyzerOrNil (env : AnalysisEnv) (data : Option (List (String × Analyzer)))
    (name : String) : Option Analyzer :=
  match QueryAnalyzer env data name with
  | .ok a => some a
  | .error _ => none

/-- `QueryAnalyzerForField(data, mappings, field)`: the pair `(analyzer, searchAnalyzer)`. -/
def QueryAnalyzerForField (env : AnalysisEnv) (data : Option (List (String × Analyzer)))
    (mappings : Option Mappings) (field : String) : Option Analyzer × Option Analyzer :=
  if field = "" then (none, none)
  else
    let found : Option Property :=
      match mappings with
      | none => none
      | some m => if m.Properties.length > 0 then m.Properties.lookup field else none
    match found with
    | some v =>
      if v.Type_ ≠ "text" then (none, none)
      else
        let analyzerName := if v.Analyzer ≠ "" then v.Analyzer else ""
        let searchAnalyzerName := if v.SearchAnalyzer ≠ "" then v.SearchAnalyzer else ""
        (queryAnalyzerOrNil env data analyzerName,
          queryAnalyzerOrNil env data searchAnalyzerName)
    | none => (queryAnalyzerOrNil env data "", queryAnalyzerOrNil env data "")

/-! ## `index.go`: mappings and the document builder -/

/-- A Go `error` as the document builder and the handlers hand it on: a `*meta.Error`, the
`*time.ParseError` of `time.Parse` for the string it was given, or an error that carries
only a message (`fmt.Errorf`, `errors.New`, the index library). -/
inductive GoError where
  | typed (e : Error)
  | timeParse (value : String)
  | plain (msg : String)
deriving DecidableEq, Repr

/-- A `float64`, carried unread. -/
structure Float64 where
  bits : Nat
deriving DecidableEq, Repr

/-- A value of the flattened document (`interface{}`) by its dynamic type: `nil`, `string`,
`float64`, `bool`, `time.Time` (an instant), or a value of another type, of which only the
type name is used. -/
inductive Value where
  | null
  | string (s : String)
  | float64 (x : Float64)
  | bool (b : Bool)
  | time (t : Int)
  | other (goType : String)
deriving DecidableEq, Repr

/-- What a field of a `bluge.Document` holds, by the constructor that made it
(`NewTextField`, `NewNumericField`, `NewKeywordField`, `NewDateTimeField`,
`NewStoredOnlyField`, `NewCompositeFieldExcluding(name, nil)`). -/
inductive FieldValue where
  | text (s : String)
  | numeric (x : Float64)
  | keyword (s : String)
  | dateTime (t : Int)
  | storedOnly (bytes : String)
  | compositeExcluding
deriving DecidableEq, Repr

/-- A `*bluge.TermField`: its name, what it holds, and which of the option methods
`SearchTermPositions`, `StoreValue`, `Sortable`, `Aggregatable`, `HighlightMatches` were
called on it. -/
structure Field where
  name : String
  value : FieldValue
  searchTermPositions : Bool := false
  store : Bool := false
  sortable : Bool := false
  aggregatable : Bool := false
  highlightMatches : Bool := false
deriving DecidableEq, Repr

/-- A `*bluge.Document`: the fields added, in order; a `nil` field is `none`. -/
abbrev Document := List (Option Field)

/-- `bluge.NewDocument(id)`: a document holding the identifier field, which the library
makes sortable and stored. -/
def NewDocument (id : String) : Document :=
  [some { name := "_id", value := .keyword id, store := true, sortable := true }]

/-- `strconv.FormatBool`. -/
def FormatBool (b : Bool) : String := if b then "true" else "false"

/-- The part of `core.Index` the mapping code works on: the name and the cached mappings
(`none`: nil). -/
structure MappedIndex where
  Name : String
  CachedMappings : Option Mappings := none
deriving DecidableEq, Repr

/-- The outside world of the document builder.  `NewProperty` is `meta.NewProperty` (not
among the sources), `parseRFC3339 s` is the time `time.Parse(time.RFC3339, s)` answers
(`none`: it answers an error), `now` is `time.Now()`, `marshalMappings` is `json.Marshal`
of a mapping, and `systemUpdate id doc` is the error (if any) of
`ZINC_SYSTEM_INDEX_LIST["_index_mapping"].Writer.Update(id, doc)`. -/
structure BuildEnv where
  NewProperty : String → Property
  parseRFC3339 : String → Option Int
  now : Int
  marshalMappings : Mappings → String
  systemUpdate : String → Document → Option GoError

/-- The read `mappings.Properties[key]` with its `ok` flag. -/
def Mappings.get (m : Mappings) (key : String) : Option Property :=
  m.Properties.lookup key

/-- The assignment `mappings.Properties[key] = prop`; `none` is the panic of an assignment
to an entry of a nil map. -/
def Mappings.assign (m : Mappings) (key : String) (prop : Property) : Option Mappings :=
  if m.nilMap then none
  else some { m with Properties := (key, prop) :: m.Properties.filter (fun e => e.1 != key) }

/-- `Index.SetMappings(mappings)`: the returned error (if any), the index afterwards, and
the record `mappings` points to afterwards (the function writes `@timestamp` into it before
anything can fail).  `none` is the panic on a nil pointer or a nil map. -/
def MappedIndex.SetMappings (env : BuildEnv) (index : MappedIndex) (mappings : Option Mappings) :
    Option (Option GoError × MappedIndex × Mappings) :=
  match mappings with
  | none => none
  | some m0 =>
    match m0.assign "@timestamp" (env.NewProperty "time") with
    | none => none
    | some m =>
      let bdoc : Document :=
        m.Properties.foldl
          (fun bdoc kp => bdoc ++ [some { name := kp.1, value := .text kp.2.Type_, store := true }])
          (NewDocument index.Name)
      let bdoc := bdoc ++ [some { name := "_source", value := .storedOnly (env.marshalMappings m) }]
      let bdoc := bdoc ++ [some { name := "_all", value := .compositeExcluding }]
      match env.systemUpdate index.Name bdoc with
      | some err => some (some err, index, m)
      | none => some (none, { index with CachedMappings := some m }, m)

/-- The variables the loop of `BuildBlugeDocumentFromJSON` carries: the record `mappings`
points to, `mappingsNeedsUpdate` and the document built so far. -/
structure BuildState where
  mappings : Mappings
  mappingsNeedsUpdate : Bool
  bdoc : Document
deriving DecidableEq, Repr

/-- The block `if _, ok := mappings.Properties[key]; !ok { ... }`: the default mapping for
a key that has none, by the dynamic type of the value.  `none` is the panic of an
assignment to a nil map. -/
def inferProperty (env : BuildEnv) (st : BuildState) (key : String) (value : Value) :
    Option BuildState :=
  match st.mappings.get key with
  | some _ => some st
  | none =>
    let assigned : Option Mappings :=
      match value with
      | .string _ => st.mappings.assign key (env.NewProperty "text")
      | .float64 _ => st.mappings.assign key (env.NewProperty "numeric")
      | .bool _ => st.mappings.assign key (env.NewProperty "bool")
      | .time _ => st.mappings.assign key (env.NewProperty "time")
      | _ => some st.mappings
    assigned.map (fun m => { st with mappings := m, mappingsNeedsUpdate := true })

/-- The `switch mappings.Properties[key].Type` that builds the field (`.ok none`: the
field stays nil).  The outer `none` is the panic of a failed type assertion; `.error` is
the `return nil, err` of the case. -/
def newField (env : BuildEnv) (typ key : String) (value : Value) :
    Option (Except GoError (Option Field)) :=
  if typ = "text" then
    match value with
    | .string s => some (.ok (some { name := key, value := .text s, searchTermPositions := true }))
    | _ => none
  else if typ = "numeric" then
    match value with
    | .float64 x => some (.ok (some { name := key, value := .numeric x }))
    | _ => none
  else if typ = "keyword" then
    match value with
    | .bool v => some (.ok (some { name := key, value := .keyword (FormatBool v) }))
    | .string v => some (.ok (some { name := key, value := .keyword v, aggregatable := true }))
    | _ => some (.error (.plain "keyword type only support text"))
  else if typ = "bool" then
    match value with
    | .bool v => some (.ok (some { name := key, value := .keyword (FormatBool v) }))
    | _ => none
  else if typ = "time" then
    match value with
    | .string s =>
      match env.parseRFC3339 s with
      | none => some (.error (.timeParse s))
      | some tim => some (.ok (some { name := key, value := .dateTime tim }))
    | _ => none
  else some (.ok none)

/-- The four `if mappings.Properties[key].X { field.Y() }` that follow the switch; `none`
is the panic of a method called on a nil field. -/
def applyFlags (prop : Property) (field : Option Field) : Option (Option Field) :=
  match field with
  | some f =>
    some (some { f with
      store := f.store || prop.Store,
      sortable := f.sortable || prop.Sortable,
      aggregatable := f.aggregatable || prop.Aggregatable,
      highlightMatches := f.highlightMatches || prop.Highlightable })
  | none =>
    if prop.Store ∨ prop.Sortable ∨ prop.Aggregatable ∨ prop.Highlightable then none
    else some none

/-- One iteration of `for key, value := range flatDoc`: the error returned from inside the
loop (if any) and the variables afterwards; `none` is a panic. -/
def buildStep (env : BuildEnv) (st : BuildState) (key : String) (value : Value) :
    Option (Option GoError × BuildState) :=
  if value = .null then some (none, st)
  else
    match inferProperty env st key value with
    | none => none
    | some st1 =>
      match st1.mappings.get key with
      | none => some (none, st1)
      | some prop =>
        if prop.Index = false then some (none, st1)
        else
          match newField env prop.Type_ key value with
          | none => none
          | some (.error err) => some (some err, st1)
          | some (.ok field) =>
            match applyFlags prop field with
            | none => none
            | some field1 => some (none, { st1 with bdoc := st1.bdoc ++ [field1] })

/-- The loop `for key, value := range flatDoc`, over the entries of the flattened document
in the order in which the iteration visits them. -/
def buildLoop (env : BuildEnv) : BuildState → List (String × Value) →
    Option (Option GoError × BuildState)
  | st, [] => some (none, st)
  | st, (key, value) :: rest =>
    match buildStep env st key value with
    | none => none
    | some (some err, st1) => some (some err, st1)
    | some (none, st1) => buildLoop env st1 rest

/-- The lines `mappings := index.CachedMappings; if mappings == nil { mappings =
new(meta.Mappings); mappings.Properties = make(...) }`: the record `mappings` points to. -/
def MappedIndex.mappingsOrNew (index : MappedIndex) : Mappings :=
  match index.CachedMappings with
  | some m => m
  | none => { Properties := [] }

/-- The index `index` once the record that `mappings` points to holds `m`: when `index0`,
the index at the start of the call, had cached mappings, `mappings` points to the cached
record itself, so the index holds `m`; otherwise the record is private to the call. -/
def MappedIndex.seenThrough (index0 index : MappedIndex) (m : Mappings) : MappedIndex :=
  if index0.CachedMappings.isSome then { index with CachedMappings := some m } else index

/-- The lines of `BuildBlugeDocumentFromJSON` after the loop that add `@timestamp`,
`_source` and `_all`. -/
def appendStandardFields (env : BuildEnv) (bdoc : Document) (docByteVal : String) : Document :=
  let bdoc := bdoc ++
    [some { name := "@timestamp", value := .dateTime env.now, store := true,
            sortable := true, aggregatable := true }]
  let bdoc := bdoc ++ [some { name := "_source", value := .storedOnly docByteVal }]
  bdoc ++ [some { name := "_all", value := .compositeExcluding }]

/-- The lines `if mappingsNeedsUpdate { index.SetMappings(mappings) }` (the error is
dropped): the index afterwards; `none` is a panic. -/
def updateMappings (env : BuildEnv) (index : MappedIndex) (st : BuildState) :
    Option MappedIndex :=
  if st.mappingsNeedsUpdate then
    match (index.seenThrough index st.mappings).SetMappings env (some st.mappings) with
    | none => none
    | some (_, index1, m) => some (index.seenThrough index1 m)
  else some (index.seenThrough index st.mappings)

/-- `Index.BuildBlugeDocumentFromJSON(docID, doc)`: the returned `(document, error)` and
the index afterwards; `none` is a panic.  `flatDoc` is `flatten.Flatten(*doc, "",
flatten.DotStyle)` as the list of its entries in iteration order and `docByteVal` is
`json.Marshal(*doc)`.  When the index has cached mappings, `mappings` points to that very
record, so what the loop and `SetMappings` write into it is seen through the index
whatever is returned. -/
def MappedIndex.BuildBlugeDocumentFromJSON (env : BuildEnv) (index : MappedIndex)
    (docID : String) (flatDoc : List (String × Value)) (docByteVal : String) :
    Option (Except GoError Document × MappedIndex) :=
  match buildLoop env ⟨index.mappingsOrNew, false, NewDocument docID⟩ flatDoc with
  | none => none
  | some (some err, st) => some (.error err, index.seenThrough index st.mappings)
  | some (none, st) =>
    match updateMappings env index st with
    | none => none
    | some index1 => some (.ok (appendStandardFields env st.bdoc docByteVal), index1)

/-- The property the index maps a field to, read through its cached mappings. -/
def MappedIndex.property (index : MappedIndex) (key : String) : Option Property :=
  index.CachedMappings.bind (fun m => m.get key)

/-- The fields of a document that are named `@timestamp`. -/
def timestampFields (bdoc : Document) : List Field :=
  (bdoc.filterMap id).filter (fun f => f.name = "@timestamp")

/-! ## `handlers/index/mapping.go` -/

/-- What a handler writes with `c.JSON(status, meta.HTTPResponse{...})`. -/
structure HTTPResponse where
  status : Nat
  Error : String := ""
  Message : String := ""
deriving DecidableEq, Repr

/-- Modelled from the spec: the methods of the mapping record the handler calls
(`Len`, `ListProperty`, `GetProperty`, `SetProperty`) are not among the sources.  The spec
names them `list_properties`, `set_property` over a lookup from field name to property;
`Len` is the number of entries. -/
def Mappings.Len (m : Mappings) : Nat := m.Properties.length

/-- Modelled from the spec: `ListProperty()`, the entries of the lookup in the order in
which a `range` over the answer visits them. -/
def Mappings.ListProperty (m : Mappings) : List (String × Property) := m.Properties

/-- Modelled from the spec: `GetProperty(field)` with its `ok` flag. -/
def Mappings.GetProperty (m : Mappings) (field : String) : Option Property := m.get field

/-- Modelled from the spec: `SetProperty(field, prop)` on a possibly nil receiver; `none`
is the panic on a nil receiver or a nil map. -/
def Mappings.SetProperty (m : Option Mappings) (field : String) (prop : Property) :
    Option Mappings :=
  match m with
  | none => none
  | some m => m.assign field prop

/-- The outside world of the handler `SetMapping`: `core.NewIndex(indexName, "", nil)` (the
error message or the new index) and `core.StoreIndex(index)` (the error message, if any);
neither is among the sources. -/
structure MappingEnv where
  NewIndex : String → Except String MappedIndex
  StoreIndex : MappedIndex → Option String

/-- The loop `for field := range mappings.ListProperty()` that looks for a field the index
already maps: the first such field in iteration order. -/
def firstMappedField (indexMappings : Mappings) : List (String × Property) → Option String
  | [] => none
  | (field, _) :: rest =>
    if (indexMappings.GetProperty field).isSome then some field
    else firstMappedField indexMappings rest

/-- The loop `for field, prop := range mappings.ListProperty() { index.Mappings.SetProperty(
field, prop) }`; `none` is a panic. -/
def addProperties : Option Mappings → List (String × Property) → Option (Option Mappings)
  | m, [] => some m
  | m, (field, prop) :: rest =>
    match Mappings.SetProperty m field prop with
    | none => none
    | some m1 => addProperties (some m1) rest

/-- The tail of `SetMapping` from `// update mappings` on.  `shared` tells that `mappings`
points to the record the index holds. -/
def storeMappings (env : BuildEnv) (menv : MappingEnv) (index : MappedIndex)
    (mappings : Option Mappings) (shared : Bool) : Option (HTTPResponse × MappedIndex) :=
  let updated : Option MappedIndex :=
    match mappings with
    | none => some index
    | some m =>
      if m.Len > 0 then
        match index.SetMappings env (some m) with
        | none => none
        | some (_, index1, m1) =>
          some (if shared then { index1 with CachedMappings := some m1 } else index1)
      else some index
  match updated with
  | none => none
  | some index1 =>
    match menv.StoreIndex index1 with
    | some err => some ({ status := 500, Error := err }, index1)
    | none => some ({ status := 200, Message := "ok" }, index1)

/-- The handler `SetMapping`: the response and the index of the registry afterwards
(`none`: there is none); the outer `none` is a panic.  `indexName` is
`c.Param("target")`, `request` is the outcome of `c.BindJSON` followed by
`mappings.Request(nil, mappingRequest)` (the message of the error of either, or the
mappings asked for), `existing` is what `core.GetIndex(indexName)` answers.  The field
`index.Mappings` of the handler is the mapping record the index holds, the one
`SetMappings` caches. -/
def SetMapping (env : BuildEnv) (menv : MappingEnv) (indexName : String)
    (request : Except String Mappings) (existing : Option MappedIndex) :
    Option (HTTPResponse × Option MappedIndex) :=
  if indexName = "" then
    some ({ status := 400, Error := "index.name should be not empty" }, existing)
  else
    match request with
    | .error err => some ({ status := 400, Error := err }, existing)
    | .ok mappings =>
      match existing with
      | some index =>
        let conflict : Option String :=
          match index.CachedMappings with
          | none => none
          | some im => if im.Len > 0 then firstMappedField im mappings.ListProperty else none
        match conflict with
        | some field =>
          some ({ status := 400,
                  Error := "index [" ++ indexName ++ "] already exists mapping of field ["
                    ++ field ++ "]" }, existing)
        | none =>
          match addProperties index.CachedMappings mappings.ListProperty with
          | none => none
          | some im1 =>
            let index1 : MappedIndex := { index with CachedMappings := im1 }
            (storeMappings env menv index1 im1 true).map (fun r => (r.1, some r.2))
      | none =>
        match menv.NewIndex indexName with
        | .error err => some ({ status := 500, Error := err }, none)
        | .ok index =>
          (storeMappings env menv index (some mappings) false).map (fun r => (r.1, some r.2))

/-! ## `handlers/v2/search.go` -/

/-- An error returned by a search, as the `switch v := err.(type)` of the handler tells it
apart: a `*meta.Error`, or any other error, of which `v.Error()` is used. -/
inductive SearchError where
  | typed (e : Error)
  | other (message : String)
deriving DecidableEq, Repr

/-- What the handler `SearchIndex` writes with `c.JSON`: `gin.H{"error": msg}`, a
`*meta.Error`, or the search response. -/
inductive SearchBody (ρ : Type) where
  | error (msg : String)
  | typed (e : Error)
  | response (resp : ρ)
deriving DecidableEq, Repr

/-- Which search the handler ran: `core.MultiSearchV2(indexName, query)` or
`index.SearchV2(query)` on the index found under the name. -/
inductive SearchCall where
  | multi (indexName : String)
  | single (indexName : String)
deriving DecidableEq, Repr

/-- The outside world of the handler `SearchIndex`, for the query type `κ` and the response
type `ρ`: `core.GetIndex` (whether the name is registered), `core.MultiSearchV2` and
`Index.SearchV2`; none of them is among the sources. -/
structure SearchEnv (κ ρ : Type) where
  GetIndex : String → Bool
  MultiSearchV2 : String → κ → Except SearchError ρ
  SearchV2 : String → κ → Except SearchError ρ

/-- `strings.HasSuffix(indexName, "*")`. -/
def hasStarSuffix (indexName : String) : Bool :=
  indexName.data.getLast? = some '*'

/-- What `SearchIndex` has written and run: the status and body passed to `c.JSON` and the
search that was run (`none`: no search). -/
structure SearchOutcome (ρ : Type) where
  status : Nat
  body : SearchBody ρ
  searched : Option SearchCall
deriving DecidableEq, Repr

/-- The handler `SearchIndex`.  `indexName` is `c.Param("target")` and `bind` is the
outcome of `c.BindJSON(query)`: the message of its error, or the query. -/
def SearchIndex {κ ρ : Type} (senv : SearchEnv κ ρ) (indexName : String)
    (bind : Except String κ) : SearchOutcome ρ :=
  match bind with
  | .error err => ⟨400, .error err, none⟩
  | .ok query =>
    let ran : Option (Except SearchError ρ × SearchCall) :=
      if indexName = "" ∨ hasStarSuffix indexName then
        some (senv.MultiSearchV2 indexName query, .multi indexName)
      else if senv.GetIndex indexName = false then none
      else some (senv.SearchV2 indexName query, .single indexName)
    match ran with
    | none => ⟨400, .error ("index " ++ indexName ++ " does not exists"), none⟩
    | some (.error (.typed v), call) => ⟨400, .typed v, some call⟩
    | some (.error (.other message), call) => ⟨400, .error message, some call⟩
    | some (.ok resp, call) => ⟨200, .response resp, some call⟩

/-! ## `handlers/updatedocument.go` -/

/-- The outside world of the handler `UpdateDocument`: what `uuid.New().String()` answers,
`core.GetIndex` (whether the name is registered), the error (if any) of
`core.NewIndex(indexName, "disk")` and the error (if any) of
`index.UpdateDocument(docID, &doc, mintedID)`. -/
structure UpdateEnv where
  uuid : String
  GetIndex : String → Bool
  NewIndex : String → Option GoError
  UpdateDocument : String → String → Bool → Option GoError

/-- What `UpdateDocument` writes with `c.JSON`: status 200 with `gin.H{"id": docID}`, or
status 500 with the error. -/
inductive UpdateResponse where
  | ok (id : String)
  | serverError (err : GoError)
deriving DecidableEq, Repr

/-- What `UpdateDocument` has written and run: the response and the `docID` and `mintedID`
passed to `index.UpdateDocument` (`none`: it was not called). -/
structure UpdateOutcome where
  response : UpdateResponse
  indexed : Option (String × Bool)
deriving DecidableEq, Repr

/-- The block `if id, ok := doc["_id"]; ok { docID = id.(string) } else if query_id != ""
{ docID = query_id }` of `UpdateDocument`: the value of `docID` after it.  `bodyID` is
`doc["_id"]` (`none`: the key is absent); the outer `none` is the panic of the type
assertion `id.(string)`. -/
def suppliedDocID (bodyID : Option Value) (query_id : String) : Option String :=
  match bodyID with
  | some (.string id) => some id
  | some _ => none
  | none => if query_id ≠ "" then some query_id else some ""

/-- The block `if docID == "" { docID = uuid.New().String(); mintedID = true }`: `docID`
and `mintedID` after it. -/
def mintDocID (uuid docID : String) : String × Bool :=
  if docID = "" then (uuid, true) else (docID, false)

/-- The handler `UpdateDocument`; `none` is the panic of the type assertion `id.(string)`.
`indexName` is `c.Param("target")`, `query_id` is `c.Param("id")` and `bodyID` is
`doc["_id"]` (`none`: the key is absent, also when the body did not bind).  The template
the handler applies to an index it has just created changes the mappings of that index
only and is left out. -/
def UpdateDocument (uenv : UpdateEnv) (indexName query_id : String) (bodyID : Option Value) :
    Option UpdateOutcome :=
  match suppliedDocID bodyID query_id with
  | none => none
  | some docID0 =>
    let chosen := mintDocID uenv.uuid docID0
    let created : Option GoError :=
      if uenv.GetIndex indexName = false then uenv.NewIndex indexName else none
    match created with
    | some err => some ⟨.serverError err, none⟩
    | none =>
      match uenv.UpdateDocument indexName chosen.1 chosen.2 with
      | some err => some ⟨.serverError err, some chosen⟩
      | none => some ⟨.ok chosen.1, some chosen⟩

/-! ## `Done` without the shortcut -/

/-- The loop of `Done` as the spec words it without the optimisation: every match of `docs`
is offered to the bounded store, whatever was ejected before. -/
def DocumentList.offerEvery (sort : SortOrder) (backingSize : Nat)
    (docs : List DocumentMatch) : List DocumentMatch :=
  docs.foldl
    (fun store d => (CollectorStore.AddNotExceedingSize sort store d backingSize).1) []

/-- `Done` with the loop replaced by `offerEvery`: the finished bucket, the store
materialised without its first `skip` matches, reversed on request. -/
def DocumentList.DoneOfferingEvery (d : DocumentList) (size skip numSearchers : Nat)
    (reversed : Bool) (sort : SortOrder) : Option (Except Err DocumentList) :=
  match d.bucket with
  | none => none
  | some bucket =>
    let backingSize := (size + skip + 1) * numSearchers
    let store := DocumentList.offerEvery sort backingSize d.docs
    let results := CollectorStore.Final store skip
    let results := if reversed then results.reverse else results
    some (.ok { d with bucket := some bucket.Finish, docs := results })

/-! ## Example data -/

/-- An outside world in which every writer opens (holding 10 bytes in one file), the
metadata store accepts every descriptor and the shard size limit is 100 bytes. -/
def exampleEnv : Env := ⟨fun i => .ok ⟨i, 1, 10, none⟩, none, 100⟩

/-- An outside world like `exampleEnv` whose metadata store refuses every write and whose
shard size limit is 5 bytes. -/
def failingEnv : Env := ⟨fun i => .ok ⟨i, 1, 10, none⟩, some (.other 7), 5⟩

/-- An index of two shards neither of which has time bounds yet. -/
def unsetIndex : Index := { ShardNum := 2, Shards := [{ ID := 0 }, { ID := 1 }] }

/-- An index of two shards with the time bounds `[10, 20]` and `[30, 40]`, and running
bounds `[50, 60]`. -/
def boundedIndex : Index :=
  { ShardNum := 2,
    Shards := [{ ID := 0, DocTimeMin := 10, DocTimeMax := 20 },
               { ID := 1, DocTimeMin := 30, DocTimeMax := 40 }],
    DocTimeMin := 50, DocTimeMax := 60 }

/-- Lexicographic comparison of two lists of sort-key values. -/
def compareKeys : List Nat → List Nat → Int
  | [], [] => 0
  | [], _ :: _ => -1
  | _ :: _, [] => 1
  | x :: xs, y :: ys =>
    if x < y then -1 else if y < x then 1 else compareKeys xs ys

/-- A sort order that compares the sort-key values and nothing else. -/
def byKeys : SortOrder := ⟨false, fun a b => compareKeys a.sortValue b.sortValue⟩

/-- A sort order that compares the sort-key values and breaks ties by ascending document
identifier. -/
def byKeysThenID : SortOrder :=
  ⟨false, fun a b =>
    if compareKeys a.sortValue b.sortValue = 0 then (a.id : Int) - (b.id : Int)
    else compareKeys a.sortValue b.sortValue⟩

/-- Channel delivery in which the matches of each worker arrive before those of the next. -/
def inReaderOrder (sent : List (List DocumentMatch)) : List DocumentMatch :=
  sent.foldr (fun l acc => l ++ acc) []

/-- Two shard readers that emit one match each. -/
def twoReaders : List ReaderRun :=
  [{ emitted := [⟨1, [3]⟩] }, { emitted := [⟨2, [7]⟩] }]

/-- Two shard readers the second of which fails while its matches are iterated. -/
def failingReaders : List ReaderRun :=
  [{ emitted := [⟨1, [3]⟩] }, { emitted := [⟨2, [7]⟩], nextErr := some (.other 3) }]

/-- A parser that answers every call with the same request: two results, none skipped,
ranked by `byKeysThenID`. -/
def sizeTwoRequest : Nat → Except Err SearchRequest :=
  fun _ => .ok ⟨byKeysThenID, 2, 0, false⟩

/-- ASCII lower-casing, standing in for `strings.ToLower` on the example keys. -/
def lowerASCII (s : String) : String := ⟨s.data.map Char.toLower⟩

/-- Sub-parsers for the examples: `MatchQuery` fails, every other sub-parser returns a
query numbered after its position in the switch. -/
def exampleSubParsers : SubParsers where
  BoolQuery := fun _ _ => .ok ⟨0⟩
  BoostingQuery := fun _ => .ok ⟨1⟩
  MatchQuery := fun _ => .error (.other 1)
  MatchBoolPrefixQuery := fun _ => .ok ⟨3⟩
  MatchPhraseQuery := fun _ => .ok ⟨4⟩
  MatchPhrasePrefixQuery := fun _ => .ok ⟨5⟩
  MultiMatchQuery := fun _ => .ok ⟨6⟩
  MatchAllQuery := fun _ => .ok ⟨7⟩
  MatchNoneQuery := fun _ => .ok ⟨8⟩
  CombinedFieldsQuery := fun _ => .ok ⟨9⟩
  QueryStringQuery := fun _ => .ok ⟨10⟩
  SimpleQueryStringQuery := fun _ => .ok ⟨11⟩
  ExistsQuery := fun _ => .ok ⟨12⟩
  IdsQuery := fun _ => .ok ⟨13⟩
  RangeQuery := fun _ _ => .ok ⟨14⟩
  RegexpQuery := fun _ => .ok ⟨15⟩
  PrefixQuery := fun _ => .ok ⟨16⟩
  FuzzyQuery := fun _ => .ok ⟨17⟩
  WildcardQuery := fun _ => .ok ⟨18⟩
  TermQuery := fun _ => .ok ⟨19⟩
  TermsQuery := fun _ => .ok ⟨20⟩
  TermsSetQuery := fun _ => .ok ⟨21⟩
  GeoBoundingBoxQuery := fun _ => .ok ⟨22⟩
  GeoDistanceQuery := fun _ => .ok ⟨23⟩
  GeoPolygonQuery := fun _ => .ok ⟨24⟩
  GeoShapeQuery := fun _ => .ok ⟨25⟩

/-- An analysis registry for the examples.  Built-in: the tokenizer `standard`, the char
filter `html`, the token filter `lowercase`.  User-defined: tokenizers `standard` and
`mine`, a char filter `html`, a token filter `lowercase`.  The only pattern that does
not compile is `(`. -/
def exampleAnalysisEnv : AnalysisEnv where
  ToLower := lowerASCII
  regexpCompileError := fun p => if p = "(" then some "missing closing )" else none
  RequestCharFilter := fun _ => .ok [("html", ⟨"user:html"⟩)]
  RequestTokenFilter := fun _ => .ok [("lowercase", .named "user:lowercase")]
  RequestTokenizer := fun _ =>
    .ok [("standard", .named "user:standard"), ("mine", .named "user:mine")]
  RequestCharFilterSingle := fun n => if n = "html" then some ⟨"builtin:html"⟩ else none
  RequestTokenFilterSingle := fun n => if n = "lowercase" then some .lowerCase else none
  RequestTokenizerSingle := fun n =>
    if n = "standard" then some (.named "builtin:standard") else none
  NewStandardAnalyzer := fun _ =>
    .ok { Tokenizer := some (.named "builtin:standard"), TokenFilters := [.lowerCase] }
  NewStopAnalyzer := fun _ =>
    .ok { Tokenizer := some (.named "builtin:letter"), TokenFilters := [.lowerCase] }
  NewWhitespaceAnalyzer := .ok { Tokenizer := some (.named "builtin:whitespace") }
  NewKeywordAnalyzer := { Tokenizer := some (.named "builtin:single") }
  NewSimpleAnalyzer :=
    { Tokenizer := some (.named "builtin:letter"), TokenFilters := [.lowerCase] }
  NewWebAnalyzer := { Tokenizer := some (.named "builtin:web"), TokenFilters := [.lowerCase] }

/-- Mappings for the examples: a text field `title` analyzed by `standard` with no search
analyzer, and a numeric field `year`. -/
def exampleMappings : Mappings :=
  { Properties :=
      [("title", { Type_ := "text", Analyzer := "standard" }), ("year", { Type_ := "numeric" })] }

/-- An index analysis declaring one analyzer, `mine`, composed from the tokenizer
`standard`, the char filter `html` and the token filter `lowercase`. -/
def composedAnalysis : IndexAnalysis :=
  { Analyzer := some [("mine",
      { Tokenizer := "standard", CharFilter := ["html"], TokenFilter := some ["lowercase"] })] }

/-- An index analysis declaring a sound analyzer and one that has neither type nor
tokenizer. -/
def defectiveAnalysis : IndexAnalysis :=
  { Analyzer := some [("fine", { Type_ := "keyword" }), ("broken", { })] }

/-- An index of one shard whose `min` is set to 10 and whose `max` is unset. -/
def halfBoundedIndex : Index :=
  { ShardNum := 1, Shards := [{ ID := 0, DocTimeMin := 10, DocTimeMax := 0 }] }

/-- A registry for the examples of the search handler: only `olympics` is registered, the
multi-index search answers the response 0 and the search of one index the response 1. -/
def exampleSearchEnv : SearchEnv Unit Nat :=
  { GetIndex := fun indexName => indexName == "olympics",
    MultiSearchV2 := fun _ _ => .ok 0,
    SearchV2 := fun _ _ => .ok 1 }

/-- An outside world for the examples of `UpdateDocument`: every index is registered, every
update succeeds and the identifier generator answers `generated-id`. -/
def exampleUpdateEnv : UpdateEnv :=
  { uuid := "generated-id",
    GetIndex := fun _ => true,
    NewIndex := fun _ => none,
    UpdateDocument := fun _ _ _ => none }

/-- An outside world for the examples of the document builder: `NewProperty` answers an
indexed property of the given type with no other flag set, only the string
`2020-01-01T00:00:00Z` parses as a time, the clock reads 1700000000 and the system index
accepts every update. -/
def exampleBuildEnv : BuildEnv :=
  { NewProperty := fun typ => { Type_ := typ },
    parseRFC3339 := fun s => if s = "2020-01-01T00:00:00Z" then some 1577836800 else none,
    now := 1700000000,
    marshalMappings := fun _ => "",
    systemUpdate := fun _ _ => none }

/-- An outside world for the examples of the handler `SetMapping`: a new index starts
without mappings and every index can be stored. -/
def exampleMappingEnv : MappingEnv :=
  { NewIndex := fun indexName => .ok { Name := indexName },
    StoreIndex := fun _ => none }

/-- The index `games` without cached mappings. -/
def freshIndex : MappedIndex := { Name := "games" }

/-- The index `games` holding the mappings `SetMappings` leaves for a `text` field
`title`. -/
def titledIndex : MappedIndex :=
  { Name := "games",
    CachedMappings := some { Properties :=
      [("@timestamp", { Type_ := "time" }), ("title", { Type_ := "text" })] } }

/-- The index `games` whose only mapped field is `@timestamp`, as a `keyword`. -/
def keywordStampIndex : MappedIndex :=
  { Name := "games",
    CachedMappings := some { Properties := [("@timestamp", { Type_ := "keyword" })] } }

/-- The index `games` holding mappings with a `time` field `when` and a `numeric` field
`year`. -/
def datedIndex : MappedIndex :=
  { Name := "games",
    CachedMappings := some { Properties :=
      [("@timestamp", { Type_ := "time" }), ("when", { Type_ := "time" }),
       ("year", { Type_ := "numeric" })] } }

/-! ## Reader selection: lemmas -/

theorem shardAt_natCast (index : Index) (i : Nat) : index.shardAt (i : Int) = index.Shards[i]? := by
  simp [Index.shardAt]

theorem visitShards_total (index : Index) (timeMin timeMax : Int) :
    ∀ n, n ≤ index.Shards.length → ∃ vs, index.visitShards timeMin timeMax n = some vs := by
  intro n
  induction n with
  | zero => intro _; exact ⟨[], rfl⟩
  | succ i ih =>
    intro h
    obtain ⟨vs, hvs⟩ := ih (by omega)
    have hlt : i < index.Shards.length := by omega
    simp only [Index.visitShards, shardAt_natCast, List.getElem?_eq_getElem hlt, hvs]
    split_ifs <;> simp

theorem range_reverse_succ (n : Nat) : (List.range (n + 1)).reverse = n :: (List.range n).reverse := by
  simp [List.range_succ]

theorem visitShards_spec (index : Index) (timeMin timeMax : Int) :
    ∀ n vs, index.visitShards timeMin timeMax n = some vs →
      vs.map (·.shard) <+: (List.range n).reverse ∧
      ∀ v ∈ vs, ∃ s, index.Shards[v.shard]? = some s ∧
        (v.scheduled = false ↔
          ((timeMin > 0 ∧ s.DocTimeMax > 0 ∧ s.DocTimeMax < timeMin) ∨
           (timeMax > 0 ∧ s.DocTimeMin > 0 ∧ s.DocTimeMin > timeMax))) ∧
        (v.scheduled = true → 0 < s.DocTimeMin → s.DocTimeMin < timeMin →
          ∀ w ∈ vs, v.shard ≤ w.shard) := by
  intro n
  induction n with
  | zero =>
    intro vs h
    simp [Index.visitShards] at h
    subst h
    simp
  | succ i ih =>
    intro vs h
    simp only [Index.visitShards, shardAt_natCast] at h
    cases hs : index.Shards[i]? with
    | none => simp [hs] at h
    | some s =>
      simp only [hs] at h
      have below : ∀ vs1, index.visitShards timeMin timeMax i = some vs1 →
          ∀ w ∈ vs1, w.shard < i := by
        intro vs1 h1 w hw
        have hp := (ih vs1 h1).1
        have : w.shard ∈ (List.range i).reverse :=
          hp.subset (List.mem_map_of_mem _ hw)
        simpa using this
      split_ifs at h with hskip hstop
      · -- skipped
        cases h1 : index.visitShards timeMin timeMax i with
        | none => simp [h1] at h
        | some vs1 =>
          simp [h1] at h
          subst h
          obtain ⟨hp, hall⟩ := ih vs1 h1
          refine ⟨?_, ?_⟩
          · rw [range_reverse_succ]
            simpa using (List.prefix_cons_inj i).2 hp
          · intro v hv
            rcases List.mem_cons.1 hv with rfl | hv
            · exact ⟨s, hs, by simpa using hskip, by simp⟩
            · obtain ⟨s1, e1, a1, b1⟩ := hall v hv
              refine ⟨s1, e1, a1, ?_⟩
              intro c1 c2 c3 w hw
              rcases List.mem_cons.1 hw with rfl | hw
              · exact Nat.le_of_lt (below vs1 h1 v hv)
              · exact b1 c1 c2 c3 w hw
      · -- scheduled, then break
        simp at h
        subst h
        refine ⟨?_, ?_⟩
        · rw [range_reverse_succ]
          simp
        · intro v hv
          simp at hv
          subst hv
          exact ⟨s, hs, by simpa using hskip, by simp⟩
      · -- scheduled, loop continues
        cases h1 : index.visitShards timeMin timeMax i with
        | none => simp [h1] at h
        | some vs1 =>
          simp [h1] at h
          subst h
          obtain ⟨hp, hall⟩ := ih vs1 h1
          refine ⟨?_, ?_⟩
          · rw [range_reverse_succ]
            simpa using (List.prefix_cons_inj i).2 hp
          · intro v hv
            rcases List.mem_cons.1 hv with rfl | hv
            · refine ⟨s, hs, by simpa using hskip, ?_⟩
              intro _ c2 c3
              exact absurd ⟨c2, c3⟩ hstop
            · obtain ⟨s1, e1, a1, b1⟩ := hall v hv
              refine ⟨s1, e1, a1, ?_⟩
              intro c1 c2 c3 w hw
              rcases List.mem_cons.1 hw with rfl | hw
              · exact Nat.le_of_lt (below vs1 h1 v hv)
              · exact b1 c1 c2 c3 w hw

/-! ## Writer lookup: lemmas -/

theorem shardAt_of_nonneg (index : Index) (i : Int) (h : 0 ≤ i) :
    index.shardAt i = index.Shards[i.toNat]? := by
  simp [Index.shardAt, not_lt.2 h]

theorem setShard_descriptor (index : Index) (i : Int) (s s1 : IndexShard)
    (hs : index.Shards[i.toNat]? = some s) (hd : s1.descriptor = s.descriptor) :
    (index.setShard i s1).Shards.map IndexShard.descriptor =
      index.Shards.map IndexShard.descriptor := by
  simp only [Index.setShard, List.map_set]
  apply List.ext_getElem?
  intro j
  rw [List.getElem?_set]
  by_cases hj : i.toNat = j
  · subst hj
    have hlt : i.toNat < index.Shards.length := by
      by_contra hc
      rw [List.getElem?_eq_none (by omega)] at hs
      cases hs
    have hs1 : index.Shards[i.toNat] = s := by
      have := List.getElem?_eq_getElem hlt
      rw [hs] at this
      exact (Option.some.inj this).symm
    simp [hlt, hd, hs1]
  · simp [hj]

theorem GetWriter_nil (env : Env) (index : Index) :
    index.GetWriter env [] = index.GetWriter env [index.GetLatestShardID] := by
  simp [Index.GetWriter]

theorem GetWriter_outOfRange (env : Env) (index : Index) (shard : Int)
    (h : shard < 0 ∨ shard ≥ index.ShardNum) :
    index.GetWriter env [shard] =
      some ⟨.error (.runtimeException "shard not found"), index, []⟩ := by
  have h1 : shard ≥ index.ShardNum ∨ shard < 0 := h.symm
  simp [Index.GetWriter, h1]

theorem GetWriter_inRange (env : Env) (index : Index) (shard : Int)
    (h0 : 0 ≤ shard) (h1 : shard < index.ShardNum)
    (h2 : index.ShardNum ≤ index.Shards.length) :
    ∃ r, index.GetWriter env [shard] = some r ∧
      r.index.ShardNum = index.ShardNum ∧
      r.index.DocTimeMin = index.DocTimeMin ∧ r.index.DocTimeMax = index.DocTimeMax ∧
      r.index.Shards.map IndexShard.descriptor = index.Shards.map IndexShard.descriptor ∧
      r.result ≠ .ok none := by
  have hcond : ¬ (shard ≥ index.ShardNum ∨ shard < 0) := by omega
  have hlt : shard.toNat < index.Shards.length := by omega
  have hget : index.Shards[shard.toNat]? = some (index.Shards[shard.toNat]) :=
    List.getElem?_eq_getElem hlt
  simp only [Index.GetWriter, hcond, if_false, Index.openWriter,
    shardAt_of_nonneg index shard h0, hget]
  cases hw : (index.Shards[shard.toNat]).Writer with
  | some w => exact ⟨_, rfl, rfl, rfl, rfl, rfl, by simp⟩
  | none =>
    simp only []
    cases ho : env.openIndexWriter shard with
    | error e => exact ⟨_, rfl, rfl, rfl, rfl, rfl, by simp⟩
    | ok w =>
      simp only [shardAt_of_nonneg _ shard h0]
      have hset : (index.setShard shard
          { index.Shards[shard.toNat] with Writer := some w }).Shards[shard.toNat]? =
          some { index.Shards[shard.toNat] with Writer := some w } := by
        simp [Index.setShard, List.getElem?_set, hlt]
      rw [hset]
      refine ⟨_, rfl, rfl, rfl, rfl, ?_, by simp⟩
      exact setShard_descriptor index shard _ _ hget rfl

theorem openReaders_writerCalls (env : Env) :
    ∀ (ids : List Nat) (index : Index) (t : OpenTrace),
      index.openReaders env ids = some t → t.writerCalls = ids.map Int.ofNat := by
  intro ids
  induction ids with
  | nil =>
    intro index t h
    simp [Index.openReaders] at h
    subst h
    rfl
  | cons i rest ih =>
    intro index t h
    simp only [Index.openReaders] at h
    cases hg : index.GetWriter env [(i : Int)] with
    | none => simp [hg] at h
    | some r =>
      simp only [hg] at h
      split at h
      · cases h
      · split at h
        · cases h
        · rename_i t1 ht1
          cases h
          simp [ih _ _ ht1]

theorem openReaders_total (env : Env) :
    ∀ (ids : List Nat) (index : Index),
      index.ShardNum ≤ index.Shards.length → (∀ i ∈ ids, (i : Int) < index.ShardNum) →
      ∃ t, index.openReaders env ids = some t ∧
        t.index.ShardNum = index.ShardNum ∧
        t.index.Shards.map IndexShard.descriptor = index.Shards.map IndexShard.descriptor := by
  intro ids
  induction ids with
  | nil => intro index _ _; exact ⟨_, rfl, rfl, rfl⟩
  | cons i rest ih =>
    intro index hwf hids
    obtain ⟨r, hr, hnum, _, _, hdesc, hres⟩ :=
      GetWriter_inRange env index (i : Int) (by omega) (hids i (by simp)) hwf
    have hlen : r.index.Shards.length = index.Shards.length := by
      simpa using congrArg List.length hdesc
    obtain ⟨t, ht, htn, htd⟩ := ih r.index (by omega) (by
      intro j hj
      rw [hnum]
      exact hids j (by simp [hj]))
    simp only [Index.openReaders, hr]
    cases hrr : r.result with
    | error e =>
      simp only [ht]
      exact ⟨_, rfl, by simpa [hnum] using htn, by simpa [hdesc] using htd⟩
    | ok ow =>
      cases ow with
      | none => exact absurd hrr hres
      | some w =>
        simp only [ht]
        exact ⟨_, rfl, by simpa [hnum] using htn, by simpa [hdesc] using htd⟩

/-! ## Reader selection: `GetReaders` -/

theorem GetReaders_eq (env : Env) (index : Index) (timeMin timeMax : Int)
    (hwf : index.ShardNum ≤ index.Shards.length) :
    ∃ r, index.GetReaders env timeMin timeMax = some r ∧
      index.visitShards timeMin timeMax index.ShardNum.toNat = some r.visited ∧
      r.writerCalls = (r.visited.filter (·.scheduled)).map (fun v => (v.shard : Int)) ∧
      r.index.ShardNum = index.ShardNum ∧
      r.index.Shards.map IndexShard.descriptor = index.Shards.map IndexShard.descriptor := by
  obtain ⟨vs, hvs⟩ := visitShards_total index timeMin timeMax index.ShardNum.toNat (by omega)
  have hspec := visitShards_spec index timeMin timeMax _ vs hvs
  have hids : ∀ i ∈ (vs.filter (fun v => v.scheduled)).map (fun v => v.shard),
      ((i : Nat) : Int) < index.ShardNum := by
    intro i hi
    obtain ⟨v, hv, rfl⟩ := List.mem_map.1 hi
    have hv1 : v ∈ vs := (List.mem_filter.1 hv).1
    have : v.shard ∈ (List.range index.ShardNum.toNat).reverse :=
      hspec.1.subset (List.mem_map_of_mem _ hv1)
    have h3 : v.shard < index.ShardNum.toNat := by simpa using this
    omega
  obtain ⟨t, ht, htn, htd⟩ := openReaders_total env _ index hwf hids
  have hcalls := openReaders_writerCalls env _ index t ht
  refine ⟨⟨collectReaders t.outcomes, t.index, vs, t.writerCalls⟩, ?_, hvs, ?_, htn, htd⟩
  · simp only [Index.GetReaders, Index.GetLatestShardID, sub_add_cancel, hvs, ht]
  · simp [hcalls, List.map_map, Function.comp_def]

theorem GetReaders_trace (env : Env) (index : Index) (timeMin timeMax : Int)
    (r : ReadersResult) (hr : index.GetReaders env timeMin timeMax = some r) :
    index.visitShards timeMin timeMax index.ShardNum.toNat = some r.visited ∧
      r.writerCalls = (r.visited.filter (·.scheduled)).map (fun v => (v.shard : Int)) := by
  simp only [Index.GetReaders, Index.GetLatestShardID, sub_add_cancel] at hr
  cases hvs : index.visitShards timeMin timeMax index.ShardNum.toNat with
  | none => simp [hvs] at hr
  | some vs =>
    simp only [hvs] at hr
    cases ht : index.openReaders env ((vs.filter (·.scheduled)).map (·.shard)) with
    | none => simp [ht] at hr
    | some t =>
      simp only [ht, Option.some.injEq] at hr
      subst hr
      refine ⟨rfl, ?_⟩
      simp [openReaders_writerCalls env _ index t ht, List.map_map, Function.comp_def]

theorem visitShards_all_skipped (index : Index) (t0 t1 : Int) (ht : 0 < t0 ∧ t0 ≤ t1)
    (hb : ∀ s ∈ index.Shards, 0 < s.DocTimeMin ∧ s.DocTimeMin ≤ s.DocTimeMax)
    (hd : ∀ s ∈ index.Shards, s.DocTimeMax < t0 ∨ s.DocTimeMin > t1) :
    ∀ n, n ≤ index.Shards.length →
      ∃ vs, index.visitShards t0 t1 n = some vs ∧ ∀ v ∈ vs, v.scheduled = false := by
  intro n
  induction n with
  | zero => intro _; exact ⟨[], rfl, by simp⟩
  | succ i ih =>
    intro h
    obtain ⟨vs, hvs, hall⟩ := ih (by omega)
    have hlt : i < index.Shards.length := by omega
    have hmem : index.Shards[i] ∈ index.Shards := List.getElem_mem hlt
    have h1 := hb _ hmem
    have h2 := hd _ hmem
    have hskip : (t0 > 0 ∧ (index.Shards[i]).DocTimeMax > 0 ∧ (index.Shards[i]).DocTimeMax < t0) ∨
        (t1 > 0 ∧ (index.Shards[i]).DocTimeMin > 0 ∧ (index.Shards[i]).DocTimeMin > t1) := by
      omega
    simp only [Index.visitShards, shardAt_natCast, List.getElem?_eq_getElem hlt, hvs, hskip,
      if_true, Option.map_some']
    refine ⟨_, rfl, ?_⟩
    intro v hv
    rcases List.mem_cons.1 hv with rfl | hv
    · rfl
    · exact hall v hv

/-- C3: in `GetReaders(timeMin, timeMax)` a visited shard with bounds `(min, max)` takes the
`continue` branch if and only if `(timeMin > 0 ∧ max > 0 ∧ max < timeMin) ∨
(timeMax > 0 ∧ min > 0 ∧ min > timeMax)`, and `GetWriter` is called for it (a reader is
scheduled to be opened) if and only if that condition fails; `GetReaders` returns on every
index whose shard list is at least `ShardNum` long. -/
theorem GetReaders_skips_iff_outside_window (env : Env) (index : Index)
    (timeMin timeMax : Int) :
    (∀ r, index.GetReaders env timeMin timeMax = some r →
      ∀ v ∈ r.visited, ∃ s, index.shardAt v.shard = some s ∧
        (v.scheduled = false ↔
          ((timeMin > 0 ∧ s.DocTimeMax > 0 ∧ s.DocTimeMax < timeMin) ∨
           (timeMax > 0 ∧ s.DocTimeMin > 0 ∧ s.DocTimeMin > timeMax))) ∧
        ((v.shard : Int) ∈ r.writerCalls ↔
          ¬ ((timeMin > 0 ∧ s.DocTimeMax > 0 ∧ s.DocTimeMax < timeMin) ∨
             (timeMax > 0 ∧ s.DocTimeMin > 0 ∧ s.DocTimeMin > timeMax)))) ∧
    (index.ShardNum ≤ index.Shards.length →
      ∃ r, index.GetReaders env timeMin timeMax = some r) := by
  refine ⟨?_, fun hwf => ?_⟩
  · intro r hr
    obtain ⟨hvs, hcalls⟩ := GetReaders_trace env index timeMin timeMax r hr
    obtain ⟨hpre, hall⟩ := visitShards_spec index timeMin timeMax _ r.visited hvs
    have hnodup : (r.visited.map (·.shard)).Nodup :=
      (hpre.sublist).nodup (List.nodup_reverse.2 (List.nodup_range _))
    intro v hv
    obtain ⟨s, hs, hiff, _⟩ := hall v hv
    refine ⟨s, by rw [shardAt_natCast]; exact hs, hiff, ?_⟩
    rw [← hiff, hcalls]
    constructor
    · intro hmem
      obtain ⟨w, hw, hwv⟩ := List.mem_map.1 hmem
      obtain ⟨hw1, hw2⟩ := List.mem_filter.1 hw
      have hsh : w.shard = v.shard := by exact_mod_cast hwv
      have : w = v := List.inj_on_of_nodup_map hnodup hw1 hv hsh
      subst this
      simpa using hw2
    · intro hsched
      have : v.scheduled = true := by simpa using hsched
      exact List.mem_map.2 ⟨v, List.mem_filter.2 ⟨hv, by simpa using this⟩, rfl⟩
  · obtain ⟨r, hr, _⟩ := GetReaders_eq env index timeMin timeMax hwf
    exact ⟨r, hr⟩

/-- C4: when every shard has positive bounds `min ≤ max` and lies outside the window
`0 < t0 ≤ t1` (`max < t0` or `min > t1`), `GetReaders(t0, t1)` returns an empty reader list
and no error, calls `GetWriter` for no shard and leaves the index as it was. -/
theorem GetReaders_disjoint_opens_none (env : Env) (index : Index) (t0 t1 : Int)
    (hwf : index.ShardNum ≤ index.Shards.length)
    (hb : ∀ s ∈ index.Shards, 0 < s.DocTimeMin ∧ s.DocTimeMin ≤ s.DocTimeMax)
    (ht : 0 < t0 ∧ t0 ≤ t1)
    (hd : ∀ s ∈ index.Shards, s.DocTimeMax < t0 ∨ s.DocTimeMin > t1) :
    ∃ r, index.GetReaders env t0 t1 = some r ∧ r.result = .ok [] ∧ r.writerCalls = [] ∧
      r.index = index ∧ ∀ v ∈ r.visited, v.scheduled = false := by
  obtain ⟨vs, hvs, hall⟩ :=
    visitShards_all_skipped index t0 t1 ht hb hd index.ShardNum.toNat (by omega)
  have hfilter : vs.filter (·.scheduled) = [] := by
    rw [List.filter_eq_nil_iff]
    intro v hv
    simp [hall v hv]
  refine ⟨⟨.ok [], index, vs, []⟩, ?_, rfl, rfl, rfl, hall⟩
  simp only [Index.GetReaders, Index.GetLatestShardID, sub_add_cancel, hvs, hfilter,
    List.map_nil, Index.openReaders, collectReaders]

/-- C5 (amended): `GetReaders` visits shard ids in descending order starting at the newest,
and right after scheduling a shard whose `min` is set (`> 0`) and below `timeMin` it stops:
no shard with a smaller id is visited and `GetWriter` is called for none; `GetReaders`
returns on every index whose shard list is at least `ShardNum` long. -/
theorem GetReaders_stops_after_set_min_below (env : Env) (index : Index)
    (timeMin timeMax : Int) :
    (∀ r, index.GetReaders env timeMin timeMax = some r →
      r.visited.map (·.shard) <+: (List.range index.ShardNum.toNat).reverse ∧
      ∀ v ∈ r.visited, ∀ s, index.shardAt v.shard = some s → v.scheduled = true →
        0 < s.DocTimeMin → s.DocTimeMin < timeMin →
        (∀ w ∈ r.visited, v.shard ≤ w.shard) ∧
          ∀ j ∈ r.writerCalls, (v.shard : Int) ≤ j) ∧
    (index.ShardNum ≤ index.Shards.length →
      ∃ r, index.GetReaders env timeMin timeMax = some r) := by
  refine ⟨?_, fun hwf => ?_⟩
  · intro r hr
    obtain ⟨hvs, hcalls⟩ := GetReaders_trace env index timeMin timeMax r hr
    obtain ⟨hpre, hall⟩ := visitShards_spec index timeMin timeMax _ r.visited hvs
    refine ⟨hpre, ?_⟩
    intro v hv s hs hsched hpos hbelow
    obtain ⟨s1, hs1, _, hstop⟩ := hall v hv
    rw [shardAt_natCast, hs1] at hs
    cases hs
    have hmin := hstop hsched hpos hbelow
    refine ⟨hmin, ?_⟩
    intro j hj
    rw [hcalls] at hj
    obtain ⟨w, hw, rfl⟩ := List.mem_map.1 hj
    exact_mod_cast hmin w (List.mem_filter.1 hw).1
  · obtain ⟨r, hr, _⟩ := GetReaders_eq env index timeMin timeMax hwf
    exact ⟨r, hr⟩

/-! ## Shard rolling: `NewShard` and `CheckShards` -/

theorem UpdateMetadataByShard_frame (index : Index) (n : Int) :
    (index.UpdateMetadataByShard n).ShardNum = index.ShardNum ∧
    (index.UpdateMetadataByShard n).DocTimeMin = index.DocTimeMin ∧
    (index.UpdateMetadataByShard n).DocTimeMax = index.DocTimeMax ∧
    (index.UpdateMetadataByShard n).Shards.map IndexShard.descriptor =
      index.Shards.map IndexShard.descriptor := by
  unfold Index.UpdateMetadataByShard
  split
  · simp
  · rename_i s hs
    split
    · simp
    · refine ⟨rfl, rfl, rfl, ?_⟩
      have hn : 0 ≤ n := by
        by_contra hc
        simp [Index.shardAt, not_le.1 hc] at hs
      rw [shardAt_of_nonneg index n hn] at hs
      exact setShard_descriptor index n s _ hs rfl

theorem openWriter_frame (env : Env) (index : Index) (shard : Int)
    (h0 : 0 ≤ shard) (h1 : shard.toNat < index.Shards.length) :
    ∃ err idx1 called, index.openWriter env shard = some (err, idx1, called) ∧
      idx1.ShardNum = index.ShardNum ∧
      idx1.DocTimeMin = index.DocTimeMin ∧ idx1.DocTimeMax = index.DocTimeMax ∧
      idx1.Shards.map IndexShard.descriptor = index.Shards.map IndexShard.descriptor := by
  have hget : index.Shards[shard.toNat]? = some (index.Shards[shard.toNat]) :=
    List.getElem?_eq_getElem h1
  simp only [Index.openWriter, shardAt_of_nonneg index shard h0, hget]
  cases hw : (index.Shards[shard.toNat]).Writer with
  | some w => exact ⟨_, _, _, rfl, rfl, rfl, rfl, rfl⟩
  | none =>
    simp only []
    cases ho : env.openIndexWriter shard with
    | error e => exact ⟨_, _, _, rfl, rfl, rfl, rfl, rfl⟩
    | ok w =>
      exact ⟨_, _, _, rfl, rfl, rfl, rfl, setShard_descriptor index shard _ _ hget rfl⟩

/-- What `NewShard` does to the persisted descriptor of an index whose shard counter equals
the length of its shard list. -/
theorem NewShard_descriptors (env : Env) (index : Index)
    (h1 : 1 ≤ index.ShardNum) (hlen : (index.Shards.length : Int) = index.ShardNum) :
    ∃ err idx1 last, index.NewShard env = some (err, idx1) ∧
      index.Shards[index.Shards.length - 1]? = some last ∧
      idx1.ShardNum = index.ShardNum + 1 ∧ idx1.DocTimeMin = 0 ∧ idx1.DocTimeMax = 0 ∧
      idx1.Shards.map IndexShard.descriptor =
        (index.Shards.map IndexShard.descriptor).set (index.Shards.length - 1)
          (last.ID, index.DocTimeMin, index.DocTimeMax) ++ [(index.ShardNum, 0, 0)] ∧
      (∀ e, env.metadataSet = some e → err = some e) := by
  obtain ⟨f1, f2, f3, f4⟩ := UpdateMetadataByShard_frame index index.GetLatestShardID
  simp only [Index.NewShard]
  generalize index.UpdateMetadataByShard index.GetLatestShardID = index0 at f1 f2 f3 f4 ⊢
  have hlen0 : index0.Shards.length = index.Shards.length := by
    simpa using congrArg List.length f4
  have hpos : 0 < index.Shards.length := by omega
  have hlt : index.Shards.length - 1 < index.Shards.length := by omega
  have hlt0 : index.Shards.length - 1 < index0.Shards.length := by omega
  have htn : (index0.ShardNum - 1).toNat = index.Shards.length - 1 := by omega
  have hdesc0 : (index0.Shards[index.Shards.length - 1]).descriptor =
      (index.Shards[index.Shards.length - 1]).descriptor := by
    have h := congrArg (fun l => l[index.Shards.length - 1]?) f4
    simp only [List.getElem?_map, List.getElem?_eq_getElem hlt,
      List.getElem?_eq_getElem hlt0, Option.map_some'] at h
    exact Option.some.inj h
  have hid0 : (index0.Shards[index.Shards.length - 1]).ID =
      (index.Shards[index.Shards.length - 1]).ID := congrArg (fun d => d.1) hdesc0
  have hshardAt : index0.shardAt (index0.ShardNum - 1) =
      some (index0.Shards[index.Shards.length - 1]) := by
    rw [shardAt_of_nonneg _ _ (by omega), htn]
    exact List.getElem?_eq_getElem hlt0
  simp only [hshardAt, Index.setShard, Index.GetLatestShardID, htn]
  -- the descriptor list after the locked section
  have hset : (index0.Shards.set (index.Shards.length - 1)
        { index0.Shards[index.Shards.length - 1] with
          DocTimeMin := index0.DocTimeMin, DocTimeMax := index0.DocTimeMax }).map
        IndexShard.descriptor =
      (index.Shards.map IndexShard.descriptor).set (index.Shards.length - 1)
        ((index.Shards[index.Shards.length - 1]).ID, index.DocTimeMin, index.DocTimeMax) := by
    simp only [List.map_set, f4]
    simp [IndexShard.descriptor, hid0, f2, f3]
  have hsetlen : (index0.Shards.set (index.Shards.length - 1)
        { index0.Shards[index.Shards.length - 1] with
          DocTimeMin := index0.DocTimeMin, DocTimeMax := index0.DocTimeMax }).length =
      index.Shards.length := by
    simp [hlen0]
  generalize index0.Shards.set (index.Shards.length - 1)
        { index0.Shards[index.Shards.length - 1] with
          DocTimeMin := index0.DocTimeMin, DocTimeMax := index0.DocTimeMax } = shards1
    at hset hsetlen ⊢
  cases hm : env.metadataSet with
  | some e =>
    refine ⟨some e, _, index.Shards[index.Shards.length - 1], rfl,
      List.getElem?_eq_getElem hlt, ?_, rfl, rfl, ?_, ?_⟩
    · simp [f1]
    · simp [hset, IndexShard.descriptor, f1]
    · intro e1 he1
      exact he1 ▸ rfl
  | none =>
    simp only []
    obtain ⟨err, idx1, called, ho, g1, g2, g3, g4⟩ := openWriter_frame env
      (⟨index0.ShardNum + 1, shards1 ++ [{ ID := index0.ShardNum + 1 - 1 }], 0, 0⟩ : Index)
      (index0.ShardNum + 1 - 1) (by omega) (by simp; omega)
    rw [ho]
    refine ⟨err, idx1, index.Shards[index.Shards.length - 1], rfl,
      List.getElem?_eq_getElem hlt, ?_, g2, g3, ?_, ?_⟩
    · rw [g1]
      simp [f1]
    · rw [g4]
      simp [hset, IndexShard.descriptor, f1]
    · intro e1 he1
      cases he1

theorem ids_eq_range_iff (l : List IndexShard) :
    (∀ i (h : i < l.length), (l[i]).ID = (i : Int)) ↔
      l.map (·.ID) = (List.range l.length).map Int.ofNat := by
  constructor
  · intro h
    apply List.ext_getElem (by simp)
    intro i h1 h2
    simp at h1
    simp [h i h1]
  · intro h i hi
    have h3 := congrArg (fun m => m[i]?) h
    simpa [List.getElem?_map, List.getElem?_eq_getElem hi, List.getElem?_range hi] using h3

theorem NewShard_ids (env : Env) (index : Index)
    (h1 : 1 ≤ index.ShardNum) (hlen : (index.Shards.length : Int) = index.ShardNum) :
    ∃ err idx1, index.NewShard env = some (err, idx1) ∧
      idx1.ShardNum = index.ShardNum + 1 ∧
      idx1.Shards.map (·.ID) = index.Shards.map (·.ID) ++ [index.ShardNum] ∧
      (∀ e, env.metadataSet = some e → err = some e) := by
  obtain ⟨err, idx1, last, hN, hlast, hnum, _, _, hdesc, herr⟩ :=
    NewShard_descriptors env index h1 hlen
  refine ⟨err, idx1, hN, hnum, ?_, herr⟩
  have h2 := congrArg (List.map (fun d : Int × Int × Int => d.1)) hdesc
  simp only [List.map_map, List.map_append, List.map_set, List.map_cons, List.map_nil] at h2
  have hf : ((fun d : Int × Int × Int => d.1) ∘ IndexShard.descriptor) = fun s => s.ID := rfl
  rw [hf] at h2
  rw [h2]
  congr 1
  apply List.ext_getElem?
  intro j
  rw [List.getElem?_set]
  by_cases hj : index.Shards.length - 1 = j
  · subst hj
    simp [List.getElem?_map, hlast]
    intro hc
    simp [hc] at hlen
    omega
  · simp [hj]

/-- C6: if `ShardNum ≥ 1`, `len(Shards) = ShardNum` and `Shards[i].ID = i` for every `i`,
then `NewShard` returns, and afterwards `ShardNum` has grown by exactly 1,
`len(Shards) = ShardNum`, `Shards[i].ID = i` for every `i`, and the last shard is the one
`GetLatestShardID() = ShardNum - 1` names; this holds also when the metadata store refuses
the descriptor, in which case `NewShard` returns that error. -/
theorem NewShard_keeps_ids_contiguous (env : Env) (index : Index)
    (h1 : 1 ≤ index.ShardNum) (hlen : (index.Shards.length : Int) = index.ShardNum)
    (hid : ∀ i (h : i < index.Shards.length), (index.Shards[i]).ID = (i : Int)) :
    ∃ err idx1, index.NewShard env = some (err, idx1) ∧
      idx1.ShardNum = index.ShardNum + 1 ∧
      (idx1.Shards.length : Int) = idx1.ShardNum ∧
      (∀ i (h : i < idx1.Shards.length), (idx1.Shards[i]).ID = (i : Int)) ∧
      idx1.GetLatestShardID = idx1.ShardNum - 1 ∧
      (idx1.shardAt idx1.GetLatestShardID).map (·.ID) = some (idx1.ShardNum - 1) ∧
      (∀ e, env.metadataSet = some e → err = some e) := by
  obtain ⟨err, idx1, hN, hnum, hids, herr⟩ := NewShard_ids env index h1 hlen
  have hlen1 : idx1.Shards.length = index.Shards.length + 1 := by
    simpa using congrArg List.length hids
  have hcont : ∀ i (h : i < idx1.Shards.length), (idx1.Shards[i]).ID = (i : Int) := by
    rw [ids_eq_range_iff, hids, (ids_eq_range_iff index.Shards).1 hid, hlen1,
      List.range_succ, List.map_append, ← hlen]
    simp
  refine ⟨err, idx1, hN, hnum, by omega, hcont, rfl, ?_, herr⟩
  have hlt : (idx1.ShardNum - 1).toNat < idx1.Shards.length := by omega
  rw [Index.GetLatestShardID, shardAt_of_nonneg _ _ (by omega),
    List.getElem?_eq_getElem hlt, Option.map_some', hcont _ hlt]
  congr 1
  omega

/-- C7: `NewShard` freezes the retired shard: afterwards the previously latest shard carries
the index-level running `DocTimeMin`/`DocTimeMax` held at the roll, the running values are
both 0, the new latest shard has both bounds 0, and the descriptor (id and bounds) of every
older shard is unchanged. -/
theorem NewShard_freezes_retired_shard (env : Env) (index : Index)
    (h1 : 1 ≤ index.ShardNum) (hlen : (index.Shards.length : Int) = index.ShardNum) :
    ∃ err idx1, index.NewShard env = some (err, idx1) ∧
      (∃ s, idx1.shardAt index.GetLatestShardID = some s ∧
        s.DocTimeMin = index.DocTimeMin ∧ s.DocTimeMax = index.DocTimeMax) ∧
      idx1.DocTimeMin = 0 ∧ idx1.DocTimeMax = 0 ∧
      (∃ s, idx1.shardAt idx1.GetLatestShardID = some s ∧
        s.DocTimeMin = 0 ∧ s.DocTimeMax = 0) ∧
      ∀ i : Int, 0 ≤ i → i < index.GetLatestShardID →
        (idx1.shardAt i).map IndexShard.descriptor =
          (index.shardAt i).map IndexShard.descriptor := by
  obtain ⟨err, idx1, last, hN, hlast, hnum, hmin, hmax, hdesc, _⟩ :=
    NewShard_descriptors env index h1 hlen
  have hlen1 : idx1.Shards.length = index.Shards.length + 1 := by
    simpa using congrArg List.length hdesc
  have hget : ∀ j : Nat, (idx1.Shards[j]?).map IndexShard.descriptor =
      ((index.Shards.map IndexShard.descriptor).set (index.Shards.length - 1)
          (last.ID, index.DocTimeMin, index.DocTimeMax) ++ [(index.ShardNum, 0, 0)])[j]? := by
    intro j
    rw [← hdesc, List.getElem?_map]
  refine ⟨err, idx1, hN, ?_, hmin, hmax, ?_, ?_⟩
  · have hlt : (index.ShardNum - 1).toNat < idx1.Shards.length := by omega
    obtain ⟨s, hs⟩ : ∃ s, idx1.Shards[(index.ShardNum - 1).toNat]? = some s :=
      ⟨_, List.getElem?_eq_getElem hlt⟩
    refine ⟨s, ?_, ?_⟩
    · rw [Index.GetLatestShardID, shardAt_of_nonneg _ _ (by omega)]
      exact hs
    · have h := hget (index.ShardNum - 1).toNat
      have e1 : (index.ShardNum - 1).toNat = index.Shards.length - 1 := by omega
      rw [hs, e1, List.getElem?_append_left (by simp; omega),
        List.getElem?_set_self (by simp; omega)] at h
      simp only [Option.map_some', Option.some.injEq, IndexShard.descriptor, Prod.mk.injEq] at h
      exact ⟨h.2.1, h.2.2⟩
  · have hlt : (idx1.ShardNum - 1).toNat < idx1.Shards.length := by omega
    obtain ⟨s, hs⟩ : ∃ s, idx1.Shards[(idx1.ShardNum - 1).toNat]? = some s :=
      ⟨_, List.getElem?_eq_getElem hlt⟩
    refine ⟨s, ?_, ?_⟩
    · rw [Index.GetLatestShardID, shardAt_of_nonneg _ _ (by omega)]
      exact hs
    · have h := hget (idx1.ShardNum - 1).toNat
      have e1 : (idx1.ShardNum - 1).toNat = index.Shards.length := by omega
      rw [hs, e1, List.getElem?_append_right (by simp)] at h
      simp only [List.length_set, List.length_map, Nat.sub_self, List.getElem?_cons_zero,
        Option.map_some', Option.some.injEq, IndexShard.descriptor, Prod.mk.injEq] at h
      exact ⟨h.2.1, h.2.2⟩
  · intro i hi0 hi1
    simp only [Index.GetLatestShardID] at hi1
    rw [shardAt_of_nonneg _ _ hi0, shardAt_of_nonneg _ _ hi0, hget,
      List.getElem?_append_left (by simp; omega), List.getElem?_set_ne (by omega),
      List.getElem?_map]

theorem GetWriter_open_unchanged (env : Env) (index : Index) (shard : Int) (s : IndexShard)
    (w : Writer) (h0 : 0 ≤ shard) (h1 : shard < index.ShardNum)
    (hs : index.shardAt shard = some s) (hw : s.Writer = some w) :
    index.GetWriter env [shard] = some ⟨.ok (some w), index, []⟩ := by
  have hcond : ¬ (shard ≥ index.ShardNum ∨ shard < 0) := by omega
  simp only [Index.GetWriter, hcond, if_false, hs, hw]

/-- C8: `CheckShards` rolls exactly when the on-disk size reported by the latest writer is
strictly greater than `shard.max_size`: then exactly one shard is added (the counter and
the list grow by one, the new id being the old `ShardNum`); when the size is at most
`shard.max_size` the counter and every shard descriptor are unchanged and `nil` is
returned, the index being untouched altogether when the writer was already open. -/
theorem CheckShards_rolls_iff_size_exceeds (env : Env) (index : Index) (r : WriterResult)
    (w : Writer) (h1 : 1 ≤ index.ShardNum)
    (hlen : (index.Shards.length : Int) = index.ShardNum)
    (hr : index.GetWriter env [] = some r) (hw : r.result = .ok (some w)) :
    (w.DirectoryStats.2 > env.maxSize →
      ∃ err idx1, index.CheckShards env = some (err, idx1) ∧
        idx1.ShardNum = index.ShardNum + 1 ∧
        idx1.Shards.length = index.Shards.length + 1 ∧
        idx1.Shards.map (·.ID) = index.Shards.map (·.ID) ++ [index.ShardNum]) ∧
    (w.DirectoryStats.2 ≤ env.maxSize →
      ∃ idx1, index.CheckShards env = some (none, idx1) ∧
        idx1.ShardNum = index.ShardNum ∧
        idx1.Shards.map IndexShard.descriptor = index.Shards.map IndexShard.descriptor ∧
        (∀ s, index.shardAt index.GetLatestShardID = some s → s.Writer ≠ none →
          idx1 = index)) := by
  obtain ⟨r1, hr1, hnum, _, _, hdesc, _⟩ :=
    GetWriter_inRange env index index.GetLatestShardID
      (by simp only [Index.GetLatestShardID]; omega)
      (by simp only [Index.GetLatestShardID]; omega) (by omega)
  rw [← GetWriter_nil, hr] at hr1
  cases hr1
  have hlenr : r.index.Shards.length = index.Shards.length := by
    simpa using congrArg List.length hdesc
  have hids : r.index.Shards.map (·.ID) = index.Shards.map (·.ID) := by
    have h2 := congrArg (List.map (fun d : Int × Int × Int => d.1)) hdesc
    simpa only [List.map_map] using h2
  constructor
  · intro hgt
    obtain ⟨err, idx1, hN, hn1, hi1, _⟩ :=
      NewShard_ids env r.index (by omega) (by omega)
    refine ⟨err, idx1, ?_, by omega, ?_, ?_⟩
    · simp only [Index.CheckShards, hr, hw, hgt, if_true, hN]
    · have := congrArg List.length hi1
      simp at this
      omega
    · rw [hi1, hids, hnum]
  · intro hle
    refine ⟨r.index, ?_, hnum, hdesc, ?_⟩
    · simp only [Index.CheckShards, hr, hw, not_lt.2 hle, if_false]
    · intro s hs hne
      obtain ⟨w1, hw1⟩ := Option.ne_none_iff_exists'.1 hne
      have h3 := GetWriter_open_unchanged env index index.GetLatestShardID s w1
        (by simp only [Index.GetLatestShardID]; omega)
        (by simp only [Index.GetLatestShardID]; omega) hs hw1
      rw [← GetWriter_nil, hr] at h3
      cases h3
      rfl

/-- C9: `GetWriter` with no argument targets the latest shard (id `ShardNum - 1`); for a
requested id with `id < 0` or `id ≥ ShardNum` it returns the RuntimeException
"shard not found" and no writer, whatever the shard list holds, opens nothing and leaves the
index as it was; for `0 ≤ id < ShardNum` on an index whose shard list is at least
`ShardNum` long it returns without an out-of-range access. -/
theorem GetWriter_checks_shard_range (env : Env) (index : Index) :
    index.GetWriter env [] = index.GetWriter env [index.ShardNum - 1] ∧
    (∀ id : Int, id < 0 ∨ id ≥ index.ShardNum →
      index.GetWriter env [id] =
        some ⟨.error (.runtimeException "shard not found"), index, []⟩) ∧
    (∀ id : Int, 0 ≤ id → id < index.ShardNum → index.ShardNum ≤ index.Shards.length →
      ∃ r, index.GetWriter env [id] = some r ∧ r.result ≠ .ok none ∧
        r.index.ShardNum = index.ShardNum ∧
        r.index.Shards.map IndexShard.descriptor =
          index.Shards.map IndexShard.descriptor) := by
  refine ⟨GetWriter_nil env index, GetWriter_outOfRange env index, ?_⟩
  intro id h0 h1 h2
  obtain ⟨r, hr, hnum, _, _, hdesc, hres⟩ := GetWriter_inRange env index id h0 h1 h2
  exact ⟨r, hr, hres, hnum, hdesc⟩

/-! ## The collector store: lemmas -/

theorem add_length (sort : SortOrder) (d : DocumentMatch) (l : List DocumentMatch) :
    (CollectorStore.add sort d l).length = l.length + 1 := by
  induction l with
  | nil => rfl
  | cons e rest ih =>
    simp only [CollectorStore.add]
    split_ifs <;> simp [ih]

theorem add_perm (sort : SortOrder) (d : DocumentMatch) (l : List DocumentMatch) :
    (CollectorStore.add sort d l).Perm (d :: l) := by
  induction l with
  | nil => exact List.Perm.refl _
  | cons e rest ih =>
    simp only [CollectorStore.add]
    split_ifs
    · exact List.Perm.refl _
    · exact (List.Perm.cons e ih).trans (List.Perm.swap d e rest)

theorem mem_add (sort : SortOrder) (d x : DocumentMatch) (l : List DocumentMatch) :
    x ∈ CollectorStore.add sort d l ↔ x = d ∨ x ∈ l := by
  rw [(add_perm sort d l).mem_iff, List.mem_cons]

theorem not_before_iff (sort : SortOrder) (h : sort.IsTotalPreorder) (a b : DocumentMatch) :
    ¬ sort.Compare a b < 0 ↔ sort.Compare b a ≤ 0 := by
  rw [h.swap a b]
  omega

theorem add_pairwise (sort : SortOrder) (h : sort.IsTotalPreorder) (d : DocumentMatch)
    (l : List DocumentMatch) (hl : l.Pairwise (fun a b => sort.Compare a b ≤ 0)) :
    (CollectorStore.add sort d l).Pairwise (fun a b => sort.Compare a b ≤ 0) := by
  induction l with
  | nil => simp [CollectorStore.add]
  | cons e rest ih =>
    obtain ⟨he, hrest⟩ := List.pairwise_cons.1 hl
    simp only [CollectorStore.add]
    split_ifs with hlt
    · refine List.pairwise_cons.2 ⟨?_, hl⟩
      intro x hx
      rcases List.mem_cons.1 hx with rfl | hx
      · omega
      · exact h.trans d e x (by omega) (he x hx)
    · refine List.pairwise_cons.2 ⟨?_, ih hrest⟩
      intro x hx
      rcases (mem_add sort d x rest).1 hx with rfl | hx
      · exact (not_before_iff sort h x e).1 hlt
      · exact he x hx

theorem take_add (sort : SortOrder) (d : DocumentMatch) :
    ∀ (l : List DocumentMatch) (n : Nat),
      (CollectorStore.add sort d l).take n = (CollectorStore.add sort d (l.take n)).take n := by
  intro l
  induction l with
  | nil => intro n; simp [CollectorStore.add]
  | cons e rest ih =>
    intro n
    cases n with
    | zero => simp
    | succ n =>
      simp only [CollectorStore.add, List.take_succ_cons]
      split_ifs
      · simp only [List.take_succ_cons]
        congr 1
        cases n with
        | zero => simp
        | succ m => simp [List.take_take]
      · simp only [List.take_succ_cons]
        rw [ih n]

theorem add_eq_append (sort : SortOrder) (d : DocumentMatch) (l : List DocumentMatch)
    (h : ∀ e ∈ l, ¬ sort.Compare d e < 0) : CollectorStore.add sort d l = l ++ [d] := by
  induction l with
  | nil => rfl
  | cons e rest ih =>
    simp only [CollectorStore.add, h e (by simp), if_false, List.cons_append]
    rw [ih (fun x hx => h x (by simp [hx]))]

theorem rankAll_append (sort : SortOrder) (docs : List DocumentMatch) (d : DocumentMatch) :
    rankAll sort (docs ++ [d]) = CollectorStore.add sort d (rankAll sort docs) := by
  simp [rankAll, List.foldl_append]

theorem rankAll_perm (sort : SortOrder) (docs : List DocumentMatch) :
    (rankAll sort docs).Perm docs := by
  induction docs using List.reverseRecOn with
  | nil => exact List.Perm.refl _
  | append_singleton init d ih =>
    rw [rankAll_append]
    exact (add_perm sort d _).trans
      ((List.Perm.cons d ih).trans (List.perm_append_singleton d init).symm)

theorem rankAll_pairwise (sort : SortOrder) (h : sort.IsTotalPreorder)
    (docs : List DocumentMatch) :
    (rankAll sort docs).Pairwise (fun a b => sort.Compare a b ≤ 0) := by
  induction docs using List.reverseRecOn with
  | nil => simp [rankAll]
  | append_singleton init d ih =>
    rw [rankAll_append]
    exact add_pairwise sort h d _ ih

theorem AddNotExceedingSize_fst (sort : SortOrder) (store : List DocumentMatch)
    (d : DocumentMatch) (size : Nat) (hlen : store.length ≤ size) :
    (CollectorStore.AddNotExceedingSize sort store d size).1 =
      (CollectorStore.add sort d store).take size := by
  have hl := add_length sort d store
  simp only [CollectorStore.AddNotExceedingSize]
  split_ifs with hgt
  · simp only [List.dropLast_eq_take]
    congr 1
    omega
  · simp only []
    rw [List.take_of_length_le (by omega)]

theorem AddNotExceedingSize_snd (sort : SortOrder) (store : List DocumentMatch)
    (d : DocumentMatch) (size : Nat) :
    (CollectorStore.AddNotExceedingSize sort store d size).2 =
      if (CollectorStore.add sort d store).length > size
      then (CollectorStore.add sort d store).getLast? else none := by
  simp only [CollectorStore.AddNotExceedingSize]
  split_ifs <;> rfl

/-! ## `Done`: the loop keeps the best `backingSize` matches of the full ranking -/

theorem doneStep_skip (sort : SortOrder) (B : Nat) (st : DoneState) (d lowest : DocumentMatch)
    (hl : st.lowestMatchOutsideResults = some lowest) (hc : sort.Compare d lowest ≥ 0) :
    DocumentList.doneStep sort B st d = st := by
  simp [DocumentList.doneStep, hl, hc]

theorem doneStep_add (sort : SortOrder) (B : Nat) (st : DoneState) (d : DocumentMatch)
    (hc : ∀ lowest, st.lowestMatchOutsideResults = some lowest → sort.Compare d lowest < 0) :
    (DocumentList.doneStep sort B st d).store =
        (CollectorStore.AddNotExceedingSize sort st.store d B).1 ∧
      ∀ l, (DocumentList.doneStep sort B st d).lowestMatchOutsideResults = some l →
        st.lowestMatchOutsideResults = some l ∨
        (CollectorStore.AddNotExceedingSize sort st.store d B).2 = some l := by
  cases hl : st.lowestMatchOutsideResults with
  | none =>
    simp only [DocumentList.doneStep, hl]
    cases hr : (CollectorStore.AddNotExceedingSize sort st.store d B).2 with
    | none =>
      simp [hr]
    | some r =>
      simp [hr]
  | some lowest =>
    have hlt := hc lowest hl
    have hdec : decide (sort.Compare d lowest ≥ 0) = false := by
      simpa using hlt
    simp only [DocumentList.doneStep, hl, hdec, Bool.false_eq_true, if_false]
    cases hr : (CollectorStore.AddNotExceedingSize sort st.store d B).2 with
    | none =>
      simp [hr]
    | some r =>
      simp only [hr]
      split_ifs <;> simp

theorem doneStep_invariant (sort : SortOrder) (h : sort.IsTotalPreorder) (B : Nat)
    (S : List DocumentMatch) (hS : S.Pairwise (fun a b => sort.Compare a b ≤ 0))
    (st : DoneState) (h1 : st.store = S.take B)
    (h2 : ∀ l, st.lowestMatchOutsideResults = some l →
      st.store.length = B ∧ ∀ e ∈ st.store, sort.Compare e l ≤ 0)
    (d : DocumentMatch) :
    (DocumentList.doneStep sort B st d).store = (CollectorStore.add sort d S).take B ∧
    ∀ l, (DocumentList.doneStep sort B st d).lowestMatchOutsideResults = some l →
      (DocumentList.doneStep sort B st d).store.length = B ∧
      ∀ e ∈ (DocumentList.doneStep sort B st d).store, sort.Compare e l ≤ 0 := by
  have hlen : st.store.length ≤ B := by
    rw [h1, List.length_take]
    omega
  have hsorted : st.store.Pairwise (fun a b => sort.Compare a b ≤ 0) := by
    rw [h1]
    exact hS.sublist (List.take_sublist _ _)
  by_cases hskip : ∃ lowest, st.lowestMatchOutsideResults = some lowest ∧
      sort.Compare d lowest ≥ 0
  · -- the shortcut: `d` would be added last and removed at once
    obtain ⟨lowest, hl, hc⟩ := hskip
    rw [doneStep_skip sort B st d lowest hl hc]
    obtain ⟨hfull, hle⟩ := h2 lowest hl
    refine ⟨?_, h2⟩
    have hlast : CollectorStore.add sort d st.store = st.store ++ [d] := by
      apply add_eq_append
      intro e he
      rw [not_before_iff sort h]
      exact h.trans e lowest d (hle e he) ((not_before_iff sort h d lowest).1 (by omega))
    rw [take_add, ← h1, hlast, List.take_append_of_le_length (by omega),
      List.take_of_length_le (by omega)]
  · -- the match is offered to the store
    have hc : ∀ lowest, st.lowestMatchOutsideResults = some lowest →
        sort.Compare d lowest < 0 := by
      intro lowest hl
      by_contra hcon
      exact hskip ⟨lowest, hl, by omega⟩
    obtain ⟨hstore, hlow⟩ := doneStep_add sort B st d hc
    have hstore1 : (DocumentList.doneStep sort B st d).store =
        (CollectorStore.add sort d st.store).take B := by
      rw [hstore, AddNotExceedingSize_fst sort st.store d B hlen]
    refine ⟨?_, ?_⟩
    · rw [hstore1, h1, ← take_add]
    · intro l hl
      have hmem : ∀ e ∈ (DocumentList.doneStep sort B st d).store,
          e ∈ CollectorStore.add sort d st.store := by
        intro e he
        rw [hstore1] at he
        exact List.mem_of_mem_take he
      rcases hlow l hl with hold | hnew
      · obtain ⟨hfull, hle⟩ := h2 l hold
        refine ⟨?_, ?_⟩
        · rw [hstore1, List.length_take, add_length]
          omega
        · intro e he
          rcases (mem_add sort d e st.store).1 (hmem e he) with rfl | he1
          · exact le_of_lt (hc l hold)
          · exact hle e he1
      · rw [AddNotExceedingSize_snd] at hnew
        split_ifs at hnew with hgt
        have hal := add_length sort d st.store
        refine ⟨?_, ?_⟩
        · rw [hstore1, List.length_take]
          omega
        · intro e he
          have hadded := add_pairwise sort h d st.store hsorted
          have hsplit := List.dropLast_append_getLast? l hnew
          rw [← hsplit] at hadded
          have he1 : e ∈ (CollectorStore.add sort d st.store).dropLast := by
            rw [hstore1] at he
            rw [List.dropLast_eq_take]
            have : (CollectorStore.add sort d st.store).length - 1 = B := by omega
            rw [this]
            exact he
          exact (List.pairwise_append.1 hadded).2.2 e he1 l (by simp)

theorem doneLoop_invariant (sort : SortOrder) (h : sort.IsTotalPreorder) (B : Nat)
    (docs : List DocumentMatch) :
    (docs.foldl (DocumentList.doneStep sort B) ⟨[], none⟩).store = (rankAll sort docs).take B ∧
    ∀ l, (docs.foldl (DocumentList.doneStep sort B) ⟨[], none⟩).lowestMatchOutsideResults =
        some l →
      (docs.foldl (DocumentList.doneStep sort B) ⟨[], none⟩).store.length = B ∧
      ∀ e ∈ (docs.foldl (DocumentList.doneStep sort B) ⟨[], none⟩).store,
        sort.Compare e l ≤ 0 := by
  induction docs using List.reverseRecOn with
  | nil => simp [rankAll]
  | append_singleton init d ih =>
    rw [List.foldl_append, rankAll_append]
    exact doneStep_invariant sort h B _ (rankAll_pairwise sort h init) _ ih.1 ih.2 d

/-- What `Done` leaves in `docs`, for a comparator that is a total preorder: the full
ranking cut to the backing size, without its first `skip` matches, reversed on request. -/
theorem Done_eq (d : DocumentList) (bucket : Bucket) (size skip numSearchers : Nat)
    (reversed : Bool) (sort : SortOrder) (h : sort.IsTotalPreorder)
    (hb : d.bucket = some bucket) :
    d.Done size skip numSearchers reversed sort =
      some (.ok { d with
        bucket := some bucket.Finish,
        docs :=
          if reversed then
            (((rankAll sort d.docs).take ((size + skip + 1) * numSearchers)).drop skip).reverse
          else ((rankAll sort d.docs).take ((size + skip + 1) * numSearchers)).drop skip }) := by
  simp only [DocumentList.Done, hb, CollectorStore.Final,
    (doneLoop_invariant sort h ((size + skip + 1) * numSearchers) d.docs).1]

/-! ## The example comparators are total preorders -/

theorem compareKeys_swap : ∀ a b : List Nat, compareKeys a b < 0 ↔ 0 < compareKeys b a := by
  intro a
  induction a with
  | nil => intro b; cases b <;> simp [compareKeys]
  | cons x xs ih =>
    intro b
    cases b with
    | nil => simp [compareKeys]
    | cons y ys =>
      simp only [compareKeys]
      have := ih ys
      split_ifs <;> omega

theorem compareKeys_eq_zero : ∀ a b : List Nat, compareKeys a b = 0 ↔ a = b := by
  intro a
  induction a with
  | nil => intro b; cases b <;> simp [compareKeys]
  | cons x xs ih =>
    intro b
    cases b with
    | nil => simp [compareKeys]
    | cons y ys =>
      simp only [compareKeys, List.cons.injEq]
      have := ih ys
      split_ifs with h1 h2
      · simp; omega
      · simp; omega
      · rw [this]
        have : x = y := by omega
        simp [this]

theorem compareKeys_trans : ∀ a b c : List Nat,
    compareKeys a b ≤ 0 → compareKeys b c ≤ 0 → compareKeys a c ≤ 0 := by
  intro a
  induction a with
  | nil => intro b c _ _; cases c <;> simp [compareKeys]
  | cons x xs ih =>
    intro b c
    cases b with
    | nil => simp [compareKeys]
    | cons y ys =>
      cases c with
      | nil => simp [compareKeys]
      | cons z zs =>
        simp only [compareKeys]
        have := ih ys zs
        split_ifs <;> omega

theorem byKeys_isTotalPreorder : byKeys.IsTotalPreorder :=
  ⟨fun a b => compareKeys_swap a.sortValue b.sortValue,
   fun a b c => compareKeys_trans a.sortValue b.sortValue c.sortValue⟩

theorem keysThenID_trans (ka kb kc : List Nat) (ia ib ic : Int)
    (h1 : (if compareKeys ka kb = 0 then ia - ib else compareKeys ka kb) ≤ 0)
    (h2 : (if compareKeys kb kc = 0 then ib - ic else compareKeys kb kc) ≤ 0) :
    (if compareKeys ka kc = 0 then ia - ic else compareKeys ka kc) ≤ 0 := by
  have self : ∀ k : List Nat, compareKeys k k = 0 := fun k => (compareKeys_eq_zero k k).2 rfl
  by_cases hab : ka = kb
  · subst hab
    by_cases hbc : ka = kc
    · subst hbc
      simp only [self, if_true] at h1 h2 ⊢
      omega
    · have hne : compareKeys ka kc ≠ 0 := fun h => hbc ((compareKeys_eq_zero _ _).1 h)
      simp only [hne, if_false] at h2 ⊢
      exact h2
  · have hne1 : compareKeys ka kb ≠ 0 := fun h => hab ((compareKeys_eq_zero _ _).1 h)
    simp only [hne1, if_false] at h1
    by_cases hbc : kb = kc
    · subst hbc
      simp only [hne1, if_false]
      exact h1
    · have hne2 : compareKeys kb kc ≠ 0 := fun h => hbc ((compareKeys_eq_zero _ _).1 h)
      simp only [hne2, if_false] at h2
      by_cases hac : ka = kc
      · subst hac
        have := (compareKeys_swap kb ka).1 (by omega)
        omega
      · have hne3 : compareKeys ka kc ≠ 0 := fun h => hac ((compareKeys_eq_zero _ _).1 h)
        simp only [hne3, if_false]
        exact compareKeys_trans ka kb kc h1 h2

theorem byKeysThenID_isTotalPreorder : byKeysThenID.IsTotalPreorder := by
  constructor
  · intro a b
    simp only [byKeysThenID]
    have h1 := compareKeys_swap a.sortValue b.sortValue
    have h2 := compareKeys_eq_zero a.sortValue b.sortValue
    have h3 := compareKeys_eq_zero b.sortValue a.sortValue
    by_cases e : a.sortValue = b.sortValue
    · rw [if_pos (h2.2 e), if_pos (h3.2 e.symm)]
      omega
    · rw [if_neg (fun h => e (h2.1 h)), if_neg (fun h => e (h3.1 h).symm)]
      exact h1
  · intro a b c
    exact keysThenID_trans a.sortValue b.sortValue c.sortValue a.id b.id c.id

/-! ## `MultiSearch` and `Done`: results -/

theorem firstWorkerError_of_failed :
    ∀ readers : List ReaderRun, (∃ r ∈ readers, r.err ≠ none) →
      ∃ e, firstWorkerError readers = some e ∧ ∃ r ∈ readers, r.err = some e := by
  intro readers
  induction readers with
  | nil => rintro ⟨r, hr, _⟩; cases hr
  | cons r rest ih =>
    intro hfail
    simp only [firstWorkerError]
    cases he : r.err with
    | some e => exact ⟨e, rfl, r, by simp, he⟩
    | none =>
      obtain ⟨r1, hr1, hne⟩ := hfail
      rcases List.mem_cons.1 hr1 with rfl | hr1
      · exact absurd he hne
      · obtain ⟨e, h1, r2, hr2, h2⟩ := ih ⟨r1, hr1, hne⟩
        exact ⟨e, h1, r2, by simp [hr2], h2⟩

theorem parseRequests_cases (parse : Nat → Except Err SearchRequest) :
    ∀ (readers : List ReaderRun) (k : Nat) (vars : Option SearchVars),
      (∃ e j, parseRequests parse k readers vars = .error e ∧ k ≤ j ∧
        j < k + readers.length ∧ parse j = .error e) ∨
      (∃ v, parseRequests parse k readers vars = .ok (some v)) ∨
      (parseRequests parse k readers vars = .ok none ∧ readers = [] ∧ vars = none) := by
  intro readers
  induction readers with
  | nil =>
    intro k vars
    cases vars with
    | none => exact Or.inr (Or.inr ⟨rfl, rfl, rfl⟩)
    | some v => exact Or.inr (Or.inl ⟨v, rfl⟩)
  | cons r rest ih =>
    intro k vars
    simp only [parseRequests]
    cases hp : parse k with
    | error e => exact Or.inl ⟨e, k, rfl, le_refl _, by simp, hp⟩
    | ok req =>
      simp only []
      rcases ih (k + 1) (if (match vars with | none => true | some v => v.sort.isNil) = true
          then some ⟨req.sort, req.size, req.skip, req.reversed⟩ else vars) with
        ⟨e, j, h1, h2, h3, h4⟩ | ⟨v, h1⟩ | ⟨_, _, h3⟩
      · exact Or.inl ⟨e, j, h1, by omega, by simp only [List.length_cons]; omega, h4⟩
      · exact Or.inr (Or.inl ⟨v, h1⟩)
      · exfalso
        cases vars with
        | none => simp at h3
        | some v =>
          simp only at h3
          split_ifs at h3

/-- C10: when the search of some reader, or the iteration of its matches, fails,
`MultiSearch` with two or more readers returns an error and no iterator; the error is the
one of a failed reader (or, when a call of the query parser failed, that parser's error):
no partially merged `DocumentList` is returned. -/
theorem MultiSearch_worker_error_aborts (parse : Nat → Except Err SearchRequest)
    (arrival : List (List DocumentMatch) → List DocumentMatch) (readers : List ReaderRun)
    (hlen : 2 ≤ readers.length) (hfail : ∃ r ∈ readers, r.err ≠ none) :
    ∃ e, MultiSearch parse arrival readers = some (.error e) ∧
      ((∃ r ∈ readers, r.err = some e) ∨
       (∃ k, k < readers.length ∧ parse k = .error e)) ∧
      ((∀ k, k < readers.length → ∃ req, parse k = .ok req) →
        ∃ r ∈ readers, r.err = some e) := by
  obtain ⟨e, he, hr⟩ := firstWorkerError_of_failed readers hfail
  match readers, hlen with
  | r0 :: r1 :: rest, _ =>
    simp only [MultiSearch]
    rcases parseRequests_cases parse (r0 :: r1 :: rest) 0 none with
      ⟨e1, j, h1, _, h3, h4⟩ | ⟨v, h1⟩ | ⟨_, h2, _⟩
    · rw [h1]
      refine ⟨e1, rfl, Or.inr ⟨j, by omega, h4⟩, ?_⟩
      intro hall
      obtain ⟨req, hreq⟩ := hall j (by omega)
      rw [hreq] at h4
      cases h4
    · rw [h1]
      simp only [he]
      exact ⟨e, rfl, Or.inl hr, fun _ => hr⟩
    · cases h2

/-- Instance of C10: the second of two readers fails while its matches are iterated. -/
theorem MultiSearch_worker_error_aborts_witness :
    (2 ≤ failingReaders.length ∧ ∃ r ∈ failingReaders, r.err ≠ none) ∧
    ∃ e, MultiSearch sizeTwoRequest inReaderOrder failingReaders = some (.error e) ∧
      ((∃ r ∈ failingReaders, r.err = some e) ∨
       (∃ k, k < failingReaders.length ∧ sizeTwoRequest k = .error e)) ∧
      ((∀ k, k < failingReaders.length → ∃ req, sizeTwoRequest k = .ok req) →
        ∃ r ∈ failingReaders, r.err = some e) :=
  ⟨⟨by decide, by decide⟩,
    MultiSearch_worker_error_aborts sizeTwoRequest inReaderOrder failingReaders
      (by decide) (by decide)⟩

/-- C1 at a failing input: two readers emit one match each and the request asks for two
results (`size = 2`, `skip = 0`).  `Done` keeps both matches in rank order, but
`docList.size` is 1, the largest per-reader count, so iterating with `Next` yields only the
first of the two. -/
theorem MultiSearch_stops_at_largest_reader_count :
    ∃ d, MultiSearch sizeTwoRequest inReaderOrder twoReaders = some (.ok (.merged d)) ∧
      d.docs = [⟨1, [3]⟩, ⟨2, [7]⟩] ∧ d.size = 1 ∧ d.drain 5 = some [⟨1, [3]⟩] :=
  ⟨_, rfl, rfl, rfl, rfl⟩

/-- C2, as stated, fails: under a comparator that looks at the sort keys only, two matches
with identical sort-key values leave `Done` in arrival order, here with the larger document
identifier first, and the other arrival order gives the other output. -/
theorem Done_ties_follow_arrival_order :
    ({ docs := [⟨2, [5]⟩, ⟨1, [5]⟩], bucket := some NewBucket } : DocumentList).Done
        10 0 2 false byKeys =
      some (.ok { docs := [⟨2, [5]⟩, ⟨1, [5]⟩], bucket := some ⟨[], true⟩ }) ∧
    ({ docs := [⟨1, [5]⟩, ⟨2, [5]⟩], bucket := some NewBucket } : DocumentList).Done
        10 0 2 false byKeys =
      some (.ok { docs := [⟨1, [5]⟩, ⟨2, [5]⟩], bucket := some ⟨[], true⟩ }) :=
  ⟨rfl, rfl⟩

/-- C2 (amended): `Done` ranks by the sort comparator alone.  For a comparator that is a
total preorder and reports no two different matches of the input equal (for instance one
that itself breaks ties by ascending document identifier), `Done` returns, the output is in
comparator order when `reversed` is off, and it is the same for every arrival order of the
same matches. -/
theorem Done_order_independent_of_arrival (d : DocumentList) (bucket : Bucket)
    (size skip numSearchers : Nat) (reversed : Bool) (sort : SortOrder)
    (h : sort.IsTotalPreorder) (hb : d.bucket = some bucket)
    (hstrict : ∀ a ∈ d.docs, ∀ b ∈ d.docs, sort.Compare a b = 0 → a = b) :
    (∃ out, d.Done size skip numSearchers reversed sort = some (.ok out) ∧
      (reversed = false → out.docs.Pairwise (fun a b => sort.Compare a b ≤ 0))) ∧
    ∀ arrived : List DocumentMatch, arrived.Perm d.docs →
      ({ d with docs := arrived }).Done size skip numSearchers reversed sort =
        d.Done size skip numSearchers reversed sort := by
  constructor
  · refine ⟨_, Done_eq d bucket size skip numSearchers reversed sort h hb, ?_⟩
    intro hrev
    simp only [hrev, Bool.false_eq_true, if_false]
    exact ((rankAll_pairwise sort h d.docs).sublist (List.take_sublist _ _)).sublist
      (List.drop_sublist _ _)
  · intro arrived hperm
    have hrank : rankAll sort arrived = rankAll sort d.docs := by
      apply List.Perm.eq_of_sorted _ (rankAll_pairwise sort h arrived)
        (rankAll_pairwise sort h d.docs)
        (((rankAll_perm sort arrived).trans hperm).trans (rankAll_perm sort d.docs).symm)
      intro a b ha hb1 hab hba
      have ha1 : a ∈ d.docs := hperm.subset ((rankAll_perm sort arrived).subset ha)
      have hb2 : b ∈ d.docs := (rankAll_perm sort d.docs).subset hb1
      have h0 : sort.Compare a b = 0 := by
        have := h.swap a b
        omega
      exact hstrict a ha1 b hb2 h0
    rw [Done_eq d bucket size skip numSearchers reversed sort h hb,
      Done_eq { d with docs := arrived } bucket size skip numSearchers reversed sort h hb]
    simp only [hrank]

/-- Instance of the amended C2: two matches with equal sort keys under `byKeysThenID`. -/
theorem Done_order_independent_of_arrival_witness :
    (byKeysThenID.IsTotalPreorder ∧
      ∀ a ∈ [(⟨2, [5]⟩ : DocumentMatch), ⟨1, [5]⟩], ∀ b ∈ [(⟨2, [5]⟩ : DocumentMatch), ⟨1, [5]⟩],
        byKeysThenID.Compare a b = 0 → a = b) ∧
    ((∃ out, ({ docs := [⟨2, [5]⟩, ⟨1, [5]⟩], bucket := some NewBucket } : DocumentList).Done
        10 0 2 false byKeysThenID = some (.ok out) ∧
      (false = false → out.docs.Pairwise (fun a b => byKeysThenID.Compare a b ≤ 0))) ∧
    ∀ arrived : List DocumentMatch, arrived.Perm [⟨2, [5]⟩, ⟨1, [5]⟩] →
      ({ docs := arrived, bucket := some NewBucket } : DocumentList).Done
          10 0 2 false byKeysThenID =
        ({ docs := [⟨2, [5]⟩, ⟨1, [5]⟩], bucket := some NewBucket } : DocumentList).Done
          10 0 2 false byKeysThenID) :=
  ⟨⟨byKeysThenID_isTotalPreorder, by decide⟩,
    Done_order_independent_of_arrival
      { docs := [⟨2, [5]⟩, ⟨1, [5]⟩], bucket := some NewBucket } NewBucket 10 0 2 false
      byKeysThenID byKeysThenID_isTotalPreorder rfl (by decide)⟩

/-! ## Concrete instances -/

/-- Instance of C3: `boundedIndex` queried with the window `[25, 50]`. -/
theorem GetReaders_skips_iff_outside_window_witness :
    ∃ r, boundedIndex.GetReaders exampleEnv 25 50 = some r ∧
      ∀ v ∈ r.visited, ∃ s, boundedIndex.shardAt v.shard = some s ∧
        (v.scheduled = false ↔
          (((25 : Int) > 0 ∧ s.DocTimeMax > 0 ∧ s.DocTimeMax < 25) ∨
           ((50 : Int) > 0 ∧ s.DocTimeMin > 0 ∧ s.DocTimeMin > 50))) ∧
        ((v.shard : Int) ∈ r.writerCalls ↔
          ¬ (((25 : Int) > 0 ∧ s.DocTimeMax > 0 ∧ s.DocTimeMax < 25) ∨
             ((50 : Int) > 0 ∧ s.DocTimeMin > 0 ∧ s.DocTimeMin > 50))) :=
  have h := GetReaders_skips_iff_outside_window exampleEnv boundedIndex 25 50
  (h.2 (by decide)).imp (fun r hr => ⟨hr, h.1 r hr⟩)

/-- Instance of C4: `boundedIndex` queried with the window `[21, 29]`. -/
theorem GetReaders_disjoint_opens_none_witness :
    (boundedIndex.ShardNum ≤ boundedIndex.Shards.length ∧
      (∀ s ∈ boundedIndex.Shards, 0 < s.DocTimeMin ∧ s.DocTimeMin ≤ s.DocTimeMax) ∧
      ((0 : Int) < 21 ∧ (21 : Int) ≤ 29) ∧
      (∀ s ∈ boundedIndex.Shards, s.DocTimeMax < 21 ∨ s.DocTimeMin > 29)) ∧
    ∃ r, boundedIndex.GetReaders exampleEnv 21 29 = some r ∧ r.result = .ok [] ∧
      r.writerCalls = [] ∧ r.index = boundedIndex ∧ ∀ v ∈ r.visited, v.scheduled = false :=
  ⟨⟨by decide, by decide, by decide, by decide⟩,
    GetReaders_disjoint_opens_none exampleEnv boundedIndex 21 29 (by decide) (by decide)
      (by decide) (by decide)⟩

/-- C5, as stated, fails: with `timeMin = 5` the newest shard of `unsetIndex` is scheduled
and its `min` (0, unset) is below `timeMin`, yet the loop goes on and `GetWriter` is called
for shard 0 as well. -/
theorem GetReaders_unset_min_does_not_stop :
    ¬ (∀ r, unsetIndex.GetReaders exampleEnv 5 0 = some r →
        ∀ v ∈ r.visited, ∀ s, unsetIndex.shardAt v.shard = some s → v.scheduled = true →
          s.DocTimeMin < 5 → ∀ j ∈ r.writerCalls, (v.shard : Int) ≤ j) := by
  intro h
  have h1 := h _ rfl ⟨1, true⟩ (by decide) { ID := 1 } rfl rfl (by decide) 0 (by decide)
  exact absurd h1 (by decide)

/-- Instance of the amended C5: `boundedIndex` queried with `timeMin = 35`. -/
theorem GetReaders_stops_after_set_min_below_witness :
    ∃ r, boundedIndex.GetReaders exampleEnv 35 0 = some r ∧
      r.visited.map (·.shard) <+: (List.range boundedIndex.ShardNum.toNat).reverse ∧
      ∀ v ∈ r.visited, ∀ s, boundedIndex.shardAt v.shard = some s → v.scheduled = true →
        0 < s.DocTimeMin → s.DocTimeMin < 35 →
        (∀ w ∈ r.visited, v.shard ≤ w.shard) ∧ ∀ j ∈ r.writerCalls, (v.shard : Int) ≤ j :=
  have h := GetReaders_stops_after_set_min_below exampleEnv boundedIndex 35 0
  (h.2 (by decide)).imp (fun r hr => ⟨hr, h.1 r hr⟩)

/-- Instance of C6: `boundedIndex` rolled while the metadata store refuses the write. -/
theorem NewShard_keeps_ids_contiguous_witness :
    ((1 : Int) ≤ boundedIndex.ShardNum ∧
      (boundedIndex.Shards.length : Int) = boundedIndex.ShardNum ∧
      ∀ i (h : i < boundedIndex.Shards.length), (boundedIndex.Shards[i]).ID = (i : Int)) ∧
    ∃ err idx1, boundedIndex.NewShard failingEnv = some (err, idx1) ∧
      idx1.ShardNum = boundedIndex.ShardNum + 1 ∧
      (idx1.Shards.length : Int) = idx1.ShardNum ∧
      (∀ i (h : i < idx1.Shards.length), (idx1.Shards[i]).ID = (i : Int)) ∧
      idx1.GetLatestShardID = idx1.ShardNum - 1 ∧
      (idx1.shardAt idx1.GetLatestShardID).map (·.ID) = some (idx1.ShardNum - 1) ∧
      (∀ e, failingEnv.metadataSet = some e → err = some e) :=
  have hid : ∀ i (h : i < boundedIndex.Shards.length),
      (boundedIndex.Shards[i]).ID = (i : Int) := by
    intro i h
    have h2 : i < 2 := h
    interval_cases i <;> rfl
  ⟨⟨by decide, by decide, hid⟩,
    NewShard_keeps_ids_contiguous failingEnv boundedIndex (by decide) (by decide) hid⟩

/-- Instance of C7: `boundedIndex` rolled. -/
theorem NewShard_freezes_retired_shard_witness :
    ((1 : Int) ≤ boundedIndex.ShardNum ∧
      (boundedIndex.Shards.length : Int) = boundedIndex.ShardNum) ∧
    ∃ err idx1, boundedIndex.NewShard exampleEnv = some (err, idx1) ∧
      (∃ s, idx1.shardAt boundedIndex.GetLatestShardID = some s ∧
        s.DocTimeMin = boundedIndex.DocTimeMin ∧ s.DocTimeMax = boundedIndex.DocTimeMax) ∧
      idx1.DocTimeMin = 0 ∧ idx1.DocTimeMax = 0 ∧
      (∃ s, idx1.shardAt idx1.GetLatestShardID = some s ∧
        s.DocTimeMin = 0 ∧ s.DocTimeMax = 0) ∧
      ∀ i : Int, 0 ≤ i → i < boundedIndex.GetLatestShardID →
        (idx1.shardAt i).map IndexShard.descriptor =
          (boundedIndex.shardAt i).map IndexShard.descriptor :=
  ⟨⟨by decide, by decide⟩,
    NewShard_freezes_retired_shard exampleEnv boundedIndex (by decide) (by decide)⟩

/-- Instance of C8: the latest writer of `boundedIndex` holds 10 bytes; the limit is 5
bytes in `failingEnv` and 100 bytes in `exampleEnv`. -/
theorem CheckShards_rolls_iff_size_exceeds_witness :
    ((1 : Int) ≤ boundedIndex.ShardNum ∧
      (boundedIndex.Shards.length : Int) = boundedIndex.ShardNum) ∧
    (∃ err idx1, boundedIndex.CheckShards failingEnv = some (err, idx1) ∧
      idx1.ShardNum = boundedIndex.ShardNum + 1 ∧
      idx1.Shards.length = boundedIndex.Shards.length + 1 ∧
      idx1.Shards.map (·.ID) = boundedIndex.Shards.map (·.ID) ++ [boundedIndex.ShardNum]) ∧
    ∃ idx1, boundedIndex.CheckShards exampleEnv = some (none, idx1) ∧
      idx1.ShardNum = boundedIndex.ShardNum ∧
      idx1.Shards.map IndexShard.descriptor =
        boundedIndex.Shards.map IndexShard.descriptor :=
  ⟨⟨by decide, by decide⟩,
    (CheckShards_rolls_iff_size_exceeds failingEnv boundedIndex
      ⟨.ok (some ⟨1, 1, 10, none⟩), _, [1]⟩ ⟨1, 1, 10, none⟩
      (by decide) (by decide) rfl rfl).1 (by decide),
    ((CheckShards_rolls_iff_size_exceeds exampleEnv boundedIndex
      ⟨.ok (some ⟨1, 1, 10, none⟩), _, [1]⟩ ⟨1, 1, 10, none⟩
      (by decide) (by decide) rfl rfl).2 (by decide)).imp
      (fun _ h => ⟨h.1, h.2.1, h.2.2.1⟩)⟩

/-! ## `MultiSearch` without readers -/

theorem Next_exhausted (d : DocumentList) (h : d.next ≥ d.size) :
    ∀ n, d.nextTimes n = some (List.replicate n (.ok none), d) := by
  have hNext : d.Next = some (.ok none, d) := by
    simp [DocumentList.Next, h]
  intro n
  induction n with
  | zero => rfl
  | succ n ih => simp [DocumentList.nextTimes, hNext, ih, List.replicate_succ]

/-- C11: `MultiSearch` called with zero readers returns, without error and whatever the
query parser would answer (it is not called), an iterator whose every `Next()` is
`(nil, nil)` and whose `Aggregations()` is a non-nil bucket that has consumed no match. -/
theorem MultiSearch_no_readers (parse : Nat → Except Err SearchRequest)
    (arrival : List (List DocumentMatch) → List DocumentMatch) :
    ∃ d bucket, MultiSearch parse arrival [] = some (.ok (.merged d)) ∧
      (∀ n, d.nextTimes n = some (List.replicate n (.ok none), d)) ∧
      d.Aggregations = some bucket ∧ bucket.consumed = [] ∧ bucket.finished = false :=
  ⟨{ bucket := some NewBucket }, NewBucket, rfl,
    Next_exhausted { bucket := some NewBucket } (le_refl _), rfl, rfl, rfl⟩

/-! ## `Query` -/

theorem querySwitch_supported (sub : SubParsers) (k : String) (v : RawObject)
    (mappings : Option Mappings) (hk : k ∈ supportedKinds) :
    ∃ p, sub.forKind k = some p ∧ querySwitch sub k v mappings = parseField k (p v mappings) := by
  simp only [supportedKinds, List.mem_cons, List.mem_singleton, List.not_mem_nil,
    or_false] at hk
  rcases hk with rfl | rfl | rfl | rfl | rfl | rfl | rfl | rfl | rfl | rfl | rfl | rfl | rfl | rfl | rfl | rfl | rfl | rfl | rfl | rfl | rfl | rfl | rfl | rfl | rfl | rfl <;> exact ⟨_, rfl, rfl⟩

theorem querySwitch_unsupported (sub : SubParsers) (k : String) (v : RawObject)
    (mappings : Option Mappings) (hk : k ∉ supportedKinds) :
    querySwitch sub k v mappings =
      .error ⟨.ParsingException, "[" ++ k ++ "] query doesn't support", none⟩ := by
  simp only [supportedKinds, List.mem_cons, List.mem_singleton, List.not_mem_nil,
    or_false, not_or] at hk
  simp [querySwitch, hk]

theorem supportedKinds_ne_empty (k : String) (hk : k ∈ supportedKinds) : k ≠ "" := by
  intro h
  subst h
  revert hk
  decide

theorem Query_single (ToLower : String → String) (sub : SubParsers) (key : String)
    (v : RawObject) (mappings : Option Mappings) :
    Query ToLower sub [(key, .object v)] mappings =
      match querySwitch sub (ToLower key) v mappings with
      | .error e => .error e
      | .ok q => .ok (some q) := by
  simp only [Query, queryLoop, Option.isSome_none, Bool.false_eq_true, false_and, if_false]

theorem Query_non_object (ToLower : String → String) (sub : SubParsers) (key goType : String)
    (rest : List (String × QueryValue)) (mappings : Option Mappings) :
    Query ToLower sub ((key, .other goType) :: rest) mappings =
      .error ⟨.ParsingException,
        "[" ++ ToLower key ++ "] query doesn't support value type " ++ goType, none⟩ := by
  simp [Query, queryLoop]

/-- C12, as stated, fails: in a two-key object whose key visited first is `match`, with
`MatchQuery` failing, `Query` returns the XContentParseException of that field, not a
ParsingException. -/
theorem Query_two_keys_first_fails :
    Query lowerASCII exampleSubParsers
        [("match", .object ⟨0⟩), ("term", .object ⟨1⟩)] none =
      .error ⟨.XContentParseException, "[match] failed to parse field", some (.other 1)⟩ :=
  rfl

/-- C12 (amended): for every query object with two or more keys `Query` returns an error
and no query.  The error is a ParsingException, unless the key visited first is a supported
kind with an object value whose sub-parser fails: then it is the XContentParseException of
that field. -/
theorem Query_rejects_sibling_keys (ToLower : String → String) (sub : SubParsers)
    (kv1 kv2 : String × QueryValue) (rest : List (String × QueryValue))
    (mappings : Option Mappings) :
    ∃ e, Query ToLower sub (kv1 :: kv2 :: rest) mappings = .error e ∧
      (e.typ = .ParsingException ∨
        ∃ v p err, kv1.2 = .object v ∧ sub.forKind (ToLower kv1.1) = some p ∧
          p v mappings = .error err ∧
          e = ⟨.XContentParseException,
            "[" ++ ToLower kv1.1 ++ "] failed to parse field", some err⟩) := by
  obtain ⟨key, t⟩ := kv1
  obtain ⟨key2, t2⟩ := kv2
  cases t with
  | other goType =>
    exact ⟨_, Query_non_object ToLower sub key goType _ mappings, Or.inl rfl⟩
  | object v =>
    simp only [Query, queryLoop, Option.isSome_none, Bool.false_eq_true, false_and, if_false]
    by_cases hk : ToLower key ∈ supportedKinds
    · obtain ⟨p, hp, hsw⟩ := querySwitch_supported sub (ToLower key) v mappings hk
      rw [hsw]
      cases hr : p v mappings with
      | error err =>
        exact ⟨_, rfl, Or.inr ⟨v, p, err, rfl, hp, hr, rfl⟩⟩
      | ok q =>
        have hne := supportedKinds_ne_empty _ hk
        simp only [parseField, Option.isSome_some, ne_eq, hne, not_false_eq_true, and_self,
          if_true]
        exact ⟨_, rfl, Or.inl rfl⟩
    · rw [querySwitch_unsupported sub (ToLower key) v mappings hk]
      exact ⟨_, rfl, Or.inl rfl⟩

/-- C13: on a single-key object `Query` answers a ParsingException exactly when the key,
lower-cased, is not one of the 26 supported kinds or the value is not a JSON object; a
supported key with an object value is handed to its sub-parser. -/
theorem Query_accepts_iff_supported (ToLower : String → String) (sub : SubParsers)
    (key : String) (t : QueryValue) (mappings : Option Mappings) :
    ((∃ e, Query ToLower sub [(key, t)] mappings = .error e ∧ e.typ = .ParsingException) ↔
      ¬ (ToLower key ∈ supportedKinds ∧ ∃ v, t = .object v)) ∧
    (ToLower key ∈ supportedKinds → ∀ v, t = .object v →
      ∃ p, sub.forKind (ToLower key) = some p ∧
        Query ToLower sub [(key, t)] mappings =
          match parseField (ToLower key) (p v mappings) with
          | .error e => .error e
          | .ok q => .ok (some q)) := by
  constructor
  · cases t with
    | other goType =>
      constructor
      · rintro _ ⟨_, v, hv⟩
        cases hv
      · intro _
        exact ⟨_, Query_non_object ToLower sub key goType [] mappings, rfl⟩
    | object v =>
      rw [Query_single]
      by_cases hk : ToLower key ∈ supportedKinds
      · obtain ⟨p, _, hsw⟩ := querySwitch_supported sub (ToLower key) v mappings hk
        rw [hsw]
        constructor
        · rintro ⟨e, he, htyp⟩
          exfalso
          cases hr : p v mappings with
          | error err =>
            simp only [hr, parseField, Except.error.injEq] at he
            subst he
            cases htyp
          | ok q =>
            simp [hr, parseField] at he
        · intro hnot
          exact absurd ⟨hk, v, rfl⟩ hnot
      · rw [querySwitch_unsupported sub (ToLower key) v mappings hk]
        constructor
        · rintro _ ⟨hk1, _⟩
          exact hk hk1
        · intro _
          exact ⟨_, rfl, rfl⟩
  · intro hk v hv
    subst hv
    obtain ⟨p, hp, hsw⟩ := querySwitch_supported sub (ToLower key) v mappings hk
    exact ⟨p, hp, by rw [Query_single, hsw]⟩

/-- C14: for a supported kind `k` and a single-key object whose key lower-cases to `k` and
whose value is a JSON object: when the sub-parser of `k` fails with `e`, `Query` returns the
XContentParseException "[k] failed to parse field" with cause `e`; when it succeeds, `Query`
returns exactly its query and no error. -/
theorem Query_wraps_kind_outcome (ToLower : String → String) (sub : SubParsers)
    (key k : String) (v : RawObject) (mappings : Option Mappings)
    (hkey : ToLower key = k) (hk : k ∈ supportedKinds) :
    ∃ p, sub.forKind k = some p ∧
      Query ToLower sub [(key, .object v)] mappings =
        match p v mappings with
        | .error e =>
          .error ⟨.XContentParseException, "[" ++ k ++ "] failed to parse field", some e⟩
        | .ok q => .ok (some q) := by
  subst hkey
  obtain ⟨p, hp, hsw⟩ := querySwitch_supported sub (ToLower key) v mappings hk
  refine ⟨p, hp, ?_⟩
  rw [Query_single, hsw]
  cases p v mappings <;> rfl

/-- Instance of C14: the key `Term` with the example sub-parsers. -/
theorem Query_wraps_kind_outcome_witness :
    (lowerASCII "Term" = "term" ∧ "term" ∈ supportedKinds) ∧
    ∃ p, exampleSubParsers.forKind "term" = some p ∧
      Query lowerASCII exampleSubParsers [("Term", .object ⟨4⟩)] none =
        match p ⟨4⟩ none with
        | .error e =>
          .error ⟨.XContentParseException, "[" ++ "term" ++ "] failed to parse field", some e⟩
        | .ok q => .ok (some q) :=
  ⟨⟨by decide, by decide⟩,
    Query_wraps_kind_outcome lowerASCII exampleSubParsers "Term" "term" ⟨4⟩ none
      (by decide) (by decide)⟩

/-! ## The analysis registry: per-field analyzers and the regexp built-ins -/

theorem lookup_some_length_pos {β : Type} (l : List (String × β)) (k : String) (b : β)
    (h : l.lookup k = some b) : l.length > 0 := by
  cases l with
  | nil => simp at h
  | cons x xs => simp

/-- C18: `QueryAnalyzerForField` returns `(nil, nil)` for the empty field name and for every
field whose mapped type is not `text`, whatever analyzers are defined and whatever analyzer
names the property carries. -/
theorem QueryAnalyzerForField_non_text (env : AnalysisEnv)
    (data : Option (List (String × Analyzer))) (mappings : Option Mappings) :
    QueryAnalyzerForField env data mappings "" = (none, none) ∧
    ∀ (m : Mappings) (field : String) (prop : Property), mappings = some m →
      m.Properties.lookup field = some prop → prop.Type_ ≠ "text" →
      QueryAnalyzerForField env data mappings field = (none, none) := by
  refine ⟨by simp [QueryAnalyzerForField], ?_⟩
  intro m field prop hm hlook htype
  subst hm
  have hpos := lookup_some_length_pos _ _ _ hlook
  by_cases hf : field = ""
  · simp [QueryAnalyzerForField, hf]
  · simp [QueryAnalyzerForField, hf, hpos, hlook, htype]

theorem QueryAnalyzer_empty_name (env : AnalysisEnv)
    (data : Option (List (String × Analyzer))) :
    queryAnalyzerOrNil env data "" = data.bind (fun m => m.lookup "default") := by
  simp only [queryAnalyzerOrNil, QueryAnalyzer, if_true]
  cases h : data.bind (fun m => m.lookup "default") with
  | some v => rfl
  | none =>
    simp only []
    rfl

/-- C19, as stated, fails: for the text field `title`, analyzed by `standard` and without a
search analyzer, and with no analyzer registered under `default`, the first component is the
`standard` analyzer and the search analyzer is nil. -/
theorem QueryAnalyzerForField_search_analyzer_nil :
    QueryAnalyzerForField exampleAnalysisEnv none (some exampleMappings) "title" =
      (some { Tokenizer := some (.named "builtin:standard"), TokenFilters := [.lowerCase] },
       none) := by
  decide

/-- C19 (amended): for a text field whose property names an `analyzer` A and no
`search_analyzer`, the first component returned by `QueryAnalyzerForField` is the analyzer
`QueryAnalyzer` finds for A, and the search analyzer is the analyzer registered under the
name `default` (nil when there is none), whatever A is. -/
theorem QueryAnalyzerForField_search_defaults_to_default (env : AnalysisEnv)
    (data : Option (List (String × Analyzer))) (m : Mappings) (field : String)
    (prop : Property) (hfield : field ≠ "") (hlook : m.Properties.lookup field = some prop)
    (htype : prop.Type_ = "text") (hana : prop.Analyzer ≠ "")
    (hsearch : prop.SearchAnalyzer = "") :
    QueryAnalyzerForField env data (some m) field =
      (queryAnalyzerOrNil env data prop.Analyzer,
       data.bind (fun analyzers => analyzers.lookup "default")) := by
  have hpos := lookup_some_length_pos _ _ _ hlook
  rw [← QueryAnalyzer_empty_name env data]
  simp [QueryAnalyzerForField, hfield, hpos, hlook, htype, hana, hsearch]

/-- Instance of the amended C19: the field `title` of `exampleMappings`. -/
theorem QueryAnalyzerForField_search_defaults_to_default_witness :
    ("title" ≠ "" ∧
      exampleMappings.Properties.lookup "title" =
        some { Type_ := "text", Analyzer := "standard" }) ∧
    QueryAnalyzerForField exampleAnalysisEnv none (some exampleMappings) "title" =
      (queryAnalyzerOrNil exampleAnalysisEnv none "standard",
       (none : Option (List (String × Analyzer))).bind
         (fun analyzers => analyzers.lookup "default")) :=
  ⟨⟨by decide, by decide⟩,
    QueryAnalyzerForField_search_defaults_to_default exampleAnalysisEnv none exampleMappings
      "title" { Type_ := "text", Analyzer := "standard" } (by decide) (by decide) rfl
      (by decide) rfl⟩

theorem string_length_eq_zero (s : String) : s.length = 0 ↔ s = "" := by
  constructor
  · intro h
    apply String.ext
    exact List.length_eq_zero.1 h
  · rintro rfl
    rfl

theorem NewRegexpAnalyzer_ok (comp : String → Option String) (options : Option AnalyzerOptions)
    (a : Analyzer) (h : NewRegexpAnalyzer comp options = .ok a) :
    a.Tokenizer =
        some (.regexp (if (GetStringFromMap options).1 = "" then "\\w+"
          else (GetStringFromMap options).1)) ∧
      a.CharFilters = [] ∧
      (TokenFilter.lowerCase ∈ a.TokenFilters ↔ options.bind (·.lowercase) ≠ some false) := by
  simp only [NewRegexpAnalyzer] at h
  split at h
  · cases h
  · have hlow : (if (GetBoolFromMap options).2 = true then true else (GetBoolFromMap options).1)
        = true ↔ options.bind (·.lowercase) ≠ some false := by
      simp only [GetBoolFromMap]
      cases options.bind (·.lowercase) with
      | none => simp
      | some b => cases b <;> simp
    generalize (if (GetBoolFromMap options).2 = true then true
      else (GetBoolFromMap options).1) = lc at h hlow
    simp only [Except.ok.injEq] at h
    subst h
    refine ⟨?_, ?_, ?_⟩
    · split_ifs <;> rfl
    · split_ifs <;> rfl
    · rw [← hlow]
      cases lc <;> by_cases hsw : (GetStringSliceFromMap options).1.length > 0 <;> simp [hsw]

/-- C20: the regexp analyzer and the regexp tokenizer use the pattern `\w+` when the
`pattern` option is absent or empty; `NewRegexpAnalyzer` carries the lower-case token filter
exactly when the `lowercase` option is not supplied as `false`; a pattern that does not
compile yields a ParsingException and no analyzer (no tokenizer). -/
theorem NewRegexp_defaults (comp : String → Option String)
    (options : Option AnalyzerOptions) :
    ((options.bind (·.pattern) = none ∨ options.bind (·.pattern) = some "") →
      comp "\\w+" = none →
      NewRegexpTokenizer comp options = .ok (.regexp "\\w+") ∧
      ∃ a, NewRegexpAnalyzer comp options = .ok a ∧ a.Tokenizer = some (.regexp "\\w+")) ∧
    (∀ a, NewRegexpAnalyzer comp options = .ok a →
      (TokenFilter.lowerCase ∈ a.TokenFilters ↔ options.bind (·.lowercase) ≠ some false)) ∧
    (options.bind (·.lowercase) = none →
      ∀ a, NewRegexpAnalyzer comp options = .ok a → TokenFilter.lowerCase ∈ a.TokenFilters) ∧
    (∀ msg, comp (if (GetStringFromMap options).1 = "" then "\\w+"
        else (GetStringFromMap options).1) = some msg →
      (∃ e, NewRegexpAnalyzer comp options = .error e ∧ e.typ = .ParsingException) ∧
      (∃ e, NewRegexpTokenizer comp options = .error e ∧ e.typ = .ParsingException)) := by
  refine ⟨?_, ?_, ?_, ?_⟩
  · intro hpat hcomp
    have hget : (GetStringFromMap options).1 = "" := by
      rcases hpat with h | h <;> simp [GetStringFromMap, h]
    constructor
    · simp [NewRegexpTokenizer, hget, hcomp]
    · cases hr : NewRegexpAnalyzer comp options with
      | error e =>
        simp [NewRegexpAnalyzer, hget, hcomp] at hr
      | ok a =>
        refine ⟨a, rfl, ?_⟩
        rw [(NewRegexpAnalyzer_ok comp options a hr).1, hget]
        rfl
  · intro a ha
    exact (NewRegexpAnalyzer_ok comp options a ha).2.2
  · intro hnone a ha
    rw [(NewRegexpAnalyzer_ok comp options a ha).2.2, hnone]
    simp
  · intro msg hmsg
    constructor
    · refine ⟨⟨.ParsingException,
        "[analyzer] regexp option [pattern] compile error: " ++ msg, none⟩, ?_, rfl⟩
      simp only [NewRegexpAnalyzer, hmsg]
    · refine ⟨⟨.ParsingException,
        "[tokenizer] regexp option [pattern] compile error: " ++ msg, none⟩, ?_, rfl⟩
      have hlen := string_length_eq_zero (GetStringFromMap options).1
      simp only [NewRegexpTokenizer, hlen, hmsg]

/-! ## `RequestAnalyzer` -/

theorem requestCharFilters_ok (env : AnalysisEnv) (charFilters : List (String × CharFilter))
    (name : String) :
    ∀ (names : List String) (chars : List CharFilter),
      requestCharFilters env charFilters name names = .ok chars →
      List.Forall₂ (fun n c =>
        env.RequestCharFilterSingle n = some c ∨
          (env.RequestCharFilterSingle n = none ∧ charFilters.lookup n = some c)) names chars := by
  intro names
  induction names with
  | nil =>
    intro chars h
    simp only [requestCharFilters, Except.ok.injEq] at h
    subst h
    exact List.Forall₂.nil
  | cons n rest ih =>
    intro chars h
    simp only [requestCharFilters] at h
    cases hb : env.RequestCharFilterSingle n with
    | some f =>
      simp only [hb] at h
      cases hr : requestCharFilters env charFilters name rest with
      | error e => simp [hr] at h
      | ok cs =>
        simp only [hr, Except.ok.injEq] at h
        subst h
        exact List.Forall₂.cons (Or.inl hb) (ih cs hr)
    | none =>
      simp only [hb] at h
      cases hu : charFilters.lookup n with
      | none => simp [hu] at h
      | some f =>
        simp only [hu] at h
        cases hr : requestCharFilters env charFilters name rest with
        | error e => simp [hr] at h
        | ok cs =>
          simp only [hr, Except.ok.injEq] at h
          subst h
          exact List.Forall₂.cons (Or.inr ⟨hb, hu⟩) (ih cs hr)

theorem requestTokenFilters_ok (env : AnalysisEnv)
    (tokenFilters : List (String × TokenFilter)) (name : String) :
    ∀ (names : List String) (tokens : List TokenFilter),
      requestTokenFilters env tokenFilters name names = .ok tokens →
      List.Forall₂ (fun n c =>
        env.RequestTokenFilterSingle n = some c ∨
          (env.RequestTokenFilterSingle n = none ∧ tokenFilters.lookup n = some c))
        names tokens := by
  intro names
  induction names with
  | nil =>
    intro tokens h
    simp only [requestTokenFilters, Except.ok.injEq] at h
    subst h
    exact List.Forall₂.nil
  | cons n rest ih =>
    intro tokens h
    simp only [requestTokenFilters] at h
    cases hb : env.RequestTokenFilterSingle n with
    | some f =>
      simp only [hb] at h
      cases hr : requestTokenFilters env tokenFilters name rest with
      | error e => simp [hr] at h
      | ok cs =>
        simp only [hr, Except.ok.injEq] at h
        subst h
        exact List.Forall₂.cons (Or.inl hb) (ih cs hr)
    | none =>
      simp only [hb] at h
      cases hu : tokenFilters.lookup n with
      | none => simp [hu] at h
      | some f =>
        simp only [hu] at h
        cases hr : requestTokenFilters env tokenFilters name rest with
        | error e => simp [hr] at h
        | ok cs =>
          simp only [hr, Except.ok.injEq] at h
          subst h
          exact List.Forall₂.cons (Or.inr ⟨hb, hu⟩) (ih cs hr)

theorem forall₂_mem_left {α β : Type} {R : α → β → Prop} {l1 : List α} {l2 : List β}
    (h : List.Forall₂ R l1 l2) {a : α} (ha : a ∈ l1) : ∃ b ∈ l2, R a b := by
  induction h with
  | nil => cases ha
  | cons hr _ ih =>
    rcases List.mem_cons.1 ha with rfl | ha
    · exact ⟨_, by simp, hr⟩
    · obtain ⟨b, hb, hab⟩ := ih ha
      exact ⟨b, by simp [hb], hab⟩

theorem requestCharFilters_error_typ (env : AnalysisEnv)
    (charFilters : List (String × CharFilter)) (name : String) :
    ∀ (names : List String) (e : Error),
      requestCharFilters env charFilters name names = .error e →
      e.typ = .ParsingException := by
  intro names
  induction names with
  | nil =>
    intro e h
    simp [requestCharFilters] at h
  | cons n rest ih =>
    intro e h
    simp only [requestCharFilters] at h
    cases hb : env.RequestCharFilterSingle n with
    | some f =>
      simp only [hb] at h
      cases hr : requestCharFilters env charFilters name rest with
      | error e1 =>
        simp only [hr, Except.error.injEq] at h
        subst h
        exact ih e1 hr
      | ok cs => simp [hr] at h
    | none =>
      simp only [hb] at h
      cases hu : charFilters.lookup n with
      | none =>
        simp only [hu, Except.error.injEq] at h
        subst h
        rfl
      | some f =>
        simp only [hu] at h
        cases hr : requestCharFilters env charFilters name rest with
        | error e1 =>
          simp only [hr, Except.error.injEq] at h
          subst h
          exact ih e1 hr
        | ok cs => simp [hr] at h

theorem requestCharFilters_undefined (env : AnalysisEnv)
    (charFilters : List (String × CharFilter)) (name : String) (names : List String)
    (h : ∃ n ∈ names, env.RequestCharFilterSingle n = none ∧ charFilters.lookup n = none) :
    ∃ e, requestCharFilters env charFilters name names = .error e := by
  cases hres : requestCharFilters env charFilters name names with
  | error e => exact ⟨e, rfl⟩
  | ok cs =>
    exfalso
    obtain ⟨n, hn, h1, h2⟩ := h
    obtain ⟨c, _, hc⟩ := forall₂_mem_left (requestCharFilters_ok env charFilters name names cs hres) hn
    rcases hc with hc | ⟨_, hc⟩
    · rw [h1] at hc
      cases hc
    · rw [h2] at hc
      cases hc

theorem requestTokenFilters_error_typ (env : AnalysisEnv)
    (tokenFilters : List (String × TokenFilter)) (name : String) :
    ∀ (names : List String) (e : Error),
      requestTokenFilters env tokenFilters name names = .error e →
      e.typ = .ParsingException := by
  intro names
  induction names with
  | nil =>
    intro e h
    simp [requestTokenFilters] at h
  | cons n rest ih =>
    intro e h
    simp only [requestTokenFilters] at h
    cases hb : env.RequestTokenFilterSingle n with
    | some f =>
      simp only [hb] at h
      cases hr : requestTokenFilters env tokenFilters name rest with
      | error e1 =>
        simp only [hr, Except.error.injEq] at h
        subst h
        exact ih e1 hr
      | ok cs => simp [hr] at h
    | none =>
      simp only [hb] at h
      cases hu : tokenFilters.lookup n with
      | none =>
        simp only [hu, Except.error.injEq] at h
        subst h
        rfl
      | some f =>
        simp only [hu] at h
        cases hr : requestTokenFilters env tokenFilters name rest with
        | error e1 =>
          simp only [hr, Except.error.injEq] at h
          subst h
          exact ih e1 hr
        | ok cs => simp [hr] at h

theorem requestTokenFilters_undefined (env : AnalysisEnv)
    (tokenFilters : List (String × TokenFilter)) (name : String) (names : List String)
    (h : ∃ n ∈ names, env.RequestTokenFilterSingle n = none ∧ tokenFilters.lookup n = none) :
    ∃ e, requestTokenFilters env tokenFilters name names = .error e := by
  cases hres : requestTokenFilters env tokenFilters name names with
  | error e => exact ⟨e, rfl⟩
  | ok cs =>
    exfalso
    obtain ⟨n, hn, h1, h2⟩ := h
    obtain ⟨c, _, hc⟩ := forall₂_mem_left (requestTokenFilters_ok env tokenFilters name names cs hres) hn
    rcases hc with hc | ⟨_, hc⟩
    · rw [h1] at hc
      cases hc
    · rw [h2] at hc
      cases hc

theorem builtinAnalyzer_error_typ (env : AnalysisEnv) (henv : env.RaisesParsingExceptions)
    (v : AnalyzerDecl) (e : Error) (h : builtinAnalyzer env v = .error e) :
    e.typ = .ParsingException := by
  simp only [builtinAnalyzer] at h
  split_ifs at h
  · split at h
    · rename_i e1 hr
      simp only [Except.error.injEq] at h
      subst h
      simp only [NewRegexpAnalyzer] at hr
      split at hr
      · simp only [Except.error.injEq] at hr
        subst hr
        rfl
      · cases hr
    · cases h
  · split at h
    · rename_i e1 hr
      simp only [Except.error.injEq] at h
      subst h
      exact henv.standard _ _ hr
    · cases h
  · split at h
    · rename_i e1 hr
      simp only [Except.error.injEq] at h
      subst h
      exact henv.stop _ _ hr
    · cases h
  · split at h <;> cases h
  · simp only [Except.error.injEq] at h
    subst h
    rfl

theorem builtinAnalyzer_unknown (env : AnalysisEnv) (v : AnalyzerDecl)
    (h : env.ToLower v.Type_ ∉ analyzerTypes) :
    ∃ e, builtinAnalyzer env v = .error e := by
  simp only [analyzerTypes, List.mem_cons, List.mem_singleton, List.not_mem_nil, or_false,
    not_or] at h
  exact ⟨⟨.ParsingException,
    "[analyzer] build-in [" ++ env.ToLower v.Type_ ++ "] doesn't support custom", none⟩,
    by simp [builtinAnalyzer, h]⟩

theorem builtinAnalyzer_tokenizer (env : AnalysisEnv) (henv : env.BuiltinsHaveTokenizer)
    (v : AnalyzerDecl) (a : Analyzer) (h : builtinAnalyzer env v = .ok (some a)) :
    a.Tokenizer ≠ none := by
  simp only [builtinAnalyzer] at h
  split_ifs at h
  · cases h
  · split at h
    · cases h
    · rename_i a1 hr
      simp only [Except.ok.injEq, Option.some.injEq] at h
      subst h
      rw [(NewRegexpAnalyzer_ok _ _ _ hr).1]
      simp
  · split at h
    · cases h
    · rename_i a1 hr
      simp only [Except.ok.injEq, Option.some.injEq] at h
      subst h
      exact henv.standard _ _ hr
  · split at h
    · cases h
    · rename_i a1 hr
      simp only [Except.ok.injEq, Option.some.injEq] at h
      subst h
      exact henv.stop _ _ hr
  · split at h
    · cases h
    · rename_i a1 hr
      simp only [Except.ok.injEq, Option.some.injEq] at h
      subst h
      exact henv.whitespace _ hr
  · simp only [Except.ok.injEq, Option.some.injEq] at h
    subst h
    exact henv.keyword
  · simp only [Except.ok.injEq, Option.some.injEq] at h
    subst h
    exact henv.simple
  · simp only [Except.ok.injEq, Option.some.injEq] at h
    subst h
    exact henv.web

/-- The shape of every analyzer the loop body stores: a base analyzer (the built-in of the
declared type, or a fresh one around the looked-up tokenizer) extended by the resolved char
filters and token filters. -/
theorem buildAnalyzer_ok (env : AnalysisEnv) (charFilters : List (String × CharFilter))
    (tokenFilters : List (String × TokenFilter)) (tokenizers : List (String × Tokenizer))
    (name : String) (v : AnalyzerDecl) (ana : Analyzer)
    (h : buildAnalyzer env charFilters tokenFilters tokenizers name v = .ok ana) :
    ∃ built chars tokens,
      declaredBuiltin env v = .ok built ∧
      ¬ ((lookupTokenizer env tokenizers v.Tokenizer).isNone ∧ built.isNone) ∧
      requestCharFilters env charFilters name v.CharFilter = .ok chars ∧
      requestTokenFilters env tokenFilters name v.tokenFilterNames = .ok tokens ∧
      ana =
        { CharFilters :=
            (built.getD { Tokenizer := lookupTokenizer env tokenizers v.Tokenizer }).CharFilters
              ++ chars,
          Tokenizer :=
            (built.getD { Tokenizer := lookupTokenizer env tokenizers v.Tokenizer }).Tokenizer,
          TokenFilters :=
            (built.getD { Tokenizer := lookupTokenizer env tokenizers v.Tokenizer }).TokenFilters
              ++ tokens } := by
  unfold buildAnalyzer at h
  by_cases h0 : v.Tokenizer = "" ∧ v.Type_ = ""
  · rw [if_pos h0] at h
    cases h
  rw [if_neg h0] at h
  cases hb : declaredBuiltin env v with
  | error e => simp [hb] at h
  | ok built =>
    simp only [hb] at h
    by_cases h1 : (lookupTokenizer env tokenizers v.Tokenizer).isNone ∧ built.isNone
    · rw [if_pos h1] at h
      cases h
    rw [if_neg h1] at h
    cases hc : requestCharFilters env charFilters name v.CharFilter with
    | error e => simp [hc] at h
    | ok chars =>
      simp only [hc] at h
      cases ht : requestTokenFilters env tokenFilters name v.tokenFilterNames with
      | error e => simp [ht] at h
      | ok tokens =>
        simp only [ht, Except.ok.injEq] at h
        refine ⟨built, chars, tokens, rfl, h1, rfl, rfl, ?_⟩
        subst h
        have hcs : chars = [] ∨ chars.length > 0 := by cases chars <;> simp
        have hts : tokens = [] ∨ tokens.length > 0 := by cases tokens <;> simp
        rcases hcs with rfl | hcl <;> rcases hts with rfl | htl <;> cases built <;> simp [*]

theorem declaredBuiltin_error_typ (env : AnalysisEnv) (henv : env.RaisesParsingExceptions)
    (v : AnalyzerDecl) (e : Error) (h : declaredBuiltin env v = .error e) :
    e.typ = .ParsingException := by
  unfold declaredBuiltin at h
  by_cases ht : v.Type_ ≠ ""
  · rw [if_pos ht] at h
    exact builtinAnalyzer_error_typ env henv v e h
  · rw [if_neg ht] at h
    cases h

theorem buildAnalyzer_error_typ (env : AnalysisEnv) (henv : env.RaisesParsingExceptions)
    (charFilters : List (String × CharFilter)) (tokenFilters : List (String × TokenFilter))
    (tokenizers : List (String × Tokenizer)) (name : String) (v : AnalyzerDecl) (e : Error)
    (h : buildAnalyzer env charFilters tokenFilters tokenizers name v = .error e) :
    e.typ = .ParsingException := by
  unfold buildAnalyzer at h
  by_cases h0 : v.Tokenizer = "" ∧ v.Type_ = ""
  · rw [if_pos h0] at h
    simp only [Except.error.injEq] at h
    subst h
    rfl
  rw [if_neg h0] at h
  cases hb : declaredBuiltin env v with
  | error e1 =>
    simp only [hb, Except.error.injEq] at h
    subst h
    exact declaredBuiltin_error_typ env henv v e1 hb
  | ok built =>
    simp only [hb] at h
    by_cases h1 : (lookupTokenizer env tokenizers v.Tokenizer).isNone ∧ built.isNone
    · rw [if_pos h1] at h
      simp only [Except.error.injEq] at h
      subst h
      rfl
    rw [if_neg h1] at h
    cases hc : requestCharFilters env charFilters name v.CharFilter with
    | error e1 =>
      simp only [hc, Except.error.injEq] at h
      subst h
      exact requestCharFilters_error_typ env charFilters name _ e1 hc
    | ok chars =>
      simp only [hc] at h
      cases ht : requestTokenFilters env tokenFilters name v.tokenFilterNames with
      | error e1 =>
        simp only [ht, Except.error.injEq] at h
        subst h
        exact requestTokenFilters_error_typ env tokenFilters name _ e1 ht
      | ok tokens => simp [ht] at h

/-- The defects of a declared analyzer that make the loop body fail, given the user-defined
components. -/
theorem buildAnalyzer_defective (env : AnalysisEnv) (charFilters : List (String × CharFilter))
    (tokenFilters : List (String × TokenFilter)) (tokenizers : List (String × Tokenizer))
    (name : String) (v : AnalyzerDecl)
    (hdef : (v.Type_ = "" ∧ v.Tokenizer = "") ∨
      (v.Type_ = "" ∧ env.RequestTokenizerSingle v.Tokenizer = none ∧
        tokenizers.lookup v.Tokenizer = none) ∨
      (v.Type_ ≠ "" ∧ env.ToLower v.Type_ ∉ analyzerTypes) ∨
      (∃ n ∈ v.CharFilter, env.RequestCharFilterSingle n = none ∧
        charFilters.lookup n = none) ∨
      (∃ l n, v.TokenFilter = some l ∧ n ∈ l ∧ env.RequestTokenFilterSingle n = none ∧
        tokenFilters.lookup n = none)) :
    ∃ e, buildAnalyzer env charFilters tokenFilters tokenizers name v = .error e := by
  cases hres : buildAnalyzer env charFilters tokenFilters tokenizers name v with
  | error e => exact ⟨e, rfl⟩
  | ok ana =>
    exfalso
    have hnot : ¬ (v.Tokenizer = "" ∧ v.Type_ = "") := by
      intro h0
      simp [buildAnalyzer, h0] at hres
    obtain ⟨built, chars, tokens, hb, hz, hc, ht, _⟩ :=
      buildAnalyzer_ok env charFilters tokenFilters tokenizers name v ana hres
    rcases hdef with ⟨h1, h2⟩ | ⟨h1, h2, h3⟩ | ⟨h1, h2⟩ | hcf | ⟨l, n, hl, hn, h1, h2⟩
    · exact hnot ⟨h2, h1⟩
    · simp only [declaredBuiltin, h1, ne_eq, not_true_eq_false, if_false, Except.ok.injEq] at hb
      subst hb
      apply hz
      simp [lookupTokenizer, h2, h3]
    · obtain ⟨e, he⟩ := builtinAnalyzer_unknown env v h2
      rw [declaredBuiltin, if_pos h1, he] at hb
      cases hb
    · obtain ⟨e, he⟩ := requestCharFilters_undefined env charFilters name v.CharFilter hcf
      rw [hc] at he
      cases he
    · have hnames : v.tokenFilterNames = l := by
        simp [AnalyzerDecl.tokenFilterNames, hl]
      obtain ⟨e, he⟩ := requestTokenFilters_undefined env tokenFilters name v.tokenFilterNames
        ⟨n, by rw [hnames]; exact hn, h1, h2⟩
      rw [ht] at he
      cases he

theorem buildAnalyzers_spec (env : AnalysisEnv) (charFilters : List (String × CharFilter))
    (tokenFilters : List (String × TokenFilter)) (tokenizers : List (String × Tokenizer)) :
    ∀ (declared : List (String × AnalyzerDecl)) (acc : List (String × Analyzer)),
      (∀ m, buildAnalyzers env charFilters tokenFilters tokenizers declared acc = .ok m →
        ∃ built, m = acc ++ built ∧
          List.Forall₂ (fun d b => d.1 = b.1 ∧
            buildAnalyzer env charFilters tokenFilters tokenizers d.1 d.2 = .ok b.2)
            declared built) ∧
      (∀ e, buildAnalyzers env charFilters tokenFilters tokenizers declared acc = .error e →
        ∃ d ∈ declared,
          buildAnalyzer env charFilters tokenFilters tokenizers d.1 d.2 = .error e) := by
  intro declared
  induction declared with
  | nil =>
    intro acc
    refine ⟨fun m h => ?_, fun e h => ?_⟩
    · simp only [buildAnalyzers, Except.ok.injEq] at h
      subst h
      exact ⟨[], by simp, List.Forall₂.nil⟩
    · simp [buildAnalyzers] at h
  | cons d rest ih =>
    intro acc
    obtain ⟨name, v⟩ := d
    simp only [buildAnalyzers]
    cases hb : buildAnalyzer env charFilters tokenFilters tokenizers name v with
    | error e1 =>
      refine ⟨fun m h => (nomatch h), fun e h => ?_⟩
      simp only [Except.error.injEq] at h
      subst h
      exact ⟨(name, v), by simp, hb⟩
    | ok ana =>
      simp only []
      refine ⟨fun m h => ?_, fun e h => ?_⟩
      · obtain ⟨built, hm, hall⟩ := (ih (acc ++ [(name, ana)])).1 m h
        refine ⟨(name, ana) :: built, by simp [hm], List.Forall₂.cons ⟨rfl, hb⟩ hall⟩
      · obtain ⟨d, hd, he⟩ := (ih (acc ++ [(name, ana)])).2 e h
        exact ⟨d, by simp [hd], he⟩

/-- What a successful `RequestAnalyzer` has gone through: the helpers have answered the
user-defined components, and every entry of the returned map is the analyzer the loop body
built for a declared analyzer of the same name. -/
theorem RequestAnalyzer_ok (env : AnalysisEnv) (data : IndexAnalysis)
    (m : List (String × Analyzer)) (h : RequestAnalyzer env (some data) = .ok (some m)) :
    ∃ declared charFilters tokenFilters tokenizers,
      data.Analyzer = some declared ∧
      env.RequestCharFilter data.CharFilter = .ok charFilters ∧
      env.RequestTokenFilter data.tokenFilterSource = .ok tokenFilters ∧
      env.RequestTokenizer data.Tokenizer = .ok tokenizers ∧
      ∀ name ana, (name, ana) ∈ m → ∃ v, (name, v) ∈ declared ∧
        buildAnalyzer env charFilters tokenFilters tokenizers name v = .ok ana := by
  simp only [RequestAnalyzer] at h
  cases hd : data.Analyzer with
  | none => simp [hd] at h
  | some declared =>
    simp only [hd] at h
    cases hc : env.RequestCharFilter data.CharFilter with
    | error e => simp [hc] at h
    | ok charFilters =>
      simp only [hc] at h
      cases ht : env.RequestTokenFilter data.tokenFilterSource with
      | error e => simp [ht] at h
      | ok tokenFilters =>
        simp only [ht] at h
        cases hz : env.RequestTokenizer data.Tokenizer with
        | error e => simp [hz] at h
        | ok tokenizers =>
          simp only [hz] at h
          cases hb : buildAnalyzers env charFilters tokenFilters tokenizers declared [] with
          | error e => simp [hb] at h
          | ok analyzers =>
            simp only [hb, Except.ok.injEq, Option.some.injEq] at h
            subst h
            refine ⟨declared, charFilters, tokenFilters, tokenizers, rfl, rfl, rfl, rfl, ?_⟩
            obtain ⟨built, hm, hall⟩ := (buildAnalyzers_spec env charFilters tokenFilters
              tokenizers declared []).1 analyzers hb
            simp only [List.nil_append] at hm
            subst hm
            intro name ana hmem
            obtain ⟨d, hdmem, hname, hbuild⟩ := forall₂_mem_left hall.flip hmem
            refine ⟨d.2, ?_, ?_⟩
            · have : d = (name, d.2) := by
                cases d
                simp only at hname
                simp [hname]
              rw [← this]
              exact hdmem
            · simpa [hname] using hbuild

/-- C15, as stated, fails: the names `standard`, `html` and `lowercase` are each both
user-defined and built-in, and the composed analyzer gets the built-in components. -/
theorem RequestAnalyzer_builtin_shadows_user_defined :
    (exampleAnalysisEnv.RequestTokenizer composedAnalysis.Tokenizer =
        .ok [("standard", .named "user:standard"), ("mine", .named "user:mine")] ∧
      exampleAnalysisEnv.RequestCharFilter composedAnalysis.CharFilter =
        .ok [("html", ⟨"user:html"⟩)] ∧
      exampleAnalysisEnv.RequestTokenFilter composedAnalysis.tokenFilterSource =
        .ok [("lowercase", .named "user:lowercase")]) ∧
    RequestAnalyzer exampleAnalysisEnv (some composedAnalysis) =
      .ok (some [("mine",
        { CharFilters := [⟨"builtin:html"⟩],
          Tokenizer := some (.named "builtin:standard"),
          TokenFilters := [.lowerCase] })]) :=
  ⟨⟨rfl, rfl, rfl⟩, rfl⟩

/-- C15 (amended): when `RequestAnalyzer` composes an analyzer from names (no built-in
analyzer is taken from a declared type), each named tokenizer, char filter and token filter
resolves to the built-in of that name whenever `Request...Single(name, nil)` answers one,
also when a user-defined entry of that name exists; the user-defined entry is used only
when there is no such built-in. -/
theorem RequestAnalyzer_prefers_builtin (env : AnalysisEnv) (data : IndexAnalysis)
    (m : List (String × Analyzer)) (name : String) (ana : Analyzer)
    (h : RequestAnalyzer env (some data) = .ok (some m)) (hmem : (name, ana) ∈ m) :
    ∃ declared charFilters tokenFilters tokenizers v,
      data.Analyzer = some declared ∧ (name, v) ∈ declared ∧
      env.RequestCharFilter data.CharFilter = .ok charFilters ∧
      env.RequestTokenFilter data.tokenFilterSource = .ok tokenFilters ∧
      env.RequestTokenizer data.Tokenizer = .ok tokenizers ∧
      (declaredBuiltin env v = .ok none →
        (∀ zer, env.RequestTokenizerSingle v.Tokenizer = some zer →
          ana.Tokenizer = some zer) ∧
        (env.RequestTokenizerSingle v.Tokenizer = none →
          ana.Tokenizer = tokenizers.lookup v.Tokenizer) ∧
        List.Forall₂ (fun n c =>
          env.RequestCharFilterSingle n = some c ∨
            (env.RequestCharFilterSingle n = none ∧ charFilters.lookup n = some c))
          v.CharFilter ana.CharFilters ∧
        List.Forall₂ (fun n c =>
          env.RequestTokenFilterSingle n = some c ∨
            (env.RequestTokenFilterSingle n = none ∧ tokenFilters.lookup n = some c))
          v.tokenFilterNames ana.TokenFilters) := by
  obtain ⟨declared, charFilters, tokenFilters, tokenizers, hd, hc, ht, hz, hall⟩ :=
    RequestAnalyzer_ok env data m h
  obtain ⟨v, hv, hbuild⟩ := hall name ana hmem
  refine ⟨declared, charFilters, tokenFilters, tokenizers, v, hd, hv, hc, ht, hz, ?_⟩
  intro hcomposed
  obtain ⟨built, chars, tokens, hb, _, hcs, hts, hana⟩ :=
    buildAnalyzer_ok env charFilters tokenFilters tokenizers name v ana hbuild
  rw [hcomposed] at hb
  simp only [Except.ok.injEq] at hb
  subst hb
  subst hana
  simp only [Option.getD_none, List.nil_append]
  refine ⟨?_, ?_, requestCharFilters_ok env charFilters name _ _ hcs,
    requestTokenFilters_ok env tokenFilters name _ _ hts⟩
  · intro zer hzer
    simp [lookupTokenizer, hzer]
  · intro hnone
    simp [lookupTokenizer, hnone]

/-- Instance of the amended C15: the analyzer `mine` of `composedAnalysis`. -/
theorem RequestAnalyzer_prefers_builtin_witness :
    ∃ declared charFilters tokenFilters tokenizers v,
      composedAnalysis.Analyzer = some declared ∧ ("mine", v) ∈ declared ∧
      exampleAnalysisEnv.RequestCharFilter composedAnalysis.CharFilter = .ok charFilters ∧
      exampleAnalysisEnv.RequestTokenFilter composedAnalysis.tokenFilterSource =
        .ok tokenFilters ∧
      exampleAnalysisEnv.RequestTokenizer composedAnalysis.Tokenizer = .ok tokenizers ∧
      (declaredBuiltin exampleAnalysisEnv v = .ok none →
        (∀ zer, exampleAnalysisEnv.RequestTokenizerSingle v.Tokenizer = some zer →
          some (Tokenizer.named "builtin:standard") = some zer) ∧
        (exampleAnalysisEnv.RequestTokenizerSingle v.Tokenizer = none →
          some (Tokenizer.named "builtin:standard") = tokenizers.lookup v.Tokenizer) ∧
        List.Forall₂ (fun n c =>
          exampleAnalysisEnv.RequestCharFilterSingle n = some c ∨
            (exampleAnalysisEnv.RequestCharFilterSingle n = none ∧
              charFilters.lookup n = some c))
          v.CharFilter [⟨"builtin:html"⟩] ∧
        List.Forall₂ (fun n c =>
          exampleAnalysisEnv.RequestTokenFilterSingle n = some c ∨
            (exampleAnalysisEnv.RequestTokenFilterSingle n = none ∧
              tokenFilters.lookup n = some c))
          v.tokenFilterNames [TokenFilter.lowerCase]) :=
  RequestAnalyzer_prefers_builtin exampleAnalysisEnv composedAnalysis _ "mine"
    { CharFilters := [⟨"builtin:html"⟩], Tokenizer := some (.named "builtin:standard"),
      TokenFilters := [.lowerCase] } rfl (by decide)

/-- C16: whenever some declared analyzer (a) has neither `type` nor `tokenizer`, or
declares no `type` and names a tokenizer that is neither built-in nor user-defined, (b)
declares a `type` that, lower-cased, is not one of custom, regexp, pattern, standard, stop,
whitespace, keyword, simple, web, or (c) lists a char_filter or token_filter name that is
neither built-in nor user-defined, `RequestAnalyzer` returns an error and no analyzer map;
the error is a ParsingException, the helpers of the registry raising nothing else. -/
theorem RequestAnalyzer_rejects_defective (env : AnalysisEnv) (data : IndexAnalysis)
    (declared : List (String × AnalyzerDecl)) (name : String) (v : AnalyzerDecl)
    (hdecl : data.Analyzer = some declared) (hmem : (name, v) ∈ declared)
    (hdef : (v.Type_ = "" ∧ v.Tokenizer = "") ∨
      (v.Type_ = "" ∧ env.RequestTokenizerSingle v.Tokenizer = none ∧
        ∀ tokenizers, env.RequestTokenizer data.Tokenizer = .ok tokenizers →
          tokenizers.lookup v.Tokenizer = none) ∨
      (v.Type_ ≠ "" ∧ env.ToLower v.Type_ ∉ analyzerTypes) ∨
      (∃ n ∈ v.CharFilter, env.RequestCharFilterSingle n = none ∧
        ∀ charFilters, env.RequestCharFilter data.CharFilter = .ok charFilters →
          charFilters.lookup n = none) ∨
      (∃ l n, v.TokenFilter = some l ∧ n ∈ l ∧ env.RequestTokenFilterSingle n = none ∧
        ∀ tokenFilters, env.RequestTokenFilter data.tokenFilterSource = .ok tokenFilters →
          tokenFilters.lookup n = none)) :
    ∃ e, RequestAnalyzer env (some data) = .error e ∧
      (env.RaisesParsingExceptions → e.typ = .ParsingException) := by
  simp only [RequestAnalyzer, hdecl]
  cases hc : env.RequestCharFilter data.CharFilter with
  | error e => exact ⟨e, rfl, fun henv => henv.charFilter _ _ hc⟩
  | ok charFilters =>
    simp only []
    cases ht : env.RequestTokenFilter data.tokenFilterSource with
    | error e => exact ⟨e, rfl, fun henv => henv.tokenFilter _ _ ht⟩
    | ok tokenFilters =>
      simp only []
      cases hz : env.RequestTokenizer data.Tokenizer with
      | error e => exact ⟨e, rfl, fun henv => henv.tokenizer _ _ hz⟩
      | ok tokenizers =>
        simp only []
        cases hb : buildAnalyzers env charFilters tokenFilters tokenizers declared [] with
        | error e =>
          refine ⟨e, rfl, fun henv => ?_⟩
          obtain ⟨d, _, hd⟩ := (buildAnalyzers_spec env charFilters tokenFilters tokenizers
            declared []).2 e hb
          exact buildAnalyzer_error_typ env henv charFilters tokenFilters tokenizers _ _ e hd
        | ok analyzers =>
          exfalso
          obtain ⟨built, _, hall⟩ := (buildAnalyzers_spec env charFilters tokenFilters
            tokenizers declared []).1 analyzers hb
          obtain ⟨b, _, _, hbuild⟩ := forall₂_mem_left hall hmem
          obtain ⟨e, he⟩ := buildAnalyzer_defective env charFilters tokenFilters tokenizers
            name v (by
              rcases hdef with h1 | ⟨h1, h2, h3⟩ | h1 | ⟨n, hn, h1, h2⟩ | ⟨l, n, hl, hn, h1, h2⟩
              · exact Or.inl h1
              · exact Or.inr (Or.inl ⟨h1, h2, h3 _ hz⟩)
              · exact Or.inr (Or.inr (Or.inl h1))
              · exact Or.inr (Or.inr (Or.inr (Or.inl ⟨n, hn, h1, h2 _ hc⟩)))
              · exact Or.inr (Or.inr (Or.inr (Or.inr ⟨l, n, hl, hn, h1, h2 _ ht⟩))))
          simp only at hbuild
          rw [hbuild] at he
          cases he

theorem exampleAnalysisEnv_raises_parsing : exampleAnalysisEnv.RaisesParsingExceptions :=
  ⟨fun _ _ h => (nomatch h), fun _ _ h => (nomatch h), fun _ _ h => (nomatch h),
    fun _ _ h => (nomatch h), fun _ _ h => (nomatch h)⟩

/-- Instance of C16: the analyzer `broken` of `defectiveAnalysis`. -/
theorem RequestAnalyzer_rejects_defective_witness :
    (defectiveAnalysis.Analyzer = some [("fine", { Type_ := "keyword" }), ("broken", { })] ∧
      ("broken", ({ } : AnalyzerDecl)) ∈
        [("fine", ({ Type_ := "keyword" } : AnalyzerDecl)), ("broken", { })]) ∧
    ∃ e, RequestAnalyzer exampleAnalysisEnv (some defectiveAnalysis) = .error e ∧
      (exampleAnalysisEnv.RaisesParsingExceptions → e.typ = .ParsingException) :=
  ⟨⟨rfl, by decide⟩,
    RequestAnalyzer_rejects_defective exampleAnalysisEnv defectiveAnalysis _ "broken" { }
      rfl (by decide) (Or.inl ⟨rfl, rfl⟩)⟩

theorem declaredBuiltin_tokenizer (env : AnalysisEnv) (henv : env.BuiltinsHaveTokenizer)
    (v : AnalyzerDecl) (a : Analyzer) (h : declaredBuiltin env v = .ok (some a)) :
    a.Tokenizer ≠ none := by
  unfold declaredBuiltin at h
  by_cases ht : v.Type_ ≠ ""
  · rw [if_pos ht] at h
    exact builtinAnalyzer_tokenizer env henv v a h
  · rw [if_neg ht] at h
    cases h

/-- C17: every analyzer in the map returned by a successful `RequestAnalyzer` has a (single)
non-nil tokenizer, provided each built-in analyzer constructor returns an analyzer with a
tokenizer; its char filters and token filters are those of its base (the built-in analyzer
of the declared type, or none for a composed analyzer) followed by the filters named in the
declaration, resolved one by one in their declared order. -/
theorem RequestAnalyzer_analyzers_have_tokenizer (env : AnalysisEnv)
    (henv : env.BuiltinsHaveTokenizer) (data : IndexAnalysis)
    (m : List (String × Analyzer)) (name : String) (ana : Analyzer)
    (h : RequestAnalyzer env (some data) = .ok (some m)) (hmem : (name, ana) ∈ m) :
    (∃ zer, ana.Tokenizer = some zer) ∧
    ∃ declared charFilters tokenFilters tokenizers v base chars tokens,
      data.Analyzer = some declared ∧ (name, v) ∈ declared ∧
      env.RequestCharFilter data.CharFilter = .ok charFilters ∧
      env.RequestTokenFilter data.tokenFilterSource = .ok tokenFilters ∧
      env.RequestTokenizer data.Tokenizer = .ok tokenizers ∧
      (declaredBuiltin env v = .ok (some base) ∨
        (declaredBuiltin env v = .ok none ∧
          base = { Tokenizer := lookupTokenizer env tokenizers v.Tokenizer })) ∧
      ana.Tokenizer = base.Tokenizer ∧
      ana.CharFilters = base.CharFilters ++ chars ∧
      ana.TokenFilters = base.TokenFilters ++ tokens ∧
      List.Forall₂ (fun n c =>
        env.RequestCharFilterSingle n = some c ∨
          (env.RequestCharFilterSingle n = none ∧ charFilters.lookup n = some c))
        v.CharFilter chars ∧
      List.Forall₂ (fun n c =>
        env.RequestTokenFilterSingle n = some c ∨
          (env.RequestTokenFilterSingle n = none ∧ tokenFilters.lookup n = some c))
        v.tokenFilterNames tokens := by
  obtain ⟨declared, charFilters, tokenFilters, tokenizers, hd, hc, ht, hz, hall⟩ :=
    RequestAnalyzer_ok env data m h
  obtain ⟨v, hv, hbuild⟩ := hall name ana hmem
  obtain ⟨built, chars, tokens, hb, hzer, hcs, hts, hana⟩ :=
    buildAnalyzer_ok env charFilters tokenFilters tokenizers name v ana hbuild
  have hshape : ∃ base,
      (declaredBuiltin env v = .ok (some base) ∨
        (declaredBuiltin env v = .ok none ∧
          base = { Tokenizer := lookupTokenizer env tokenizers v.Tokenizer })) ∧
      built.getD { Tokenizer := lookupTokenizer env tokenizers v.Tokenizer } = base ∧
      base.Tokenizer ≠ none := by
    cases built with
    | none =>
      refine ⟨_, Or.inr ⟨hb, rfl⟩, rfl, ?_⟩
      intro hnone
      apply hzer
      simp only [Option.isNone_none, and_true]
      simpa using hnone
    | some a =>
      exact ⟨a, Or.inl hb, rfl, declaredBuiltin_tokenizer env henv v a hb⟩
  obtain ⟨base, hbase, hget, htok⟩ := hshape
  rw [hget] at hana
  subst hana
  refine ⟨Option.ne_none_iff_exists'.1 htok, declared, charFilters, tokenFilters, tokenizers,
    v, base, chars, tokens, hd, hv, hc, ht, hz, hbase, rfl, rfl, rfl,
    requestCharFilters_ok env charFilters name _ _ hcs,
    requestTokenFilters_ok env tokenFilters name _ _ hts⟩

theorem exampleAnalysisEnv_builtins : exampleAnalysisEnv.BuiltinsHaveTokenizer := by
  refine ⟨?_, ?_, ?_, by decide, by decide, by decide⟩
  · intro o a h
    simp only [exampleAnalysisEnv, Except.ok.injEq] at h
    subst h
    simp
  · intro o a h
    simp only [exampleAnalysisEnv, Except.ok.injEq] at h
    subst h
    simp
  · intro a h
    simp only [exampleAnalysisEnv, Except.ok.injEq] at h
    subst h
    simp

/-- Instance of C17: the analyzer `mine` of `composedAnalysis`. -/
theorem RequestAnalyzer_analyzers_have_tokenizer_witness :
    (exampleAnalysisEnv.BuiltinsHaveTokenizer ∧
      RequestAnalyzer exampleAnalysisEnv (some composedAnalysis) =
        .ok (some [("mine",
          { CharFilters := [⟨"builtin:html"⟩],
            Tokenizer := some (.named "builtin:standard"),
            TokenFilters := [.lowerCase] })])) ∧
    ∃ zer, (some (Tokenizer.named "builtin:standard")) = some zer :=
  ⟨⟨exampleAnalysisEnv_builtins, rfl⟩,
    (RequestAnalyzer_analyzers_have_tokenizer exampleAnalysisEnv exampleAnalysisEnv_builtins
      composedAnalysis _ "mine"
      { CharFilters := [⟨"builtin:html"⟩], Tokenizer := some (.named "builtin:standard"),
        TokenFilters := [.lowerCase] } rfl (by decide)).1⟩

/-! ## `Done`: the shortcut against offering every match -/

theorem offerEvery_append (sort : SortOrder) (B : Nat) (docs : List DocumentMatch)
    (d : DocumentMatch) :
    DocumentList.offerEvery sort B (docs ++ [d]) =
      (CollectorStore.AddNotExceedingSize sort (DocumentList.offerEvery sort B docs) d B).1 := by
  simp [DocumentList.offerEvery, List.foldl_append]

theorem offerEvery_eq (sort : SortOrder) (B : Nat) (docs : List DocumentMatch) :
    DocumentList.offerEvery sort B docs = (rankAll sort docs).take B := by
  induction docs using List.reverseRecOn with
  | nil => simp [DocumentList.offerEvery, rankAll]
  | append_singleton init d ih =>
    rw [offerEvery_append, rankAll_append, ih,
      AddNotExceedingSize_fst sort _ d B (by rw [List.length_take]; omega),
      ← take_add sort d (rankAll sort init) B]

/-- C28: the shortcut of `Done` is an optimisation only.  For every comparator that is a
total preorder, every backing size and every list of matches, the loop that skips each
match comparing `>=` the lowest match ejected so far leaves the same store as the loop that
offers every match to the bounded store, and `Done` returns the same list (the same
matches in the same order, equal-ranking ones included) as `Done` without the shortcut. -/
theorem Done_shortcut_is_pure_optimisation (sort : SortOrder) (h : sort.IsTotalPreorder)
    (backingSize : Nat) (d : DocumentList) :
    (d.docs.foldl (DocumentList.doneStep sort backingSize) ⟨[], none⟩).store =
      DocumentList.offerEvery sort backingSize d.docs ∧
    ∀ (size skip numSearchers : Nat) (reversed : Bool),
      d.Done size skip numSearchers reversed sort =
        d.DoneOfferingEvery size skip numSearchers reversed sort := by
  refine ⟨?_, ?_⟩
  · rw [(doneLoop_invariant sort h backingSize d.docs).1, offerEvery_eq]
  · intro size skip numSearchers reversed
    simp only [DocumentList.Done, DocumentList.DoneOfferingEvery,
      (doneLoop_invariant sort h ((size + skip + 1) * numSearchers) d.docs).1, offerEvery_eq]

/-- Instance of C28: four matches, two of them ranking equal, offered to a store of backing
size 2 under the comparator `byKeys`. -/
theorem Done_shortcut_is_pure_optimisation_witness :
    byKeys.IsTotalPreorder ∧
    (([⟨1, [5]⟩, ⟨2, [3]⟩, ⟨3, [5]⟩, ⟨4, [1]⟩] : List DocumentMatch).foldl
        (DocumentList.doneStep byKeys 2) ⟨[], none⟩).store =
      DocumentList.offerEvery byKeys 2 [⟨1, [5]⟩, ⟨2, [3]⟩, ⟨3, [5]⟩, ⟨4, [1]⟩] ∧
    ∀ (size skip numSearchers : Nat) (reversed : Bool),
      ({ docs := [⟨1, [5]⟩, ⟨2, [3]⟩, ⟨3, [5]⟩, ⟨4, [1]⟩], bucket := some NewBucket } :
          DocumentList).Done
          size skip numSearchers reversed byKeys =
        ({ docs := [⟨1, [5]⟩, ⟨2, [3]⟩, ⟨3, [5]⟩, ⟨4, [1]⟩], bucket := some NewBucket } :
          DocumentList).DoneOfferingEvery
          size skip numSearchers reversed byKeys :=
  ⟨byKeys_isTotalPreorder,
    Done_shortcut_is_pure_optimisation byKeys byKeys_isTotalPreorder 2
      { docs := [⟨1, [5]⟩, ⟨2, [3]⟩, ⟨3, [5]⟩, ⟨4, [1]⟩], bucket := some NewBucket }⟩

/-! ## Reader selection on a time-ordered index -/

theorem visitShards_unvisited (index : Index) (timeMin timeMax : Int) :
    ∀ n vs, index.visitShards timeMin timeMax n = some vs →
      ∀ i, i < n → i ∈ vs.map (·.shard) ∨
        ∃ v ∈ vs, v.scheduled = true ∧ i < v.shard ∧
          ∃ s, index.Shards[v.shard]? = some s ∧ 0 < s.DocTimeMin ∧ s.DocTimeMin < timeMin := by
  intro n
  induction n with
  | zero => intro vs _ i hi; omega
  | succ m ih =>
    intro vs h i hi
    simp only [Index.visitShards, shardAt_natCast] at h
    cases hs : index.Shards[m]? with
    | none => simp [hs] at h
    | some s =>
      simp only [hs] at h
      have step : ∀ (b : Bool) vs1, index.visitShards timeMin timeMax m = some vs1 →
          vs = ⟨m, b⟩ :: vs1 →
          i ∈ vs.map (·.shard) ∨
            ∃ v ∈ vs, v.scheduled = true ∧ i < v.shard ∧
              ∃ s, index.Shards[v.shard]? = some s ∧ 0 < s.DocTimeMin ∧
                s.DocTimeMin < timeMin := by
        intro b vs1 h1 hvs
        subst hvs
        rcases Nat.lt_succ_iff_lt_or_eq.1 hi with hlt | heq
        · rcases ih vs1 h1 i hlt with hv | ⟨v, hv, hrest⟩
          · exact Or.inl (by simp [hv])
          · exact Or.inr ⟨v, List.mem_cons_of_mem _ hv, hrest⟩
        · exact Or.inl (by simp [heq])
      split_ifs at h with hskip hstop
      · cases h1 : index.visitShards timeMin timeMax m with
        | none => simp [h1] at h
        | some vs1 =>
          simp only [h1, Option.map_some', Option.some.injEq] at h
          exact step false vs1 h1 h.symm
      · simp only [Option.some.injEq] at h
        subst h
        rcases Nat.lt_succ_iff_lt_or_eq.1 hi with hlt | heq
        · exact Or.inr ⟨⟨m, true⟩, by simp, rfl, hlt, s, hs, hstop.1, hstop.2⟩
        · exact Or.inl (by simp [heq])
      · cases h1 : index.visitShards timeMin timeMax m with
        | none => simp [h1] at h
        | some vs1 =>
          simp only [h1, Option.map_some', Option.some.injEq] at h
          exact step true vs1 h1 h.symm

/-- C29, as stated, fails in its last part: the only shard of `halfBoundedIndex` has an
unset `max`, and `GetReaders(1, 5)` visits it and skips it, because its `min` (10) is set
and above `timeMax`. -/
theorem GetReaders_skips_half_bounded_shard :
    ¬ (∀ r, halfBoundedIndex.GetReaders exampleEnv 1 5 = some r →
        ∀ v ∈ r.visited, ∀ s, halfBoundedIndex.shardAt v.shard = some s →
          (s.DocTimeMin = 0 ∨ s.DocTimeMax = 0) → v.scheduled = true) := by
  intro h
  have h1 := h _ rfl ⟨0, false⟩ (by decide) { ID := 0, DocTimeMin := 10, DocTimeMax := 0 } rfl
    (Or.inr rfl)
  exact absurd h1 (by decide)

/-- C29 (amended): on every index, a visited shard is never skipped on account of an unset
bound: one whose bounds are both unset is not skipped, one whose `max` is unset is skipped
only when its `min` is above `timeMax`, and one whose `min` is unset only when its `max` is
below `timeMin`.  On a time-ordered index (every shard has `0 < min <= max`, and
`shards[i].max <= shards[j].min` for `i < j`) and for a window `0 < timeMin <= timeMax`,
`GetReaders` returns and every shard for which it does not call `GetWriter` is disjoint from
the window (`max < timeMin` or `min > timeMax`). -/
theorem GetReaders_loses_no_data (env : Env) (index : Index) (timeMin timeMax : Int) :
    (∀ r, index.GetReaders env timeMin timeMax = some r →
      ∀ v ∈ r.visited, ∀ s, index.shardAt v.shard = some s → v.scheduled = false →
        (s.DocTimeMin ≠ 0 ∨ s.DocTimeMax ≠ 0) ∧
        (s.DocTimeMax = 0 → 0 < timeMax ∧ timeMax < s.DocTimeMin) ∧
        (s.DocTimeMin = 0 → 0 < s.DocTimeMax ∧ s.DocTimeMax < timeMin)) ∧
    (index.ShardNum = index.Shards.length →
      (∀ s ∈ index.Shards, 0 < s.DocTimeMin ∧ s.DocTimeMin ≤ s.DocTimeMax) →
      (∀ (i j : Nat) (si sj : IndexShard), i < j → index.Shards[i]? = some si →
        index.Shards[j]? = some sj → si.DocTimeMax ≤ sj.DocTimeMin) →
      0 < timeMin ∧ timeMin ≤ timeMax →
      ∃ r, index.GetReaders env timeMin timeMax = some r ∧
        ∀ (i : Nat) (s : IndexShard), index.Shards[i]? = some s → (i : Int) ∉ r.writerCalls →
          s.DocTimeMax < timeMin ∨ s.DocTimeMin > timeMax) := by
  refine ⟨?_, ?_⟩
  · intro r hr v hv s hs hskip
    obtain ⟨hvs, _⟩ := GetReaders_trace env index timeMin timeMax r hr
    obtain ⟨_, hall⟩ := visitShards_spec index timeMin timeMax _ r.visited hvs
    obtain ⟨s1, hs1, hiff, _⟩ := hall v hv
    rw [shardAt_natCast, hs1] at hs
    cases hs
    have hc := hiff.1 hskip
    refine ⟨?_, ?_, ?_⟩ <;> omega
  · intro hwf hb hord ht
    obtain ⟨r, hr, hvs, hcalls, _⟩ := GetReaders_eq env index timeMin timeMax (le_of_eq hwf)
    refine ⟨r, hr, ?_⟩
    intro i s hs hnot
    obtain ⟨_, hall⟩ := visitShards_spec index timeMin timeMax _ r.visited hvs
    have hi : i < index.ShardNum.toNat := by
      have := (List.getElem?_eq_some_iff.1 hs).1
      omega
    rcases visitShards_unvisited index timeMin timeMax _ r.visited hvs i hi with
      hvis | ⟨v, hv, hsched, hlt, sv, hsv, _, hbelow⟩
    · obtain ⟨v, hv, hvi⟩ := List.mem_map.1 hvis
      obtain ⟨s1, hs1, hiff, _⟩ := hall v hv
      rw [hvi, hs] at hs1
      cases hs1
      have hskip : v.scheduled = false := by
        cases hsc : v.scheduled with
        | false => rfl
        | true =>
          exfalso
          apply hnot
          rw [hcalls]
          exact List.mem_map.2 ⟨v, List.mem_filter.2 ⟨hv, by simpa using hsc⟩, by simp [hvi]⟩
      have hc := hiff.1 hskip
      omega
    · have := hord i v.shard s sv hlt hs hsv
      left
      omega

theorem boundedIndex_time_ordered :
    ∀ (i j : Nat) (si sj : IndexShard), i < j → boundedIndex.Shards[i]? = some si →
      boundedIndex.Shards[j]? = some sj → si.DocTimeMax ≤ sj.DocTimeMin := by
  intro i j si sj hij hi hj
  have hj2 : j < 2 := (List.getElem?_eq_some_iff.1 hj).1
  have hi0 : i = 0 := by omega
  have hj1 : j = 1 := by omega
  subst hi0 hj1
  simp only [boundedIndex, List.getElem?_cons_zero, List.getElem?_cons_succ,
    Option.some.injEq] at hi hj
  subst hi hj
  decide

/-- Instance of the amended C29: `boundedIndex` queried with the window `[35, 50]`; the
newest shard is opened, the loop stops there, and the shard left out ends at 20. -/
theorem GetReaders_loses_no_data_witness :
    (boundedIndex.ShardNum = boundedIndex.Shards.length ∧
      (∀ s ∈ boundedIndex.Shards, 0 < s.DocTimeMin ∧ s.DocTimeMin ≤ s.DocTimeMax) ∧
      ((0 : Int) < 35 ∧ (35 : Int) ≤ 50)) ∧
    ∃ r, boundedIndex.GetReaders exampleEnv 35 50 = some r ∧
      ∀ (i : Nat) (s : IndexShard), boundedIndex.Shards[i]? = some s →
        (i : Int) ∉ r.writerCalls → s.DocTimeMax < 35 ∨ s.DocTimeMin > 50 :=
  ⟨⟨by decide, by decide, by decide⟩,
    (GetReaders_loses_no_data exampleEnv boundedIndex 35 50).2 (by decide) (by decide)
      boundedIndex_time_ordered (by decide)⟩

/-! ## `Next`: enumeration of the result list -/

theorem nextTimes_from (d : DocumentList) (j : Nat) (hj : d.next = (j : Int)) :
    ∀ n, ∃ d1, d.nextTimes n = some
        ((List.range n).map (fun k =>
          if ((j + k : Nat) : Int) < d.size ∧ j + k < d.docs.length
          then .ok d.docs[j + k]? else .ok none), d1) ∧
      d1.docs = d.docs ∧ d1.size = d.size := by
  intro n
  induction n generalizing d j with
  | zero => exact ⟨d, rfl, rfl, rfl⟩
  | succ n ih =>
    rw [List.range_succ_eq_map]
    by_cases hstop : d.next ≥ d.size ∨ d.next ≥ (d.docs.length : Int)
    · have hNext : d.Next = some (.ok none, d) := by simp [DocumentList.Next, hstop]
      obtain ⟨d1, h1, h2, h3⟩ := ih d j hj
      refine ⟨d1, ?_, h2, h3⟩
      have hall : ∀ k, ¬ (((j + k : Nat) : Int) < d.size ∧ j + k < d.docs.length) := by
        intro k
        rw [hj] at hstop
        omega
      simp only [DocumentList.nextTimes, hNext, h1, hall, if_false, List.map_cons,
        List.map_map, Function.comp_def]
    · have hlt : j < d.docs.length := by rw [hj] at hstop; omega
      have hsz : (j : Int) < d.size := by rw [hj] at hstop; omega
      have hNext : d.Next = some (.ok (some d.docs[j]), { d with next := d.next + 1 }) := by
        have hneg : ¬ d.next < 0 := by omega
        have htn : d.next.toNat = j := by omega
        simp only [DocumentList.Next, hstop, if_false, hneg, htn,
          List.getElem?_eq_getElem hlt]
      obtain ⟨d1, h1, h2, h3⟩ := ih { d with next := d.next + 1 } (j + 1) (by simp [hj])
      refine ⟨d1, ?_, h2, h3⟩
      simp only [DocumentList.nextTimes, hNext, h1, List.map_cons, List.map_map,
        Function.comp_def, Nat.add_zero, hsz, hlt, and_self, if_true,
        List.getElem?_eq_getElem hlt]
      have hk : ∀ k : Nat, j + 1 + k = j + k.succ := fun k => by omega
      simp only [hk]

theorem consume_fold_fields (received : List DocumentMatch) (d : DocumentList) :
    (received.foldl (fun d doc => { d.addDocument doc with
        bucket := d.bucket.map (fun b => b.Consume doc) }) d).size = d.size ∧
    (received.foldl (fun d doc => { d.addDocument doc with
        bucket := d.bucket.map (fun b => b.Consume doc) }) d).next = d.next := by
  induction received generalizing d with
  | nil => exact ⟨rfl, rfl⟩
  | cons doc rest ih =>
    simp only [List.foldl_cons]
    exact ⟨(ih _).1, (ih _).2⟩

theorem Done_fields (d d1 : DocumentList) (size skip numSearchers : Nat) (reversed : Bool)
    (sort : SortOrder) (h : d.Done size skip numSearchers reversed sort = some (.ok d1)) :
    d1.size = d.size ∧ d1.next = d.next := by
  simp only [DocumentList.Done] at h
  cases hb : d.bucket with
  | none => simp [hb] at h
  | some bucket =>
    simp only [hb, Option.some.injEq, Except.ok.injEq] at h
    subst h
    exact ⟨rfl, rfl⟩

theorem MultiSearch_merged_fields (parse : Nat → Except Err SearchRequest)
    (arrival : List (List DocumentMatch) → List DocumentMatch) (readers : List ReaderRun)
    (d : DocumentList) (h : MultiSearch parse arrival readers = some (.ok (.merged d))) :
    d.size = maxEmitted readers ∧ d.next = 0 := by
  match readers, h with
  | [], h =>
    simp only [MultiSearch, Option.some.injEq, Except.ok.injEq, MatchIterator.merged.injEq] at h
    subst h
    exact ⟨rfl, rfl⟩
  | [r], h =>
    simp only [MultiSearch] at h
    split at h
    · simp at h
    · split at h <;> simp at h
  | r1 :: r2 :: rest, h =>
    simp only [MultiSearch] at h
    split at h
    · simp at h
    · simp at h
    · split at h
      · simp at h
      · split at h
        · simp at h
        · simp at h
        · rename_i d0 hd
          simp only [Option.some.injEq, Except.ok.injEq, MatchIterator.merged.injEq] at h
          subst h
          obtain ⟨h1, h2⟩ := Done_fields _ _ _ _ _ _ _ hd
          rw [h1, h2, (consume_fold_fields _ _).1, (consume_fold_fields _ _).2]
          exact ⟨rfl, rfl⟩

/-- C30: on the list `MultiSearch` returns, `size` is the largest number of matches a single
reader emitted, and `n` successive calls of `Next` never index `docs` out of range (each
call returns): call `k + 1` returns `docs[k]` without error while
`k < min(size, len(docs))`, and `(nil, nil)` from then on. -/
theorem Next_enumerates_result_list (parse : Nat → Except Err SearchRequest)
    (arrival : List (List DocumentMatch) → List DocumentMatch) (readers : List ReaderRun)
    (d : DocumentList) (h : MultiSearch parse arrival readers = some (.ok (.merged d))) :
    d.size = maxEmitted readers ∧
    ∀ n, ∃ d1, d.nextTimes n = some
        ((List.range n).map (fun (k : Nat) =>
          if (k : Int) < d.size ∧ k < d.docs.length then .ok d.docs[k]? else .ok none), d1) ∧
      d1.docs = d.docs ∧ d1.size = d.size := by
  obtain ⟨hsize, hnext⟩ := MultiSearch_merged_fields parse arrival readers d h
  refine ⟨hsize, fun n => ?_⟩
  obtain ⟨d1, h1, h2, h3⟩ := nextTimes_from d 0 (by simp [hnext]) n
  exact ⟨d1, by simpa using h1, h2, h3⟩

/-- Instance of C30: the two readers of `twoReaders` emit one match each, so `size` is 1;
of the two matches `Done` keeps, three calls of `Next` return the first and then
`(nil, nil)` twice. -/
theorem Next_enumerates_result_list_witness :
    ∃ d, MultiSearch sizeTwoRequest inReaderOrder twoReaders = some (.ok (.merged d)) ∧
      d.docs = [⟨1, [3]⟩, ⟨2, [7]⟩] ∧ d.size = 1 ∧
      ∃ d1, d.nextTimes 3 = some ([.ok (some ⟨1, [3]⟩), .ok none, .ok none], d1) :=
  ⟨_, rfl, rfl, rfl,
    (((Next_enumerates_result_list sizeTwoRequest inReaderOrder twoReaders _ rfl).2 3).imp
      (fun _ h1 => h1.1))⟩

/-! ## The handlers `SearchIndex` and `UpdateDocument` -/

/-- C26, as stated, fails on the message: a search on the unregistered target `games` is
answered with status 400 and runs no search, but the error reads
`index games does not exists`, not `index games does not exist`. -/
theorem SearchIndex_message_reads_exists :
    SearchIndex exampleSearchEnv "games" (.ok ()) =
      ⟨400, .error "index games does not exists", none⟩ ∧
    (SearchIndex exampleSearchEnv "games" (.ok ())).body ≠
      .error "index games does not exist" := by
  decide

/-- C26 (amended): a request whose body does not bind is answered with status 400 and the
binding error before the target is looked at.  When the body binds, a target that is
non-empty, does not end in `*` and names no registered index is answered with status 400
and the error `index <name> does not exists`, and no search is run; an empty target or one
ending in `*` is handed to the multi-index search whether or not an index is registered
under it, and the answer is that of the multi-index search (200 with its response, 400 with
its error). -/
theorem SearchIndex_rejects_unregistered_target {κ ρ : Type} (senv : SearchEnv κ ρ)
    (indexName : String) (bind : Except String κ) :
    (∀ err, bind = .error err → SearchIndex senv indexName bind = ⟨400, .error err, none⟩) ∧
    (∀ query, bind = .ok query → indexName ≠ "" → hasStarSuffix indexName = false →
      senv.GetIndex indexName = false →
      SearchIndex senv indexName bind =
        ⟨400, .error ("index " ++ indexName ++ " does not exists"), none⟩) ∧
    (∀ query, bind = .ok query → (indexName = "" ∨ hasStarSuffix indexName = true) →
      (SearchIndex senv indexName bind).searched = some (.multi indexName) ∧
      (∀ resp, senv.MultiSearchV2 indexName query = .ok resp →
        SearchIndex senv indexName bind = ⟨200, .response resp, some (.multi indexName)⟩) ∧
      (∀ e, senv.MultiSearchV2 indexName query = .error e →
        (SearchIndex senv indexName bind).status = 400 ∧
        (SearchIndex senv indexName bind).body =
          (match e with
           | .typed v => .typed v
           | .other message => .error message))) := by
  refine ⟨?_, ?_, ?_⟩
  · intro err hb
    subst hb
    rfl
  · intro query hb hne hstar hreg
    subst hb
    simp [SearchIndex, hne, hstar, hreg]
  · intro query hb hmulti
    subst hb
    have hc : indexName = "" ∨ hasStarSuffix indexName = true := hmulti
    refine ⟨?_, ?_, ?_⟩
    · simp only [SearchIndex, hc, if_true]
      cases senv.MultiSearchV2 indexName query with
      | error e => cases e <;> rfl
      | ok resp => rfl
    · intro resp hresp
      simp only [SearchIndex, hc, if_true, hresp]
    · intro e he
      simp only [SearchIndex, hc, if_true, he]
      cases e <;> exact ⟨rfl, rfl⟩

/-- Instance of the amended C26: the target `games` on a registry that holds only
`olympics`, and the target `game*`. -/
theorem SearchIndex_rejects_unregistered_target_witness :
    SearchIndex exampleSearchEnv "games" (.ok ()) =
      ⟨400, .error ("index " ++ "games" ++ " does not exists"), none⟩ ∧
    (SearchIndex exampleSearchEnv "game*" (.ok ())).searched = some (.multi "game*") :=
  ⟨(SearchIndex_rejects_unregistered_target exampleSearchEnv "games" (.ok ())).2.1 ()
      rfl (by decide) (by decide) (by decide),
    ((SearchIndex_rejects_unregistered_target exampleSearchEnv "game*" (.ok ())).2.2 ()
      rfl (Or.inr (by decide))).1⟩

/-- C27, as stated, fails: with an empty `_id` in the body and the id `abc` in the URL path
the path does supply a non-empty id, yet the handler generates a fresh one (`mintedID` is
true) and indexes under it. -/
theorem UpdateDocument_empty_body_id_mints :
    UpdateDocument exampleUpdateEnv "games" "abc" (some (.string "")) =
      some ⟨.ok "generated-id", some ("generated-id", true)⟩ := by
  decide

/-- C27 (amended): when the body's `_id`, if present, is a string and the generator answers
a non-empty id, `UpdateDocument` returns and the id it indexes under is never empty: it is
the body's `_id` when that is a non-empty string, the id of the URL path when the body has
no `_id` and the path id is non-empty, and a fresh id (with `mintedID = true`) exactly when
the body's `_id` is the empty string, whatever the path supplies, or the body has no `_id`
and the path id is empty.  The id returned with status 200 is the id indexed under, and the
document is indexed whenever the index exists or can be created. -/
theorem UpdateDocument_id_never_empty (uenv : UpdateEnv) (indexName query_id : String)
    (bodyID : Option Value) (huuid : uenv.uuid ≠ "")
    (hstr : ∀ v, bodyID = some v → ∃ id, v = .string id) :
    ∃ out, UpdateDocument uenv indexName query_id bodyID = some out ∧
      (∀ docID mintedID, out.indexed = some (docID, mintedID) →
        docID ≠ "" ∧
        (mintedID = true ↔ bodyID = some (.string "") ∨ (bodyID = none ∧ query_id = "")) ∧
        (mintedID = true → docID = uenv.uuid) ∧
        (∀ id, bodyID = some (.string id) → id ≠ "" → docID = id) ∧
        (bodyID = none → query_id ≠ "" → docID = query_id)) ∧
      (∀ id, out.response = .ok id → ∃ mintedID, out.indexed = some (id, mintedID)) ∧
      (uenv.GetIndex indexName = true ∨ uenv.NewIndex indexName = none →
        out.indexed.isSome = true) := by
  obtain ⟨docID0, hchosen, hcases⟩ : ∃ docID0 : String,
      suppliedDocID bodyID query_id = some docID0 ∧
      ((bodyID = some (.string docID0)) ∨ (bodyID = none ∧ docID0 = query_id)) := by
    cases bodyID with
    | none =>
      by_cases hq : query_id = ""
      · exact ⟨"", by simp [suppliedDocID, hq], Or.inr ⟨rfl, hq.symm⟩⟩
      · exact ⟨query_id, by simp [suppliedDocID, hq], Or.inr ⟨rfl, rfl⟩⟩
    | some v =>
      obtain ⟨id, rfl⟩ := hstr v rfl
      exact ⟨id, rfl, Or.inl rfl⟩
  have hfacts : ∀ docID mintedID, (docID, mintedID) = mintDocID uenv.uuid docID0 →
      docID ≠ "" ∧
      (mintedID = true ↔ bodyID = some (.string "") ∨ (bodyID = none ∧ query_id = "")) ∧
      (mintedID = true → docID = uenv.uuid) ∧
      (∀ id, bodyID = some (.string id) → id ≠ "" → docID = id) ∧
      (bodyID = none → query_id ≠ "" → docID = query_id) := by
    intro docID mintedID heq
    unfold mintDocID at heq
    by_cases h0 : docID0 = ""
    · rw [if_pos h0] at heq
      obtain ⟨rfl, rfl⟩ := Prod.mk.inj heq
      subst h0
      refine ⟨huuid, ?_, fun _ => rfl, ?_, ?_⟩
      · rcases hcases with hb | ⟨hb, hq⟩
        · simp [hb]
        · simp [hb, hq.symm]
      · intro id hid hne
        rcases hcases with hb | ⟨hb, _⟩
        · rw [hb] at hid
          cases hid
          exact absurd rfl hne
        · rw [hb] at hid
          cases hid
      · intro hb hq
        rcases hcases with hb1 | ⟨_, hq1⟩
        · rw [hb] at hb1
          cases hb1
        · exact absurd hq1.symm hq
    · rw [if_neg h0] at heq
      obtain ⟨rfl, rfl⟩ := Prod.mk.inj heq
      refine ⟨h0, ?_, (fun h => Bool.noConfusion h), ?_, ?_⟩
      · constructor
        · intro h
          exact Bool.noConfusion h
        · rintro (hb | ⟨hb, hq⟩)
          · rcases hcases with hb1 | ⟨hb1, _⟩
            · rw [hb] at hb1
              cases hb1
              exact absurd rfl h0
            · rw [hb] at hb1
              cases hb1
          · rcases hcases with hb1 | ⟨_, hq1⟩
            · rw [hb] at hb1
              cases hb1
            · exact absurd (hq1.trans hq) h0
      · intro id hid _
        rcases hcases with hb | ⟨hb, _⟩
        · rw [hb] at hid
          cases hid
          rfl
        · rw [hb] at hid
          cases hid
      · intro hb _
        rcases hcases with hb1 | ⟨_, hq1⟩
        · rw [hb] at hb1
          cases hb1
        · exact hq1
  simp only [UpdateDocument, hchosen]
  cases hcr : (if uenv.GetIndex indexName = false then uenv.NewIndex indexName else none) with
  | some err =>
    refine ⟨_, rfl, ?_, ?_, ?_⟩
    · intro docID mintedID h
      cases h
    · intro id h
      cases h
    · intro h
      exfalso
      rcases h with h | h
      · simp [h] at hcr
      · by_cases hg : uenv.GetIndex indexName = false
        · simp [hg, h] at hcr
        · simp [hg] at hcr
  | none =>
    cases hup : uenv.UpdateDocument indexName (mintDocID uenv.uuid docID0).1
        (mintDocID uenv.uuid docID0).2 with
    | some err =>
      refine ⟨_, rfl, ?_, ?_, fun _ => rfl⟩
      · intro docID mintedID h
        exact hfacts docID mintedID (by simpa using h.symm)
      · intro id h
        cases h
    | none =>
      refine ⟨_, rfl, ?_, ?_, fun _ => rfl⟩
      · intro docID mintedID h
        exact hfacts docID mintedID (by simpa using h.symm)
      · intro id h
        simp only [UpdateResponse.ok.injEq] at h
        exact ⟨_, by rw [← h]⟩

/-- Instance of the amended C27: no `_id` in the body and the id `abc` in the URL path. -/
theorem UpdateDocument_id_never_empty_witness :
    (exampleUpdateEnv.uuid ≠ "" ∧ ∀ v, (none : Option Value) = some v → ∃ id, v = .string id) ∧
    UpdateDocument exampleUpdateEnv "games" "abc" none = some ⟨.ok "abc", some ("abc", false)⟩ ∧
    ∃ out, UpdateDocument exampleUpdateEnv "games" "abc" none = some out ∧
      (∀ docID mintedID, out.indexed = some (docID, mintedID) →
        docID ≠ "" ∧
        (mintedID = true ↔
          (none : Option Value) = some (.string "") ∨
            ((none : Option Value) = none ∧ "abc" = "")) ∧
        (mintedID = true → docID = exampleUpdateEnv.uuid) ∧
        (∀ id, (none : Option Value) = some (.string id) → id ≠ "" → docID = id) ∧
        ((none : Option Value) = none → "abc" ≠ "" → docID = "abc")) ∧
      (∀ id, out.response = .ok id → ∃ mintedID, out.indexed = some (id, mintedID)) ∧
      (exampleUpdateEnv.GetIndex "games" = true ∨ exampleUpdateEnv.NewIndex "games" = none →
        out.indexed.isSome = true) :=
  ⟨⟨by decide, fun v h => Option.noConfusion h⟩, by decide,
    UpdateDocument_id_never_empty exampleUpdateEnv "games" "abc" none (by decide)
      (fun v h => Option.noConfusion h)⟩

/-! ## Mappings: assignment and `SetMappings` -/

theorem lookup_filter_ne (l : List (String × Property)) (key k : String) (h : k ≠ key) :
    (l.filter (fun e => e.1 != key)).lookup k = l.lookup k := by
  induction l with
  | nil => rfl
  | cons e rest ih =>
    obtain ⟨a, b⟩ := e
    by_cases ha : a = key
    · subst ha
      have hka : (k == a) = false := by simpa using h
      simp [List.filter_cons, List.lookup_cons, hka, ih]
    · have hne : (a != key) = true := by simpa using ha
      simp only [List.filter_cons, hne, if_true, List.lookup_cons, ih]

theorem assign_get (m m1 : Mappings) (key : String) (prop : Property)
    (h : m.assign key prop = some m1) (k : String) :
    m1.get k = if k = key then some prop else m.get k := by
  unfold Mappings.assign at h
  by_cases hn : m.nilMap = true
  · simp [hn] at h
  · simp only [hn, if_false, Option.some.injEq, Bool.false_eq_true] at h
    subst h
    by_cases hk : k = key
    · subst hk
      simp [Mappings.get, List.lookup_cons]
    · have hkb : (k == key) = false := by simpa using hk
      simp only [Mappings.get, List.lookup_cons, hkb, hk, if_false]
      exact lookup_filter_ne _ _ _ hk

theorem assign_nilMap (m m1 : Mappings) (key : String) (prop : Property)
    (h : m.assign key prop = some m1) : m.nilMap = false ∧ m1.nilMap = false ∧ 0 < m1.Len := by
  unfold Mappings.assign at h
  by_cases hn : m.nilMap = true
  · simp [hn] at h
  · simp only [hn, if_false, Option.some.injEq, Bool.false_eq_true] at h
    subst h
    have hf : m.nilMap = false := by simpa using hn
    exact ⟨hf, rfl, by simp [Mappings.Len]⟩

theorem assign_total (m : Mappings) (key : String) (prop : Property) (h : m.nilMap = false) :
    ∃ m1, m.assign key prop = some m1 := by
  simp [Mappings.assign, h]

theorem SetMappings_spec (env : BuildEnv) (index index1 : MappedIndex) (m m1 : Mappings)
    (err : Option GoError)
    (h : index.SetMappings env (some m) = some (err, index1, m1)) :
    m.assign "@timestamp" (env.NewProperty "time") = some m1 ∧
    index1.Name = index.Name ∧
    (err = none → index1.CachedMappings = some m1) ∧
    (err ≠ none → index1 = index) := by
  simp only [MappedIndex.SetMappings] at h
  cases ha : m.assign "@timestamp" (env.NewProperty "time") with
  | none => simp [ha] at h
  | some m2 =>
    simp only [ha] at h
    split at h
    · simp only [Option.some.injEq, Prod.mk.injEq] at h
      obtain ⟨rfl, rfl, rfl⟩ := h
      exact ⟨rfl, rfl, (fun hc => Option.noConfusion hc), fun _ => rfl⟩
    · simp only [Option.some.injEq, Prod.mk.injEq] at h
      obtain ⟨rfl, rfl, rfl⟩ := h
      exact ⟨rfl, rfl, fun _ => rfl, fun hc => absurd rfl hc⟩

/-- C21: when `SetMappings(m)` returns without error, the mapping the index caches is `m`
with `@timestamp` set to the default `time` property, whatever `m` declared for it, and
with every other property as `m` has it; and `SetMappings(m)` does return without error
whenever the map of `m` is not nil and the system index accepts the update. -/
theorem SetMappings_reads_back (env : BuildEnv) (index : MappedIndex) (m : Mappings) :
    (∀ index1 m1, index.SetMappings env (some m) = some (none, index1, m1) →
      index1.CachedMappings = some m1 ∧
      index1.property "@timestamp" = some (env.NewProperty "time") ∧
      ∀ k, k ≠ "@timestamp" → index1.property k = m.get k) ∧
    (m.nilMap = false → (∀ doc, env.systemUpdate index.Name doc = none) →
      ∃ index1 m1, index.SetMappings env (some m) = some (none, index1, m1)) := by
  refine ⟨?_, ?_⟩
  · intro index1 m1 h
    obtain ⟨ha, _, hc, _⟩ := SetMappings_spec env index index1 m m1 none h
    have hcache := hc rfl
    refine ⟨hcache, ?_, ?_⟩
    · simp [MappedIndex.property, hcache, assign_get m m1 _ _ ha]
    · intro k hk
      simp [MappedIndex.property, hcache, assign_get m m1 _ _ ha, hk]
  · intro hn hup
    obtain ⟨m1, ha⟩ := assign_total m "@timestamp" (env.NewProperty "time") hn
    exact ⟨{ index with CachedMappings := some m1 }, m1,
      by simp only [MappedIndex.SetMappings, ha, hup]⟩

/-- Instance of C21: a mapping that declares `@timestamp` as a `keyword` and `title` as
`text` is set on the index `games`. -/
theorem SetMappings_reads_back_witness :
    ∃ index1 m1,
      freshIndex.SetMappings exampleBuildEnv
          (some { Properties :=
            [("@timestamp", { Type_ := "keyword" }), ("title", { Type_ := "text" })] }) =
        some (none, index1, m1) ∧
      index1.CachedMappings = some m1 ∧
      index1.property "@timestamp" = some { Type_ := "time" } ∧
      index1.property "title" = some { Type_ := "text" } :=
  have h := SetMappings_reads_back exampleBuildEnv freshIndex
    { Properties := [("@timestamp", { Type_ := "keyword" }), ("title", { Type_ := "text" })] }
  (h.2 rfl (fun _ => rfl)).imp (fun index1 h1 => h1.imp (fun m1 h2 =>
    ⟨h2, (h.1 index1 m1 h2).1, (h.1 index1 m1 h2).2.1,
      (h.1 index1 m1 h2).2.2 "title" (by decide)⟩))

/-! ## The document builder: what one iteration and the loop do -/

theorem inferProperty_spec (env : BuildEnv) (st st1 : BuildState) (key : String)
    (value : Value) (h : inferProperty env st key value = some st1) :
    st1.bdoc = st.bdoc ∧
    (∀ k, k ≠ key → st1.mappings.get k = st.mappings.get k) ∧
    (∀ p, st.mappings.get key = some p → st1 = st) ∧
    (st.mappings.get key = none →
      st1.mappingsNeedsUpdate = true ∧
      (∀ s, value = .string s → st1.mappings.get key = some (env.NewProperty "text")) ∧
      (∀ x, value = .float64 x → st1.mappings.get key = some (env.NewProperty "numeric")) ∧
      (∀ b, value = .bool b → st1.mappings.get key = some (env.NewProperty "bool"))) ∧
    (st.mappingsNeedsUpdate = true → st1.mappingsNeedsUpdate = true) := by
  unfold inferProperty at h
  cases hg : st.mappings.get key with
  | some p =>
    simp only [hg, Option.some.injEq] at h
    subst h
    exact ⟨rfl, fun _ _ => rfl, fun _ _ => rfl, fun hc => Option.noConfusion hc, id⟩
  | none =>
    simp only [hg] at h
    have key_case : ∀ (typ : String) (m : Mappings),
        st.mappings.assign key (env.NewProperty typ) = some m →
        (∀ k, k ≠ key → m.get k = st.mappings.get k) ∧
          m.get key = some (env.NewProperty typ) := by
      intro typ m ha
      refine ⟨fun k hk => ?_, ?_⟩
      · rw [assign_get _ _ _ _ ha k, if_neg hk]
      · rw [assign_get _ _ _ _ ha key, if_pos rfl]
    cases value with
    | null =>
      simp only [Option.map_some', Option.some.injEq] at h
      subst h
      exact ⟨rfl, fun _ _ => rfl, fun p hp => Option.noConfusion hp,
        fun _ => ⟨rfl, (fun _ hs => Value.noConfusion hs), (fun _ hs => Value.noConfusion hs),
          (fun _ hs => Value.noConfusion hs)⟩, fun _ => rfl⟩
    | other t =>
      simp only [Option.map_some', Option.some.injEq] at h
      subst h
      exact ⟨rfl, fun _ _ => rfl, fun p hp => Option.noConfusion hp,
        fun _ => ⟨rfl, (fun _ hs => Value.noConfusion hs), (fun _ hs => Value.noConfusion hs),
          (fun _ hs => Value.noConfusion hs)⟩, fun _ => rfl⟩
    | string s =>
      cases ha : st.mappings.assign key (env.NewProperty "text") with
      | none => simp [ha] at h
      | some m =>
        simp only [ha, Option.map_some', Option.some.injEq] at h
        subst h
        obtain ⟨h1, h2⟩ := key_case "text" m ha
        exact ⟨rfl, h1, fun p hp => Option.noConfusion hp,
          fun _ => ⟨rfl, (fun _ _ => h2), (fun _ hs => Value.noConfusion hs),
            (fun _ hs => Value.noConfusion hs)⟩, fun _ => rfl⟩
    | float64 x =>
      cases ha : st.mappings.assign key (env.NewProperty "numeric") with
      | none => simp [ha] at h
      | some m =>
        simp only [ha, Option.map_some', Option.some.injEq] at h
        subst h
        obtain ⟨h1, h2⟩ := key_case "numeric" m ha
        exact ⟨rfl, h1, fun p hp => Option.noConfusion hp,
          fun _ => ⟨rfl, (fun _ hs => Value.noConfusion hs), (fun _ _ => h2),
            (fun _ hs => Value.noConfusion hs)⟩, fun _ => rfl⟩
    | bool b =>
      cases ha : st.mappings.assign key (env.NewProperty "bool") with
      | none => simp [ha] at h
      | some m =>
        simp only [ha, Option.map_some', Option.some.injEq] at h
        subst h
        obtain ⟨h1, h2⟩ := key_case "bool" m ha
        exact ⟨rfl, h1, fun p hp => Option.noConfusion hp,
          fun _ => ⟨rfl, (fun _ hs => Value.noConfusion hs), (fun _ hs => Value.noConfusion hs),
            (fun _ _ => h2)⟩, fun _ => rfl⟩
    | time t =>
      cases ha : st.mappings.assign key (env.NewProperty "time") with
      | none => simp [ha] at h
      | some m =>
        simp only [ha, Option.map_some', Option.some.injEq] at h
        subst h
        obtain ⟨h1, _⟩ := key_case "time" m ha
        exact ⟨rfl, h1, fun p hp => Option.noConfusion hp,
          fun _ => ⟨rfl, (fun _ hs => Value.noConfusion hs), (fun _ hs => Value.noConfusion hs),
            (fun _ hs => Value.noConfusion hs)⟩, fun _ => rfl⟩

theorem ok_field_spec (env : BuildEnv) (typ key : String) (value : Value) (f0 : Field)
    (hname : f0.name = key) :
    (∀ f, (Except.ok (some f0) : Except GoError (Option Field)) = .ok (some f) →
      f.name = key) ∧
    (∀ err, (Except.ok (some f0) : Except GoError (Option Field)) = .error err →
      (∃ s, value = .string s ∧ typ = "time" ∧ env.parseRFC3339 s = none ∧
        err = .timeParse s) ∨
      (typ = "keyword" ∧ (∀ b, value ≠ .bool b) ∧ (∀ s, value ≠ .string s) ∧
        err = .plain "keyword type only support text")) := by
  refine ⟨?_, ?_⟩
  · intro f hf
    cases hf
    exact hname
  · intro err he
    cases he

theorem keyword_error_spec (env : BuildEnv) (typ key : String) (value : Value)
    (htyp : typ = "keyword") (hb : ∀ b, value ≠ .bool b) (hs : ∀ s, value ≠ .string s) :
    (∀ f, (Except.error (.plain "keyword type only support text") :
        Except GoError (Option Field)) = .ok (some f) → f.name = key) ∧
    (∀ err, (Except.error (.plain "keyword type only support text") :
        Except GoError (Option Field)) = .error err →
      (∃ s, value = .string s ∧ typ = "time" ∧ env.parseRFC3339 s = none ∧
        err = .timeParse s) ∨
      (typ = "keyword" ∧ (∀ b, value ≠ .bool b) ∧ (∀ s, value ≠ .string s) ∧
        err = .plain "keyword type only support text")) := by
  refine ⟨?_, ?_⟩
  · intro f hf
    cases hf
  · intro err he
    cases he
    exact Or.inr ⟨htyp, hb, hs, rfl⟩

theorem newField_spec (env : BuildEnv) (typ key : String) (value : Value)
    (r : Except GoError (Option Field)) (h : newField env typ key value = some r) :
    (∀ f, r = .ok (some f) → f.name = key) ∧
    (∀ err, r = .error err →
      (∃ s, value = .string s ∧ typ = "time" ∧ env.parseRFC3339 s = none ∧
        err = .timeParse s) ∨
      (typ = "keyword" ∧ (∀ b, value ≠ .bool b) ∧ (∀ s, value ≠ .string s) ∧
        err = .plain "keyword type only support text")) := by
  unfold newField at h
  by_cases h1 : typ = "text"
  · rw [if_pos h1] at h
    cases value <;> simp at h
    subst h
    exact ok_field_spec env typ key _ _ rfl
  rw [if_neg h1] at h
  by_cases h2 : typ = "numeric"
  · rw [if_pos h2] at h
    cases value <;> simp at h
    subst h
    exact ok_field_spec env typ key _ _ rfl
  rw [if_neg h2] at h
  by_cases h3 : typ = "keyword"
  · rw [if_pos h3] at h
    cases value with
    | bool v =>
      simp only [Option.some.injEq] at h
      subst h
      exact ok_field_spec env typ key _ _ rfl
    | string v =>
      simp only [Option.some.injEq] at h
      subst h
      exact ok_field_spec env typ key _ _ rfl
    | null =>
      simp only [Option.some.injEq] at h
      subst h
      exact keyword_error_spec env typ key _ h3 (fun _ hc => Value.noConfusion hc)
        (fun _ hc => Value.noConfusion hc)
    | float64 x =>
      simp only [Option.some.injEq] at h
      subst h
      exact keyword_error_spec env typ key _ h3 (fun _ hc => Value.noConfusion hc)
        (fun _ hc => Value.noConfusion hc)
    | time t =>
      simp only [Option.some.injEq] at h
      subst h
      exact keyword_error_spec env typ key _ h3 (fun _ hc => Value.noConfusion hc)
        (fun _ hc => Value.noConfusion hc)
    | other t =>
      simp only [Option.some.injEq] at h
      subst h
      exact keyword_error_spec env typ key _ h3 (fun _ hc => Value.noConfusion hc)
        (fun _ hc => Value.noConfusion hc)
  rw [if_neg h3] at h
  by_cases h4 : typ = "bool"
  · rw [if_pos h4] at h
    cases value <;> simp at h
    subst h
    exact ok_field_spec env typ key _ _ rfl
  rw [if_neg h4] at h
  by_cases h5 : typ = "time"
  · rw [if_pos h5] at h
    cases value with
    | string s =>
      simp only at h
      cases hp : env.parseRFC3339 s with
      | none =>
        simp only [hp, Option.some.injEq] at h
        subst h
        refine ⟨?_, ?_⟩
        · intro f hf
          cases hf
        · intro err he
          cases he
          exact Or.inl ⟨s, rfl, h5, hp, rfl⟩
      | some tim =>
        simp only [hp, Option.some.injEq] at h
        subst h
        exact ok_field_spec env typ key _ _ rfl
    | _ => simp at h
  rw [if_neg h5] at h
  simp only [Option.some.injEq] at h
  subst h
  refine ⟨?_, ?_⟩
  · intro f hf
    cases hf
  · intro err he
    cases he

theorem applyFlags_name (prop : Property) (field field1 : Option Field)
    (h : applyFlags prop field = some field1) :
    ∀ f1, field1 = some f1 → ∃ f, field = some f ∧ f1.name = f.name := by
  intro f1 hf1
  subst hf1
  cases field with
  | none =>
    simp only [applyFlags] at h
    split_ifs at h
    cases h
  | some f =>
    simp only [applyFlags, Option.some.injEq] at h
    exact ⟨f, rfl, by rw [← h]⟩

theorem buildStep_spec (env : BuildEnv) (st st1 : BuildState) (key : String) (value : Value)
    (r : Option GoError) (h : buildStep env st key value = some (r, st1)) :
    (∀ k, k ≠ key → st1.mappings.get k = st.mappings.get k) ∧
    (∀ p, st.mappings.get key = some p → st1.mappings = st.mappings) ∧
    (st.mappings.get key = none → value ≠ .null →
      st1.mappingsNeedsUpdate = true ∧
      (∀ s, value = .string s → st1.mappings.get key = some (env.NewProperty "text")) ∧
      (∀ x, value = .float64 x → st1.mappings.get key = some (env.NewProperty "numeric")) ∧
      (∀ b, value = .bool b → st1.mappings.get key = some (env.NewProperty "bool"))) ∧
    (st.mappingsNeedsUpdate = true → st1.mappingsNeedsUpdate = true) ∧
    (∃ added, st1.bdoc = st.bdoc ++ added ∧ added.length ≤ 1 ∧
      ∀ f, some f ∈ added → f.name = key) ∧
    (∀ err, r = some err → (∃ s, err = .timeParse s) ∨ err = .plain "keyword type only support text") := by
  unfold buildStep at h
  by_cases hnull : value = .null
  · rw [if_pos hnull] at h
    simp only [Option.some.injEq, Prod.mk.injEq] at h
    obtain ⟨rfl, rfl⟩ := h
    exact ⟨fun _ _ => rfl, fun _ _ => rfl, fun _ hv => absurd hnull hv, id,
      ⟨[], by simp, by simp, by simp⟩, fun _ he => Option.noConfusion he⟩
  rw [if_neg hnull] at h
  cases hi : inferProperty env st key value with
  | none => simp [hi] at h
  | some st2 =>
    simp only [hi] at h
    obtain ⟨hdoc, hother, hsame, hnew, hmono⟩ := inferProperty_spec env st st2 key value hi
    have hsame1 : ∀ p, st.mappings.get key = some p → st2.mappings = st.mappings :=
      fun p hp => by rw [hsame p hp]
    have hnew1 : st.mappings.get key = none → value ≠ .null →
        st2.mappingsNeedsUpdate = true ∧
        (∀ s, value = .string s → st2.mappings.get key = some (env.NewProperty "text")) ∧
        (∀ x, value = .float64 x → st2.mappings.get key = some (env.NewProperty "numeric")) ∧
        (∀ b, value = .bool b → st2.mappings.get key = some (env.NewProperty "bool")) :=
      fun hg _ => hnew hg
    -- the exits that leave the document as it is
    have unchanged : ∀ r0, (r0, st2) = (r, st1) →
        (∀ err, r0 = some err → (∃ s, err = .timeParse s) ∨ err = .plain "keyword type only support text") →
        (∀ k, k ≠ key → st1.mappings.get k = st.mappings.get k) ∧
        (∀ p, st.mappings.get key = some p → st1.mappings = st.mappings) ∧
        (st.mappings.get key = none → value ≠ .null →
          st1.mappingsNeedsUpdate = true ∧
          (∀ s, value = .string s → st1.mappings.get key = some (env.NewProperty "text")) ∧
          (∀ x, value = .float64 x →
            st1.mappings.get key = some (env.NewProperty "numeric")) ∧
          (∀ b, value = .bool b → st1.mappings.get key = some (env.NewProperty "bool"))) ∧
        (st.mappingsNeedsUpdate = true → st1.mappingsNeedsUpdate = true) ∧
        (∃ added, st1.bdoc = st.bdoc ++ added ∧ added.length ≤ 1 ∧
          ∀ f, some f ∈ added → f.name = key) ∧
        (∀ err, r = some err → (∃ s, err = .timeParse s) ∨ err = .plain "keyword type only support text") := by
      intro r0 heq herr
      obtain ⟨rfl, rfl⟩ := Prod.mk.inj heq
      exact ⟨hother, hsame1, hnew1, hmono, ⟨[], by simp [hdoc], by simp, by simp⟩, herr⟩
    cases hg : st2.mappings.get key with
    | none =>
      simp only [hg, Option.some.injEq] at h
      exact unchanged none h (fun _ he => Option.noConfusion he)
    | some prop =>
      simp only [hg] at h
      by_cases hidx : prop.Index = false
      · rw [if_pos hidx] at h
        simp only [Option.some.injEq] at h
        exact unchanged none h (fun _ he => Option.noConfusion he)
      rw [if_neg hidx] at h
      cases hf : newField env prop.Type_ key value with
      | none => simp [hf] at h
      | some res =>
        obtain ⟨hname, herrs⟩ := newField_spec env prop.Type_ key value res hf
        cases res with
        | error err =>
          simp only [hf, Option.some.injEq] at h
          refine unchanged (some err) h ?_
          intro e he
          cases he
          rcases herrs err rfl with ⟨s, _, _, _, hs⟩ | ⟨_, _, _, hm⟩
          · exact Or.inl ⟨s, hs⟩
          · exact Or.inr hm
        | ok field =>
          simp only [hf] at h
          cases hfl : applyFlags prop field with
          | none => simp [hfl] at h
          | some field1 =>
            simp only [hfl, Option.some.injEq, Prod.mk.injEq] at h
            obtain ⟨rfl, rfl⟩ := h
            refine ⟨hother, hsame1, hnew1, hmono, ⟨[field1], by simp [hdoc], by simp, ?_⟩,
              fun _ he => Option.noConfusion he⟩
            intro f hmem
            simp only [List.mem_singleton] at hmem
            obtain ⟨f0, hf0, hn⟩ := applyFlags_name prop field field1 hfl f hmem.symm
            rw [hn]
            exact hname f0 (by rw [hf0])

theorem buildLoop_frame (env : BuildEnv) :
    ∀ (flatDoc : List (String × Value)) (st st1 : BuildState) (r : Option GoError),
      buildLoop env st flatDoc = some (r, st1) →
      (∀ k p, st.mappings.get k = some p → st1.mappings.get k = some p) ∧
      (st.mappingsNeedsUpdate = true → st1.mappingsNeedsUpdate = true) ∧
      (∃ added, st1.bdoc = st.bdoc ++ added ∧
        ((added.filterMap id).map (·.name)).Sublist (flatDoc.map Prod.fst)) ∧
      (∀ err, r = some err → (∃ s, err = .timeParse s) ∨ err = .plain "keyword type only support text") := by
  intro flatDoc
  induction flatDoc with
  | nil =>
    intro st st1 r h
    simp only [buildLoop, Option.some.injEq, Prod.mk.injEq] at h
    obtain ⟨rfl, rfl⟩ := h
    exact ⟨fun _ _ hp => hp, id, ⟨[], by simp, by simp⟩, fun _ he => Option.noConfusion he⟩
  | cons kv rest ih =>
    intro st st1 r h
    obtain ⟨key, value⟩ := kv
    simp only [buildLoop] at h
    cases hs : buildStep env st key value with
    | none => simp [hs] at h
    | some res =>
      obtain ⟨r0, st2⟩ := res
      obtain ⟨hother, hsame, _, hmono, ⟨added, hadd, hlen, hnames⟩, herr⟩ :=
        buildStep_spec env st st2 key value r0 hs
      have hkeep : ∀ k p, st.mappings.get k = some p → st2.mappings.get k = some p := by
        intro k p hp
        by_cases hk : k = key
        · subst hk
          rw [hsame p hp, hp]
        · rw [hother k hk, hp]
      have hsub : ((added.filterMap id).map (·.name)).Sublist [key] := by
        match added, hlen, hnames with
        | [], _, _ => simp
        | [none], _, _ => simp
        | [some f], _, hn =>
          have := hn f (by simp)
          simp [this]
        | _ :: _ :: _, hl, _ => simp at hl
      cases r0 with
      | some err =>
        simp only [hs, Option.some.injEq, Prod.mk.injEq] at h
        obtain ⟨rfl, rfl⟩ := h
        refine ⟨hkeep, hmono, ⟨added, hadd, ?_⟩, herr⟩
        exact hsub.trans (by simp)
      | none =>
        simp only [hs] at h
        obtain ⟨h1, h2, ⟨added1, hadd1, hsub1⟩, h4⟩ := ih st2 st1 r h
        refine ⟨fun k p hp => h1 k p (hkeep k p hp), fun hn => h2 (hmono hn),
          ⟨added ++ added1, by rw [hadd1, hadd, List.append_assoc], ?_⟩, h4⟩
        simp only [List.filterMap_append, List.map_append, List.map_cons]
        exact (hsub.append hsub1)

theorem buildLoop_infers (env : BuildEnv) :
    ∀ (flatDoc : List (String × Value)) (st st1 : BuildState),
      buildLoop env st flatDoc = some (none, st1) → (flatDoc.map Prod.fst).Nodup →
      ∀ key value, (key, value) ∈ flatDoc → st.mappings.get key = none → value ≠ .null →
        st1.mappingsNeedsUpdate = true ∧
        (∀ s, value = .string s → st1.mappings.get key = some (env.NewProperty "text")) ∧
        (∀ x, value = .float64 x →
          st1.mappings.get key = some (env.NewProperty "numeric")) ∧
        (∀ b, value = .bool b → st1.mappings.get key = some (env.NewProperty "bool")) := by
  intro flatDoc
  induction flatDoc with
  | nil => intro st st1 _ _ key value hmem; simp at hmem
  | cons kv rest ih =>
    intro st st1 h hnodup key value hmem hnone hnn
    obtain ⟨key0, value0⟩ := kv
    simp only [buildLoop] at h
    cases hs : buildStep env st key0 value0 with
    | none => simp [hs] at h
    | some res =>
      obtain ⟨r0, st2⟩ := res
      cases r0 with
      | some err => simp [hs] at h
      | none =>
        simp only [hs] at h
        obtain ⟨hother, _, hnew, _, _, _⟩ := buildStep_spec env st st2 key0 value0 none hs
        obtain ⟨hkeep, hmono, _, _⟩ := buildLoop_frame env rest st2 st1 none h
        simp only [List.map_cons, List.nodup_cons] at hnodup
        rcases List.mem_cons.1 hmem with heq | hrest
        · obtain ⟨rfl, rfl⟩ := Prod.mk.inj heq
          obtain ⟨hn, hs1, hx1, hb1⟩ := hnew hnone hnn
          exact ⟨hmono hn, fun s hv => hkeep _ _ (hs1 s hv), fun x hv => hkeep _ _ (hx1 x hv),
            fun b hv => hkeep _ _ (hb1 b hv)⟩
        · have hne : key ≠ key0 := by
            intro hk
            subst hk
            exact hnodup.1 (List.mem_map_of_mem Prod.fst hrest)
          exact ih st2 st1 h hnodup.2 key value hrest (by rw [hother key hne, hnone]) hnn

theorem Build_ok_spec (env : BuildEnv) (index index1 : MappedIndex) (docID : String)
    (flatDoc : List (String × Value)) (docByteVal : String) (bdoc : Document)
    (h : index.BuildBlugeDocumentFromJSON env docID flatDoc docByteVal =
      some (.ok bdoc, index1)) :
    ∃ st, buildLoop env ⟨index.mappingsOrNew, false, NewDocument docID⟩ flatDoc =
        some (none, st) ∧
      updateMappings env index st = some index1 ∧
      bdoc = appendStandardFields env st.bdoc docByteVal := by
  simp only [MappedIndex.BuildBlugeDocumentFromJSON] at h
  cases hl : buildLoop env ⟨index.mappingsOrNew, false, NewDocument docID⟩ flatDoc with
  | none => simp [hl] at h
  | some res =>
    obtain ⟨r, st⟩ := res
    cases r with
    | some err => simp [hl] at h
    | none =>
      simp only [hl] at h
      cases hu : updateMappings env index st with
      | none => simp [hu] at h
      | some index2 =>
        simp only [hu, Option.some.injEq, Prod.mk.injEq, Except.ok.injEq] at h
        obtain ⟨rfl, rfl⟩ := h
        exact ⟨st, rfl, hu, rfl⟩

theorem updateMappings_property (env : BuildEnv) (index index1 : MappedIndex)
    (st : BuildState) (h : updateMappings env index st = some index1)
    (hkept : index.CachedMappings ≠ none ∨
      (st.mappingsNeedsUpdate = true ∧ ∀ id doc, env.systemUpdate id doc = none)) :
    (∀ k, k ≠ "@timestamp" → index1.property k = st.mappings.get k) ∧
    (st.mappingsNeedsUpdate = true →
      index1.property "@timestamp" = some (env.NewProperty "time")) := by
  unfold updateMappings at h
  by_cases hn : st.mappingsNeedsUpdate = true
  · rw [if_pos hn] at h
    cases hs : (index.seenThrough index st.mappings).SetMappings env (some st.mappings) with
    | none => simp [hs] at h
    | some res =>
      obtain ⟨err, indexS, m1⟩ := res
      simp only [hs, Option.some.injEq] at h
      obtain ⟨ha, _, hok, hfail⟩ := SetMappings_spec env _ indexS st.mappings m1 err hs
      have hcache : index1.CachedMappings = some m1 := by
        rw [← h]
        unfold MappedIndex.seenThrough
        by_cases hsh : index.CachedMappings.isSome = true
        · simp [hsh]
        · rw [if_neg hsh]
          have hnone : index.CachedMappings = none := by
            simpa using hsh
          rcases hkept with hk | ⟨_, hup⟩
          · exact absurd hnone hk
          · apply hok
            cases err with
            | none => rfl
            | some e =>
              exfalso
              simp only [MappedIndex.SetMappings, ha, hup] at hs
              cases hs
      refine ⟨fun k hk => ?_, fun _ => ?_⟩
      · simp [MappedIndex.property, hcache, assign_get _ _ _ _ ha, hk]
      · simp [MappedIndex.property, hcache, assign_get _ _ _ _ ha]
  · rw [if_neg hn] at h
    simp only [Option.some.injEq] at h
    rcases hkept with hk | ⟨hc, _⟩
    · have hsh : index.CachedMappings.isSome = true := by
        cases hc : index.CachedMappings with
        | none => exact absurd hc hk
        | some _ => rfl
      refine ⟨fun k _ => ?_, fun hc => absurd hc hn⟩
      rw [← h]
      simp [MappedIndex.property, MappedIndex.seenThrough, hsh]
    · exact absurd hc hn

/-! ## Dynamic mapping inference -/

/-- C23, as stated, fails for the key `@timestamp`: on an index without mappings a document
whose `@timestamp` leaf is a string is built without error, the key was absent from the
mapping, and the property the index maps it to afterwards is the default `time` property
(`SetMappings` overwrites what the loop inferred), not a `text` property. -/
theorem Build_timestamp_string_maps_to_time :
    freshIndex.property "@timestamp" = none ∧
    ∃ bdoc index1,
      freshIndex.BuildBlugeDocumentFromJSON exampleBuildEnv "1"
          [("@timestamp", .string "2020-01-01T00:00:00Z")] "{}" = some (.ok bdoc, index1) ∧
      index1.property "@timestamp" = some (exampleBuildEnv.NewProperty "time") ∧
      index1.property "@timestamp" ≠ some (exampleBuildEnv.NewProperty "text") :=
  ⟨rfl, _, _, rfl, rfl, by decide⟩

/-- C23 (amended): when `BuildBlugeDocumentFromJSON` returns a document and the mapping it
worked on is kept (the index had cached mappings, or the system index accepts the update),
then for every non-null leaf whose key is absent from the index mapping and is not
`@timestamp` the index afterwards maps the key to the default property of type `text` for a
string value, `numeric` for a floating-point value and `bool` for a boolean; every key
other than `@timestamp` that the mapping already held keeps its property; and `@timestamp`
is mapped to the default `time` property as soon as one leaf had no property. -/
theorem Build_infers_properties (env : BuildEnv) (index index1 : MappedIndex)
    (docID : String) (flatDoc : List (String × Value)) (docByteVal : String)
    (bdoc : Document) (hnodup : (flatDoc.map Prod.fst).Nodup)
    (hret : index.BuildBlugeDocumentFromJSON env docID flatDoc docByteVal =
      some (.ok bdoc, index1))
    (hkept : index.CachedMappings ≠ none ∨ ∀ id doc, env.systemUpdate id doc = none) :
    (∀ key value, (key, value) ∈ flatDoc → value ≠ .null → index.property key = none →
      index1.property "@timestamp" = some (env.NewProperty "time") ∧
      (key ≠ "@timestamp" →
        (∀ s, value = .string s → index1.property key = some (env.NewProperty "text")) ∧
        (∀ x, value = .float64 x → index1.property key = some (env.NewProperty "numeric")) ∧
        (∀ b, value = .bool b → index1.property key = some (env.NewProperty "bool")))) ∧
    (∀ key prop, index.property key = some prop → key ≠ "@timestamp" →
      index1.property key = some prop) := by
  obtain ⟨st, hloop, hupd, _⟩ := Build_ok_spec env index index1 docID flatDoc docByteVal bdoc hret
  obtain ⟨hkeep, _, _, _⟩ := buildLoop_frame env flatDoc _ st none hloop
  have hstart : ∀ k, index.mappingsOrNew.get k = index.property k := by
    intro k
    unfold MappedIndex.mappingsOrNew MappedIndex.property
    cases index.CachedMappings with
    | none => rfl
    | some m => rfl
  refine ⟨?_, ?_⟩
  · intro key value hmem hnn hnone
    obtain ⟨hneeds, hs, hx, hb⟩ := buildLoop_infers env flatDoc _ st hloop hnodup key value hmem
      (by rw [hstart]; exact hnone) hnn
    have hkept1 : index.CachedMappings ≠ none ∨
        (st.mappingsNeedsUpdate = true ∧ ∀ id doc, env.systemUpdate id doc = none) :=
      hkept.imp id (fun h => ⟨hneeds, h⟩)
    obtain ⟨hprop, hts⟩ := updateMappings_property env index index1 st hupd hkept1
    refine ⟨hts hneeds, fun hk => ⟨?_, ?_, ?_⟩⟩
    · intro s hv
      rw [hprop key hk]
      exact hs s hv
    · intro x hv
      rw [hprop key hk]
      exact hx x hv
    · intro b hv
      rw [hprop key hk]
      exact hb b hv
  · intro key prop hp hk
    have hsome : index.CachedMappings ≠ none := by
      intro hc
      simp [MappedIndex.property, hc] at hp
    obtain ⟨hprop, _⟩ := updateMappings_property env index index1 st hupd (Or.inl hsome)
    rw [hprop key hk]
    exact hkeep key prop (by rw [hstart]; exact hp)

/-- Instance of the amended C23: a document with a numeric leaf `year` and a string leaf
`title` is built on an index that maps `title` already. -/
theorem Build_infers_properties_witness :
    ∃ bdoc index1,
      titledIndex.BuildBlugeDocumentFromJSON exampleBuildEnv "1"
          [("year", .float64 ⟨2006⟩), ("title", .string "Turin")] "{}" =
        some (.ok bdoc, index1) ∧
      index1.property "year" = some (exampleBuildEnv.NewProperty "numeric") ∧
      index1.property "title" = some { Type_ := "text" } :=
  ⟨_, _, rfl,
    (((Build_infers_properties exampleBuildEnv titledIndex _ "1"
      [("year", .float64 ⟨2006⟩), ("title", .string "Turin")] "{}" _ (by decide) rfl
      (Or.inl (by decide))).1 "year" (.float64 ⟨2006⟩) (by decide) (by decide) rfl).2
        (by decide)).2.1 ⟨2006⟩ rfl,
    rfl⟩

/-! ## The `@timestamp` field of a built document -/

theorem timestampFields_append (a b : Document) :
    timestampFields (a ++ b) = timestampFields a ++ timestampFields b := by
  simp [timestampFields, List.filterMap_append]

theorem timestampFields_length_le (body : Document) (keys : List String)
    (hsub : ((body.filterMap id).map (·.name)).Sublist keys) :
    (timestampFields body).length ≤ keys.count "@timestamp" := by
  have h1 : (timestampFields body).length =
      ((body.filterMap id).map (·.name)).count "@timestamp" := by
    simp only [timestampFields, List.count_eq_countP, List.countP_eq_length_filter,
      List.filter_map, List.length_map]
    congr 1
  rw [h1]
  exact hsub.count_le _

/-- C24, as stated, fails when the input has a `@timestamp`: on an index that maps
`@timestamp` as `time`, a document whose `@timestamp` parses to 1577836800 gets two
`@timestamp` fields, the one the loop builds from the input (with the flags of the mapped
property) and the one appended after the loop, which carries the ingestion time
1700000000, not the input's value. -/
theorem Build_appends_ingestion_time_beside_input :
    ∃ bdoc index1,
      titledIndex.BuildBlugeDocumentFromJSON exampleBuildEnv "1"
          [("@timestamp", .string "2020-01-01T00:00:00Z")] "{}" = some (.ok bdoc, index1) ∧
      timestampFields bdoc =
        [{ name := "@timestamp", value := .dateTime 1577836800 },
         { name := "@timestamp", value := .dateTime 1700000000, store := true,
           sortable := true, aggregatable := true }] :=
  ⟨_, _, rfl, rfl⟩

/-- C24 (amended): the `@timestamp` field that `BuildBlugeDocumentFromJSON` appends after
the loop always carries the ingestion time, whether or not the input has a `@timestamp`,
and is stored, sortable and aggregatable; it is followed by `_source` and `_all` only.
When the input has no `@timestamp` leaf it is the only `@timestamp` field of the document;
when the input has one, the loop may add that leaf as one further `@timestamp` field like
any other leaf, so the document has at most two. -/
theorem Build_appends_ingestion_timestamp (env : BuildEnv) (index index1 : MappedIndex)
    (docID : String) (flatDoc : List (String × Value)) (docByteVal : String)
    (bdoc : Document)
    (hret : index.BuildBlugeDocumentFromJSON env docID flatDoc docByteVal =
      some (.ok bdoc, index1)) :
    ∃ body,
      bdoc = NewDocument docID ++ body ++
        [some { name := "@timestamp", value := .dateTime env.now, store := true,
                sortable := true, aggregatable := true },
         some { name := "_source", value := .storedOnly docByteVal },
         some { name := "_all", value := .compositeExcluding }] ∧
      ((∀ v, ("@timestamp", v) ∉ flatDoc) →
        timestampFields bdoc =
          [{ name := "@timestamp", value := .dateTime env.now, store := true,
             sortable := true, aggregatable := true }]) ∧
      ((flatDoc.map Prod.fst).Nodup → (timestampFields bdoc).length ≤ 2) := by
  obtain ⟨st, hloop, _, hdoc⟩ := Build_ok_spec env index index1 docID flatDoc docByteVal bdoc hret
  obtain ⟨_, _, ⟨body, hbody, hsub⟩, _⟩ := buildLoop_frame env flatDoc _ st none hloop
  simp only at hbody
  have hle := timestampFields_length_le body _ hsub
  have hshape : bdoc = NewDocument docID ++ body ++
      [some { name := "@timestamp", value := .dateTime env.now, store := true,
              sortable := true, aggregatable := true },
       some { name := "_source", value := .storedOnly docByteVal },
       some { name := "_all", value := .compositeExcluding }] := by
    rw [hdoc, hbody]
    simp [appendStandardFields]
  have hcount : timestampFields bdoc = timestampFields body ++
      [{ name := "@timestamp", value := .dateTime env.now, store := true,
         sortable := true, aggregatable := true }] := by
    rw [hshape, timestampFields_append, timestampFields_append]
    simp [timestampFields, NewDocument]
  refine ⟨body, hshape, ?_, ?_⟩
  · intro hno
    have hzero : (flatDoc.map Prod.fst).count "@timestamp" = 0 := by
      rw [List.count_eq_zero]
      intro hmem
      obtain ⟨kv, hkv, hk⟩ := List.mem_map.1 hmem
      exact hno kv.2 (by rw [← hk]; exact hkv)
    have : timestampFields body = [] := by
      apply List.eq_nil_of_length_eq_zero
      omega
    rw [hcount, this]
    rfl
  · intro hnodup
    have hone : (flatDoc.map Prod.fst).count "@timestamp" ≤ 1 :=
      List.nodup_iff_count_le_one.1 hnodup _
    rw [hcount, List.length_append]
    simp only [List.length_singleton]
    omega

/-- Instance of the amended C24: a document without a `@timestamp` leaf. -/
theorem Build_appends_ingestion_timestamp_witness :
    ∃ bdoc index1,
      titledIndex.BuildBlugeDocumentFromJSON exampleBuildEnv "1"
          [("title", .string "Turin")] "{}" = some (.ok bdoc, index1) ∧
      timestampFields bdoc =
        [{ name := "@timestamp", value := .dateTime exampleBuildEnv.now, store := true,
           sortable := true, aggregatable := true }] :=
  ⟨_, _, rfl,
    (Build_appends_ingestion_timestamp exampleBuildEnv titledIndex _ "1"
      [("title", .string "Turin")] "{}" _ rfl).elim
      (fun _ h => h.2.1 (fun v hv => absurd hv (by simp)))⟩

/-! ## Values that do not fit the mapped type -/

theorem buildLoop_append (env : BuildEnv) :
    ∀ (pre rest : List (String × Value)) (st st1 : BuildState),
      buildLoop env st pre = some (none, st1) →
      buildLoop env st (pre ++ rest) = buildLoop env st1 rest := by
  intro pre
  induction pre with
  | nil =>
    intro rest st st1 h
    simp only [buildLoop, Option.some.injEq, Prod.mk.injEq, true_and] at h
    subst h
    rfl
  | cons kv pre ih =>
    intro rest st st1 h
    obtain ⟨key, value⟩ := kv
    simp only [buildLoop, List.cons_append] at h ⊢
    cases hs : buildStep env st key value with
    | none => simp [hs] at h
    | some res =>
      obtain ⟨r0, st2⟩ := res
      cases r0 with
      | some err => simp [hs] at h
      | none =>
        simp only [hs] at h ⊢
        exact ih rest st2 st1 h

theorem buildStep_mapped (env : BuildEnv) (st : BuildState) (key : String) (value : Value)
    (prop : Property) (hprop : st.mappings.get key = some prop) (hindex : prop.Index = true)
    (hnn : value ≠ .null) (err : GoError)
    (hfield : newField env prop.Type_ key value = some (.error err)) :
    buildStep env st key value = some (some err, st) := by
  have hinfer : inferProperty env st key value = some st := by
    simp [inferProperty, hprop]
  simp [buildStep, hnn, hinfer, hprop, hindex, hfield]

/-- C25, as stated, fails: on an index that maps `when` as `time`, a document whose `when`
is the string `yesterday` is rejected without a document, but the error returned is the
error of `time.Parse`, not a `MappingException`. -/
theorem Build_unparseable_time_returns_parse_error :
    ∃ index1,
      datedIndex.BuildBlugeDocumentFromJSON exampleBuildEnv "1"
          [("when", .string "yesterday")] "{}" =
        some (.error (.timeParse "yesterday"), index1) ∧
      ∀ reason cause,
        (GoError.timeParse "yesterday") ≠ .typed ⟨.MappingException, reason, cause⟩ :=
  ⟨_, rfl, fun _ _ h => GoError.noConfusion h⟩

/-- C25 (amended): `BuildBlugeDocumentFromJSON` returns no `MappingException`: the only
errors it returns are the error of `time.Parse` and the message of the `keyword` case.
When the loop reaches an indexed field that the index maps as `time` and whose value is a
string that is not RFC3339, it returns the error of `time.Parse` and no document; when it
reaches an indexed field mapped as `keyword` whose value is neither a boolean nor a string,
it returns the error `keyword type only support text` and no document. -/
theorem Build_rejects_unfit_values (env : BuildEnv) (index : MappedIndex) (docID : String)
    (pre post : List (String × Value)) (key : String) (value : Value) (docByteVal : String)
    (st : BuildState) (prop : Property)
    (hpre : buildLoop env ⟨index.mappingsOrNew, false, NewDocument docID⟩ pre =
      some (none, st))
    (hprop : index.property key = some prop) (hindex : prop.Index = true) :
    (prop.Type_ = "time" → ∀ s, value = .string s → env.parseRFC3339 s = none →
      index.BuildBlugeDocumentFromJSON env docID (pre ++ (key, value) :: post) docByteVal =
        some (.error (.timeParse s), index.seenThrough index st.mappings)) ∧
    (prop.Type_ = "keyword" → value ≠ .null → (∀ b, value ≠ .bool b) →
      (∀ s, value ≠ .string s) →
      index.BuildBlugeDocumentFromJSON env docID (pre ++ (key, value) :: post) docByteVal =
        some (.error (.plain "keyword type only support text"),
          index.seenThrough index st.mappings)) ∧
    (∀ (flatDoc : List (String × Value)) err index1,
      index.BuildBlugeDocumentFromJSON env docID flatDoc docByteVal =
        some (.error err, index1) →
      (∃ s, err = .timeParse s) ∨ err = .plain "keyword type only support text") := by
  obtain ⟨hkeep, _, _, _⟩ := buildLoop_frame env pre _ st none hpre
  have hstart : index.mappingsOrNew.get key = some prop := by
    unfold MappedIndex.property at hprop
    unfold MappedIndex.mappingsOrNew
    cases hc : index.CachedMappings with
    | none => simp [hc] at hprop
    | some m => simpa [hc] using hprop
  have hst : st.mappings.get key = some prop := hkeep key prop hstart
  have hreturn : ∀ err, newField env prop.Type_ key value = some (.error err) →
      value ≠ .null →
      index.BuildBlugeDocumentFromJSON env docID (pre ++ (key, value) :: post) docByteVal =
        some (.error err, index.seenThrough index st.mappings) := by
    intro err hfield hnn
    have hstep := buildStep_mapped env st key value prop hst hindex hnn err hfield
    simp only [MappedIndex.BuildBlugeDocumentFromJSON, buildLoop_append env pre _ _ st hpre,
      buildLoop, hstep]
  refine ⟨?_, ?_, ?_⟩
  · intro htyp s hv hparse
    subst hv
    exact hreturn _ (by simp [newField, htyp, hparse]) (fun hc => Value.noConfusion hc)
  · intro htyp hnn hb hs
    refine hreturn _ ?_ hnn
    cases value with
    | bool b => exact absurd rfl (hb b)
    | string s => exact absurd rfl (hs s)
    | null => exact absurd rfl hnn
    | float64 x => simp [newField, htyp]
    | time t => simp [newField, htyp]
    | other t => simp [newField, htyp]
  · intro flatDoc err index1 h
    simp only [MappedIndex.BuildBlugeDocumentFromJSON] at h
    cases hl : buildLoop env ⟨index.mappingsOrNew, false, NewDocument docID⟩ flatDoc with
    | none => simp [hl] at h
    | some res =>
      obtain ⟨r, st2⟩ := res
      cases r with
      | none =>
        simp only [hl] at h
        cases hu : updateMappings env index st2 with
        | none => simp [hu] at h
        | some index2 => simp [hu] at h
      | some e =>
        simp only [hl, Option.some.injEq, Prod.mk.injEq, Except.error.injEq] at h
        obtain ⟨rfl, _⟩ := h
        exact (buildLoop_frame env flatDoc _ st2 (some e) hl).2.2.2 e rfl

/-- Instance of the amended C25: after the numeric leaf `year`, the loop reaches the leaf
`when`, mapped as `time`, whose string does not parse. -/
theorem Build_rejects_unfit_values_witness :
    datedIndex.property "when" = some { Type_ := "time" } ∧
    datedIndex.BuildBlugeDocumentFromJSON exampleBuildEnv "1"
        ([("year", .float64 ⟨2006⟩)] ++ [("when", .string "yesterday")]) "{}" =
      some (.error (.timeParse "yesterday"), datedIndex) :=
  ⟨rfl,
    (Build_rejects_unfit_values exampleBuildEnv datedIndex "1" [("year", .float64 ⟨2006⟩)] []
      "when" (.string "yesterday") "{}" _ { Type_ := "time" } rfl rfl rfl).1 rfl "yesterday"
      rfl rfl⟩

/-- A value of another Go type than the case of its mapped type asserts makes the builder
panic: the string `old` under the `numeric` field `year`. -/
theorem Build_panics_on_string_under_numeric :
    datedIndex.BuildBlugeDocumentFromJSON exampleBuildEnv "1" [("year", .string "old")] "{}" =
      none :=
  rfl

/-! ## The handler `SetMapping` -/

theorem firstMappedField_spec (im : Mappings) :
    ∀ (req : List (String × Property)),
      (∀ field, firstMappedField im req = some field →
        field ∈ req.map Prod.fst ∧ (im.get field).isSome = true) ∧
      (firstMappedField im req = none ↔ ∀ field ∈ req.map Prod.fst, im.get field = none) := by
  intro req
  induction req with
  | nil => simp [firstMappedField]
  | cons fp rest ih =>
    obtain ⟨f, p⟩ := fp
    by_cases hf : (im.GetProperty f).isSome = true
    · have hget : (im.get f).isSome = true := hf
      refine ⟨?_, ?_⟩
      · intro field h
        simp only [firstMappedField, hf, if_true, Option.some.injEq] at h
        subst h
        exact ⟨by simp, hget⟩
      · simp only [firstMappedField, hf, if_true, List.map_cons, List.mem_cons,
          forall_eq_or_imp]
        constructor
        · intro h
          cases h
        · intro h
          rw [h.1] at hget
          cases hget
    · have hget : im.get f = none := by
        have : (im.get f).isSome = false := by simpa [Mappings.GetProperty] using hf
        simpa using this
      refine ⟨?_, ?_⟩
      · intro field h
        simp only [firstMappedField, hf, if_false, Bool.false_eq_true] at h
        obtain ⟨h1, h2⟩ := ih.1 field h
        exact ⟨by simp [h1], h2⟩
      · simp only [firstMappedField, hf, if_false, Bool.false_eq_true, List.map_cons,
          List.mem_cons, forall_eq_or_imp, hget, true_and]
        exact ih.2

theorem lookup_none_of_not_mem_keys (l : List (String × Property)) (k : String)
    (h : k ∉ l.map Prod.fst) : l.lookup k = none := by
  induction l with
  | nil => rfl
  | cons e rest ih =>
    obtain ⟨a, b⟩ := e
    simp only [List.map_cons, List.mem_cons, not_or] at h
    have hka : (k == a) = false := by simpa using h.1
    simp only [List.lookup_cons, hka]
    exact ih h.2

theorem addProperties_spec :
    ∀ (req : List (String × Property)) (im : Mappings), im.nilMap = false →
      (req.map Prod.fst).Nodup →
      ∃ m1, addProperties (some im) req = some (some m1) ∧ m1.nilMap = false ∧
        (0 < im.Len → 0 < m1.Len) ∧
        (∀ k p, req.lookup k = some p → m1.get k = some p) ∧
        (∀ k, req.lookup k = none → m1.get k = im.get k) := by
  intro req
  induction req with
  | nil =>
    intro im hn _
    exact ⟨im, rfl, hn, id, fun _ _ h => by simp at h, fun _ _ => rfl⟩
  | cons fp rest ih =>
    intro im hn hnodup
    obtain ⟨f, p⟩ := fp
    simp only [List.map_cons, List.nodup_cons] at hnodup
    obtain ⟨im1, ha⟩ := assign_total im f p hn
    obtain ⟨_, hn1, hlen1⟩ := assign_nilMap im im1 f p ha
    obtain ⟨m1, hadd, hnm, _, hreq, hold⟩ := ih im1 hn1 hnodup.2
    have hrest : rest.lookup f = none := lookup_none_of_not_mem_keys rest f hnodup.1
    refine ⟨m1, by simp [addProperties, Mappings.SetProperty, ha, hadd], hnm,
      fun _ => ?_, ?_, ?_⟩
    · obtain ⟨m2, hadd2, _, hpos, _, _⟩ := ih im1 hn1 hnodup.2
      rw [hadd] at hadd2
      cases hadd2
      exact hpos hlen1
    · intro k q hk
      by_cases hkf : k = f
      · subst hkf
        simp only [List.lookup_cons, beq_self_eq_true, Option.some.injEq] at hk
        subst hk
        rw [hold k hrest, assign_get im im1 k p ha k, if_pos rfl]
      · have hkb : (k == f) = false := by simpa using hkf
        simp only [List.lookup_cons, hkb] at hk
        exact hreq k q hk
    · intro k hk
      by_cases hkf : k = f
      · subst hkf
        simp [List.lookup_cons] at hk
      · have hkb : (k == f) = false := by simpa using hkf
        simp only [List.lookup_cons, hkb] at hk
        rw [hold k hk, assign_get im im1 f p ha k, if_neg hkf]

/-- C22, as stated, fails for the property `@timestamp`: the index maps only `@timestamp`,
as a `keyword`; a request that names only the new field `title` is accepted (status 200),
and afterwards `@timestamp` is mapped to the default `time` property: an existing property
was changed, because the handler passes the merged mappings to `SetMappings`. -/
theorem SetMapping_resets_existing_timestamp :
    keywordStampIndex.property "@timestamp" = some { Type_ := "keyword" } ∧
    ∃ index1,
      SetMapping exampleBuildEnv exampleMappingEnv "games"
          (.ok { Properties := [("title", { Type_ := "text" })] }) (some keywordStampIndex) =
        some ({ status := 200, Message := "ok" }, some index1) ∧
      index1.property "title" = some { Type_ := "text" } ∧
      index1.property "@timestamp" = some { Type_ := "time" } :=
  ⟨rfl, _, rfl, rfl, rfl⟩

/-- C22 (amended): on an index whose mapping is non-empty, a request that names a field
already mapped is answered with status 400 and leaves the index as it was (the check of all
fields precedes any insertion); a request naming only new fields is carried out (status 200,
or 500 when the index cannot be stored): every field it names is mapped as requested and
every existing property is left unchanged, in both cases except `@timestamp`, which
`SetMappings` sets to the default `time` property. -/
theorem SetMapping_keeps_existing_properties (env : BuildEnv) (menv : MappingEnv)
    (indexName : String) (req : Mappings) (index : MappedIndex) (im : Mappings)
    (hname : indexName ≠ "") (him : index.CachedMappings = some im) (hlen : 0 < im.Len)
    (hnil : im.nilMap = false) (hnodup : (req.ListProperty.map Prod.fst).Nodup) :
    ((∃ field ∈ req.ListProperty.map Prod.fst, (im.get field).isSome = true) →
      ∃ field, field ∈ req.ListProperty.map Prod.fst ∧ (im.get field).isSome = true ∧
        SetMapping env menv indexName (.ok req) (some index) =
          some ({ status := 400,
                  Error := "index [" ++ indexName ++ "] already exists mapping of field ["
                    ++ field ++ "]" }, some index)) ∧
    ((∀ field ∈ req.ListProperty.map Prod.fst, im.get field = none) →
      ∃ resp index1,
        SetMapping env menv indexName (.ok req) (some index) = some (resp, some index1) ∧
        (resp.status = 200 ∨ resp.status = 500) ∧
        index1.property "@timestamp" = some (env.NewProperty "time") ∧
        (∀ k p, k ≠ "@timestamp" → req.get k = some p → index1.property k = some p) ∧
        (∀ k, k ≠ "@timestamp" → req.get k = none → index1.property k = im.get k)) := by
  obtain ⟨hfirst, hnone⟩ := firstMappedField_spec im req.ListProperty
  have hlen1 : im.Len > 0 := hlen
  refine ⟨?_, ?_⟩
  · rintro ⟨field0, hmem0, hsome0⟩
    cases hc : firstMappedField im req.ListProperty with
    | none =>
      have := (hnone.1 hc) field0 hmem0
      rw [this] at hsome0
      cases hsome0
    | some field =>
      obtain ⟨h1, h2⟩ := hfirst field hc
      refine ⟨field, h1, h2, ?_⟩
      simp only [SetMapping, hname, if_false, him, hlen1, if_true, hc]
  · intro hnew
    have hc : firstMappedField im req.ListProperty = none := hnone.2 hnew
    obtain ⟨m1, hadd, hnm, hpos, hreq, hold⟩ :=
      addProperties_spec req.ListProperty im hnil hnodup
    have hm1 : m1.Len > 0 := hpos hlen
    obtain ⟨m2, ha⟩ := assign_total m1 "@timestamp" (env.NewProperty "time") hnm
    -- what `SetMappings` answers on the merged mappings
    obtain ⟨err, indexS, hset⟩ : ∃ err indexS,
        ({ index with CachedMappings := some m1 } : MappedIndex).SetMappings env (some m1) =
          some (err, indexS, m2) := by
      simp only [MappedIndex.SetMappings, ha]
      split
      · exact ⟨_, _, rfl⟩
      · exact ⟨_, _, rfl⟩
    have hprop : ∀ k, ({ indexS with CachedMappings := some m2 } : MappedIndex).property k =
        if k = "@timestamp" then some (env.NewProperty "time") else m1.get k := by
      intro k
      simp [MappedIndex.property, assign_get m1 m2 _ _ ha k]
    have hfacts :
        ({ indexS with CachedMappings := some m2 } : MappedIndex).property "@timestamp" =
            some (env.NewProperty "time") ∧
        (∀ k p, k ≠ "@timestamp" → req.get k = some p →
          ({ indexS with CachedMappings := some m2 } : MappedIndex).property k = some p) ∧
        (∀ k, k ≠ "@timestamp" → req.get k = none →
          ({ indexS with CachedMappings := some m2 } : MappedIndex).property k = im.get k) := by
      refine ⟨by rw [hprop, if_pos rfl], ?_, ?_⟩
      · intro k p hk hg
        rw [hprop, if_neg hk]
        exact hreq k p hg
      · intro k hk hg
        rw [hprop, if_neg hk]
        exact hold k hg
    cases hstore : menv.StoreIndex { indexS with CachedMappings := some m2 } with
    | some e =>
      refine ⟨{ status := 500, Error := e }, _, ?_, Or.inr rfl, hfacts⟩
      simp [SetMapping, hname, him, hlen1, hc, hadd, storeMappings, hm1, hset, hstore]
    | none =>
      refine ⟨{ status := 200, Message := "ok" }, _, ?_, Or.inl rfl, hfacts⟩
      simp [SetMapping, hname, him, hlen1, hc, hadd, storeMappings, hm1, hset, hstore]

/-- Instance of the amended C22: the index `games` maps `title`; one request names `title`
again, another names only the new field `city`. -/
theorem SetMapping_keeps_existing_properties_witness :
    (∃ field, field ∈ [("title", ({ Type_ := "keyword" } : Property))].map Prod.fst ∧
      SetMapping exampleBuildEnv exampleMappingEnv "games"
          (.ok { Properties := [("title", { Type_ := "keyword" })] }) (some titledIndex) =
        some ({ status := 400,
                Error := "index [" ++ "games" ++ "] already exists mapping of field ["
                  ++ field ++ "]" }, some titledIndex)) ∧
    ∃ resp index1,
      SetMapping exampleBuildEnv exampleMappingEnv "games"
          (.ok { Properties := [("city", { Type_ := "keyword" })] }) (some titledIndex) =
        some (resp, some index1) ∧
      index1.property "city" = some { Type_ := "keyword" } ∧
      index1.property "title" = some { Type_ := "text" } :=
  ⟨((SetMapping_keeps_existing_properties exampleBuildEnv exampleMappingEnv "games"
      { Properties := [("title", { Type_ := "keyword" })] } titledIndex
      { Properties := [("@timestamp", { Type_ := "time" }), ("title", { Type_ := "text" })] }
      (by decide) rfl (by decide) rfl (by decide)).1 ⟨"title", by decide, rfl⟩).imp
      (fun _ h => ⟨h.1, h.2.2⟩),
    ((SetMapping_keeps_existing_properties exampleBuildEnv exampleMappingEnv "games"
      { Properties := [("city", { Type_ := "keyword" })] } titledIndex
      { Properties := [("@timestamp", { Type_ := "time" }), ("title", { Type_ := "text" })] }
      (by decide) rfl (by decide) rfl (by decide)).2 (by decide)).imp
      (fun _ h => h.imp (fun _ h1 =>
        ⟨h1.1, h1.2.2.2.1 "city" _ (by decide) rfl, h1.2.2.2.2 "title" (by decide) rfl⟩))⟩

end Zinc
